import Mathlib

/-!
# Glitcher: the glitch-effect pipeline of `glitch.go`

A shallow embedding of the pixel pipeline of `src/glitch.go` and the properties
its specification states about it.

Modelling conventions.

* A raster (`*image.RGBA`) has bounds `(0,0)-(W,H)`, which is what the PNG and
  JPEG decoders hand to `imageToRGBA`; its buffer is a map from coordinates to
  colours. `At`, `RGBAAt` and `Set` carry the library's bounds checks: a read
  outside the bounds yields the zero colour, a write outside is dropped.
* Go `int` is 64 bits wide. The pixel effects are written over unbounded
  integers, which is exact as long as every float-to-int conversion stays
  inside `[-2^63, 2^63)`: with an intensity of at most 9 every value they
  compute is bounded by the raster's dimensions. Where the width matters the
  counter wraps (`wrapInt`) and a float that does not fit converts to a value
  the platform chooses (`intOfFloat`): the row loop of `applyScanLines` for an
  arbitrary intensity (`applyScanLines64`) and the frame loop of `main`
  (`gifFrames`).
* A `float32` is the rational it denotes (NaN and the infinities are left out;
  the float64 flag read by `main` has them, `Float64`). Every float32 operation
  is the exact operation followed by `f32`, rounding to the nearest 24-bit
  significand, ties to even, with an unbounded exponent. A float-to-int
  conversion truncates toward zero.
* The process-wide random source is a stream of raw draws. `Intn n` fails (the
  library panics) when `n ≤ 0`; otherwise it returns the next raw draw reduced
  into `[0,n)`. The call `rand.Seed` is a map from the seed to the stream the
  source yields after the call: `seedRestarts` is the library up to Go 1.23,
  `seedNoOp` the library from Go 1.24 on, where the call has no effect.
* A run-time panic is the result `none`.
-/

set_option linter.unusedVariables false

namespace Glitcher

/-! ## float32 arithmetic -/

/-- Round a rational to the nearest integer, ties to the even one. -/
def roundHalfEven (r : ℚ) : ℤ :=
  if r - ⌊r⌋ < 1 / 2 then ⌊r⌋
  else if 1 / 2 < r - ⌊r⌋ then ⌊r⌋ + 1
  else if ⌊r⌋ % 2 = 0 then ⌊r⌋ else ⌊r⌋ + 1

/-- Unit in the last place of a float32 of the magnitude of `x`:
`2 ^ (e - 23)` where `2 ^ e ≤ |x| < 2 ^ (e + 1)`. -/
def ulp32 (x : ℚ) : ℚ := (2 : ℚ) ^ (Int.log 2 |x| - 23)

/-- Result of a float32 operation whose exact value is `x`: the nearest
number with a 24-bit significand, ties to even. -/
def f32 (x : ℚ) : ℚ :=
  if x = 0 then 0 else (roundHalfEven (x / ulp32 x) : ℚ) * ulp32 x

/-- Go conversion `int(x)` of a float: the fraction is discarded
(truncation toward zero). -/
def truncInt (x : ℚ) : ℤ := if 0 ≤ x then ⌊x⌋ else ⌈x⌉

/-- Go `int` arithmetic on a 64-bit platform: a result outside
`[-2^63, 2^63)` wraps around. -/
def wrapInt (x : ℤ) : ℤ := (x + 2 ^ 63) % 2 ^ 64 - 2 ^ 63

/-- Go conversion `int(x)` of a float on a 64-bit platform. A value whose
truncation lies in `[-2^63, 2^63)` converts to it; for any other value the
language leaves the result to the implementation, here the argument `oor`
(amd64 yields `-2^63`). -/
def intOfFloat (oor : ℤ) (x : ℚ) : ℤ :=
  if -2 ^ 63 ≤ truncInt x ∧ truncInt x < 2 ^ 63 then truncInt x else oor

/-! ## colours and rasters -/

/-- An `uint8(n)` conversion. -/
def uint8 (n : ℕ) : Fin 256 := ⟨n % 256, Nat.mod_lt n (by decide)⟩

/-- The type `color.RGBA`: four 8-bit channels. -/
structure ColorRGBA where
  R : Fin 256
  G : Fin 256
  B : Fin 256
  A : Fin 256
deriving DecidableEq, Repr

/-- The zero value `color.RGBA{}`. -/
def ColorRGBA.zero : ColorRGBA := ⟨0, 0, 0, 0⟩

/-- The method `color.RGBA.RGBA()`: every channel `v` widened to 16 bits as
`v | v << 8`. -/
def ColorRGBA.RGBA (c : ColorRGBA) : ℕ × ℕ × ℕ × ℕ :=
  (c.R.val ||| (c.R.val <<< 8), c.G.val ||| (c.G.val <<< 8),
   c.B.val ||| (c.B.val <<< 8), c.A.val ||| (c.A.val <<< 8))

/-- The type `image.RGBA` with bounds `(0,0)-(W,H)`. -/
structure ImageRGBA where
  W : ℕ
  H : ℕ
  pix : ℤ → ℤ → ColorRGBA

/-- Bounds test `(image.Point{x, y}).In(img.Rect)`. -/
def ImageRGBA.inBounds (img : ImageRGBA) (x y : ℤ) : Bool :=
  decide (0 ≤ x) && decide (x < img.W) && decide (0 ≤ y) && decide (y < img.H)

/-- The method `img.At(x, y)`: the zero colour outside the bounds. -/
def ImageRGBA.At (img : ImageRGBA) (x y : ℤ) : ColorRGBA :=
  if img.inBounds x y then img.pix x y else ColorRGBA.zero

/-- The method `img.RGBAAt(x, y)`: the zero colour outside the bounds. -/
def ImageRGBA.RGBAAt (img : ImageRGBA) (x y : ℤ) : ColorRGBA :=
  if img.inBounds x y then img.pix x y else ColorRGBA.zero

/-- The method `img.Set(x, y, c)`: no effect outside the bounds. -/
def ImageRGBA.Set (img : ImageRGBA) (x y : ℤ) (c : ColorRGBA) : ImageRGBA :=
  if img.inBounds x y then
    { img with pix := fun u v => if u = x ∧ v = y then c else img.pix u v }
  else img

/-- The call `image.NewRGBA(image.Rect(0, 0, w, h))`: a zeroed raster. For a
negative `w` the library's rectangle is `[w,0)`, which holds no coordinate
`≥ 0`; the chunk code only uses coordinates `≥ 0`, where width `0` reads and
writes the same. -/
def NewRGBA (w h : ℤ) : ImageRGBA := ⟨w.toNat, h.toNat, fun _ _ => ColorRGBA.zero⟩

/-- Pixels of row `y`, left to right. -/
def ImageRGBA.row (img : ImageRGBA) (y : ℤ) : List ColorRGBA :=
  (List.range img.W).map (fun (x : ℕ) => img.At (x : ℤ) y)

/-- All rows, top to bottom. -/
def ImageRGBA.rows (img : ImageRGBA) : List (List ColorRGBA) :=
  (List.range img.H).map (fun (y : ℕ) => img.row (y : ℤ))

/-! ## loops -/

/-- Counted loop `for i := lo; ...; i++ { s = body i s }` running `n` times
from `lo`. -/
def forLoop {σ : Type} (body : ℤ → σ → σ) : ℕ → ℤ → σ → σ
  | 0, _, s => s
  | n + 1, i, s => forLoop body n (i + 1) (body i s)

/-- Loop `for i := lo; i < hi; i++`. -/
def forRange {σ : Type} (lo hi : ℤ) (body : ℤ → σ → σ) (s : σ) : σ :=
  forLoop body (hi - lo).toNat lo s

/-- Counted loop whose body may panic. -/
def forLoopM {σ : Type} (body : ℤ → σ → Option σ) : ℕ → ℤ → σ → Option σ
  | 0, _, s => some s
  | n + 1, i, s =>
    match body i s with
    | none => none
    | some t => forLoopM body n (i + 1) t

/-- Loop `for i := lo; i < hi; i++` whose body may panic. -/
def forRangeM {σ : Type} (lo hi : ℤ) (body : ℤ → σ → Option σ) (s : σ) : Option σ :=
  forLoopM body (hi - lo).toNat lo s

/-! ## the random source -/

/-- State of the process-wide source of package `math/rand`: the raw draws
still to come. -/
structure Rand where
  draws : ℕ → ℕ

/-- The call `rand.Intn(n)`: panics for `n ≤ 0`, else consumes one draw and
returns a value of `[0,n)`. -/
def Intn (n : ℤ) (r : Rand) : Option (ℤ × Rand) :=
  if n ≤ 0 then none
  else some ((r.draws 0 : ℤ) % n, ⟨fun i => r.draws (i + 1)⟩)

/-- The call `rand.Seed(s)` as the library defines it up to Go 1.23 (and
later under `GODEBUG=randseednop=0`): whatever state `prior` the process-wide
source is in, it restarts on the stream `gen s` of the generator. -/
def seedRestarts (gen : ℤ → Rand) (prior : Rand) (s : ℤ) : Rand := gen s

/-- The call `rand.Seed(s)` from Go 1.24 on: it has no effect, the source
stays in the state `prior` the process gave it. -/
def seedNoOp (prior : Rand) (s : ℤ) : Rand := prior

/-! ## helpers of `glitch.go` -/

/-- Source function `min` (lines 245-250). -/
def min (a b : ℤ) : ℤ := if a < b then a else b

/-- Source function `max` on float32 (lines 253-258). -/
def max (a b : ℚ) : ℚ := if a > b then a else b

/-- Source function `extractChunk` (lines 225-233). -/
def extractChunk (img : ImageRGBA) (startY stopY startX stopX : ℤ) : ImageRGBA :=
  forRange startY stopY (fun y chunk =>
    forRange startX stopX (fun x chunk =>
      chunk.Set (x - startX) (y - startY) (img.At x y)) chunk)
    (NewRGBA (stopX - startX) (stopY - startY))

/-- Source function `placeChunk` (lines 236-242). -/
def placeChunk (img chunk : ImageRGBA) (startY stopY startX stopX : ℤ) : ImageRGBA :=
  forRange startY stopY (fun y img =>
    forRange startX stopX (fun x img =>
      img.Set x y (chunk.At (x - startX) (y - startY))) img) img

/-! ## sort.Slice -/

/-- Inner loop of the library's insertion sort: the new element `a` is swapped
leftward while `less a b` holds for its left neighbour `b`. The argument is the
sorted part, nearest neighbour first. -/
def sink {α : Type} (less : α → α → Bool) (a : α) : List α → List α
  | [] => [a]
  | b :: rest => if less a b then b :: sink less a rest else a :: b :: rest

/-- The call `sort.Slice(row, less)`, as the insertion sort the library runs on
short slices. On longer slices the library's quicksort may order elements that
compare equal differently; the results below use only that the outcome is
ordered by `less` and is a rearrangement of the input. -/
def sortSlice {α : Type} (less : α → α → Bool) (l : List α) : List α :=
  (l.foldl (fun acc a => sink less a acc) []).reverse

/-! ## the effects -/

/-- Source function `isBlackImage` (lines 117-127). -/
def isBlackImage (img : ImageRGBA) : Bool :=
  (List.range img.H).all (fun (y : ℕ) =>
    (List.range img.W).all (fun (x : ℕ) =>
      match (img.At (x : ℤ) (y : ℤ)).RGBA with
      | (r, g, b, a) => !(r != 0 || g != 0 || b != 0 || a != 0)))

/-- Row loop of `applyScanLines`: `for y := y0; y < H; y += step`, every
column of row `y` set to opaque black. The first argument bounds the number of
iterations. -/
def scanRows (step : ℤ) : ℕ → ℤ → ImageRGBA → ImageRGBA
  | 0, _, img => img
  | fuel + 1, y, img =>
    if y < img.H then
      scanRows step fuel (y + step)
        (forRange 0 img.W (fun x img => img.Set x y ⟨0, 0, 0, 255⟩) img)
    else img

/-- Source function `applyScanLines` (lines 130-137), for an intensity below
`2^63`, where `int(max(1, glitchFactor))` is the truncation. The step is at
least 1, so the row loop ends within `H` iterations. -/
def applyScanLines (img : ImageRGBA) (glitchFactor : ℚ) : ImageRGBA :=
  scanRows (truncInt (max 1 glitchFactor)) img.H 0 img

/-- Row loop of `applyScanLines` with its 64-bit counter:
`for y := y0; y < H; y += step`, the sum wrapping. The first argument bounds
the number of iterations; a loop that would go on beyond it has no result. -/
def scanRows64 (step : ℤ) : ℕ → ℤ → ImageRGBA → Option ImageRGBA
  | 0, y, img => if y < img.H then none else some img
  | fuel + 1, y, img =>
    if y < img.H then
      scanRows64 step fuel (wrapInt (y + step))
        (forRange 0 img.W (fun x img => img.Set x y ⟨0, 0, 0, 255⟩) img)
    else some img

/-- Source function `applyScanLines` (lines 130-137) for every intensity, on a
64-bit platform whose out-of-range float-to-int conversion yields `oor`. The
counter takes at most `2^64` values and the test `y < H` depends on it alone,
so a loop still running after `2^64` rounds never ends: the result is `none`. -/
def applyScanLines64 (oor : ℤ) (img : ImageRGBA) (glitchFactor : ℚ) : Option ImageRGBA :=
  scanRows64 (intOfFloat oor (max 1 glitchFactor)) (2 ^ 64) 0 img

/-- Comparison closure of `applyPixelSort` (lines 146-150), in uint32
arithmetic. -/
def brightnessLess (ci cj : ColorRGBA) : Bool :=
  match ci.RGBA, cj.RGBA with
  | (ri, gi, bi, _), (rj, gj, bj, _) =>
    decide ((ri + gi + bi) % 2 ^ 32 < (rj + gj + bj) % 2 ^ 32)

/-- Source function `applyPixelSort` (lines 140-155). -/
def applyPixelSort (img : ImageRGBA) : ImageRGBA :=
  forRange 0 img.H (fun y img =>
    forRange 0 img.W (fun x im =>
      im.Set x y ((sortSlice brightnessLess (img.row y)).getD x.toNat ColorRGBA.zero)) img) img

/-- Loop body of `applyColorOffset` (lines 165-175) for the pixel `(x,y)`. -/
def colorOffsetPixel (channel offsetX offsetY x y : ℤ) (img : ImageRGBA) : ImageRGBA :=
  match (img.RGBAAt (Int.tmod (x + offsetX + img.W) img.W)
      (Int.tmod (y + offsetY + img.H) img.H)).RGBA with
  | (r, g, b, a) =>
    if channel = 0 then
      img.Set x y ⟨uint8 (r >>> 8), (img.RGBAAt x y).G, (img.RGBAAt x y).B, uint8 (a >>> 8)⟩
    else if channel = 1 then
      img.Set x y ⟨(img.RGBAAt x y).R, uint8 (g >>> 8), (img.RGBAAt x y).B, uint8 (a >>> 8)⟩
    else if channel = 2 then
      img.Set x y ⟨(img.RGBAAt x y).R, (img.RGBAAt x y).G, uint8 (b >>> 8), uint8 (a >>> 8)⟩
    else img

/-- Bound of the two offset draws of `applyColorOffset`:
`int(glitchFactor*2+1)`. -/
def offsetRange (glitchFactor : ℚ) : ℤ := truncInt (f32 (f32 (glitchFactor * 2) + 1))

/-- The three draws of `applyColorOffset` (lines 160-162): `offsetX`,
`offsetY` and `channel`. -/
def colorOffsetDraws (glitchFactor : ℚ) (r : Rand) : Option ((ℤ × ℤ × ℤ) × Rand) :=
  match Intn (offsetRange glitchFactor) r with
  | none => none
  | some (dx, r1) =>
    match Intn (offsetRange glitchFactor) r1 with
    | none => none
    | some (dy, r2) =>
      match Intn 3 r2 with
      | none => none
      | some (channel, r3) =>
        some ((dx - truncInt glitchFactor, dy - truncInt glitchFactor, channel), r3)

/-- Source function `applyColorOffset` (lines 158-178): the rows top to bottom,
each left to right, on the raster as mutated so far. -/
def applyColorOffset (img : ImageRGBA) (glitchFactor : ℚ) (r : Rand) :
    Option (ImageRGBA × Rand) :=
  match colorOffsetDraws glitchFactor r with
  | none => none
  | some ((offsetX, offsetY, channel), r3) =>
    some (forRange 0 img.H (fun y img =>
      forRange 0 img.W (fun x img => colorOffsetPixel channel offsetX offsetY x y img) img) img,
      r3)

/-- Source function `glitchLeft` (lines 197-208). -/
def glitchLeft (img : ImageRGBA) (offset : ℤ) (r : Rand) : Option (ImageRGBA × Rand) :=
  match Intn img.H r with
  | none => none
  | some (startY, r1) =>
    match Intn (Int.tdiv img.H 4) r1 with
    | none => none
    | some (c, r2) =>
      let chunkHeight := Glitcher.min (c + 1) (img.H - startY)
      let stopY := startY + chunkHeight
      let startX := offset
      let stopX := img.W - offset
      let leftChunk := extractChunk img startY stopY startX img.W
      let wrapChunk := extractChunk img startY stopY 0 startX
      some (placeChunk (placeChunk img leftChunk startY stopY 0 stopX)
        wrapChunk startY stopY stopX img.W, r2)

/-- Source function `glitchRight` (lines 211-222). -/
def glitchRight (img : ImageRGBA) (offset : ℤ) (r : Rand) : Option (ImageRGBA × Rand) :=
  match Intn img.H r with
  | none => none
  | some (startY, r1) =>
    match Intn (Int.tdiv img.H 4) r1 with
    | none => none
    | some (c, r2) =>
      let chunkHeight := Glitcher.min (c + 1) (img.H - startY)
      let stopY := startY + chunkHeight
      let stopX := img.W - offset
      let startX := offset
      let rightChunk := extractChunk img startY stopY 0 stopX
      let wrapChunk := extractChunk img startY stopY stopX img.W
      some (placeChunk (placeChunk img rightChunk startY stopY startX img.W)
        wrapChunk startY stopY 0 startX, r2)

/-- The bound `maxOffset` of `applyRandomGlitch` (line 182):
`int(glitchFactor * float32(width) / 10)`. -/
def maxOffsetOf (glitchFactor : ℚ) (width : ℕ) : ℤ :=
  truncInt (f32 (f32 (glitchFactor * f32 width) / 10))

/-- Loop body of `applyRandomGlitch` (lines 184-192). -/
def randomGlitchStep (maxOffset : ℤ) (s : ImageRGBA × Rand) : Option (ImageRGBA × Rand) :=
  match Intn (2 * maxOffset) s.2 with
  | none => none
  | some (d, r1) =>
    if d - maxOffset = 0 then some (s.1, r1)
    else if d - maxOffset < 0 then glitchLeft s.1 (-(d - maxOffset)) r1
    else glitchRight s.1 (d - maxOffset) r1

/-- Source function `applyRandomGlitch` (lines 181-194). -/
def applyRandomGlitch (img : ImageRGBA) (glitchFactor : ℚ) (r : Rand) :
    Option (ImageRGBA × Rand) :=
  forRangeM 0 (truncInt (f32 (glitchFactor * 2)))
    (fun _ s => randomGlitchStep (maxOffsetOf glitchFactor img.W) s) (img, r)

/-- Loop body of `applyRandomGlitch` (lines 184-192) with a record: the value
of the variable `offset` of line 184 is appended to a list each time the body
has run. -/
def randomGlitchStepLogged (maxOffset : ℤ) (s : (ImageRGBA × Rand) × List ℤ) :
    Option ((ImageRGBA × Rand) × List ℤ) :=
  match Intn (2 * maxOffset) s.1.2 with
  | none => none
  | some (d, r1) =>
    let offset := d - maxOffset
    if offset = 0 then some ((s.1.1, r1), s.2 ++ [offset])
    else if offset < 0 then
      match glitchLeft s.1.1 (-offset) r1 with
      | none => none
      | some t => some (t, s.2 ++ [offset])
    else
      match glitchRight s.1.1 offset r1 with
      | none => none
      | some t => some (t, s.2 ++ [offset])

/-- Source function `applyRandomGlitch` (lines 181-194) with the record of the
offsets its iterations drew, first iteration first. -/
def applyRandomGlitchLogged (img : ImageRGBA) (glitchFactor : ℚ) (r : Rand) :
    Option ((ImageRGBA × Rand) × List ℤ) :=
  forRangeM 0 (truncInt (f32 (glitchFactor * 2)))
    (fun _ s => randomGlitchStepLogged (maxOffsetOf glitchFactor img.W) s) ((img, r), [])

/-! ## the engine -/

/-- The type `ImageGlitcher` (lines 60-64). -/
structure ImageGlitcher where
  ImgWidth : ℤ
  ImgHeight : ℤ
  Image : ImageRGBA
  Seed : ℤ

/-- What `GlitchImage` returns: the raster, or the black-image error. -/
inductive Outcome where
  | image (img : ImageRGBA)
  | blackImageError

/-- One iteration of the cycle loop of `GlitchImage` (lines 99-108). -/
def glitchCycle (glitchIntensity : ℚ) (scanLines pixelSort colorOffset : Bool)
    (s : ImageRGBA × Rand) : Option (ImageRGBA × Rand) :=
  let img1 := if scanLines then applyScanLines s.1 glitchIntensity else s.1
  let img2 := if pixelSort then applyPixelSort img1 else img1
  match (if colorOffset then applyColorOffset img2 glitchIntensity s.2 else some (img2, s.2)) with
  | none => none
  | some (img3, r3) => applyRandomGlitch img3 glitchIntensity r3

/-- The cycle loop of `GlitchImage` (lines 97-109), from the freshly seeded
source. -/
def glitchCycles (seed : ℤ → Rand) (ig : ImageGlitcher) (glitchIntensity : ℚ) (cycle : ℤ)
    (scanLines pixelSort colorOffset : Bool) : Option (ImageRGBA × Rand) :=
  forRangeM 0 cycle (fun _ s => glitchCycle glitchIntensity scanLines pixelSort colorOffset s)
    (ig.Image, seed ig.Seed)

/-- Source method `GlitchImage` (lines 96-114). The first argument is the
call `rand.Seed` of line 97: the stream the process-wide source yields once it
has been called with a seed (`seedRestarts gen prior` or `seedNoOp prior`).
The result is the glitcher after the call (its raster is mutated in place) and
the returned value. -/
def GlitchImage (seed : ℤ → Rand) (ig : ImageGlitcher) (glitchIntensity : ℚ) (cycle step : ℤ)
    (scanLines pixelSort colorOffset : Bool) : Option (ImageGlitcher × Outcome) :=
  match glitchCycles seed ig glitchIntensity cycle scanLines pixelSort colorOffset with
  | none => none
  | some (img, _) =>
    if isBlackImage img then some ({ ig with Image := img }, Outcome.blackImageError)
    else some ({ ig with Image := img }, Outcome.image img)

/-! ## predicates and sample inputs used by the statements -/

/-- Every pixel inside the bounds satisfies `P`. -/
def ImageRGBA.AllPixels (img : ImageRGBA) (P : ColorRGBA → Prop) : Prop :=
  ∀ x y : ℤ, 0 ≤ x → x < img.W → 0 ≤ y → y < img.H → P (img.At x y)

/-- All four channels are 0. -/
def ColorRGBA.IsZero (c : ColorRGBA) : Prop := c.R = 0 ∧ c.G = 0 ∧ c.B = 0 ∧ c.A = 0

/-- Raster of `w` by `h` pixels, all of colour `c`. -/
def uniformImage (w h : ℕ) (c : ColorRGBA) : ImageRGBA := ⟨w, h, fun _ _ => c⟩

/-- Glitcher holding the raster `img` and the seed `seed`. -/
def glitcherOf (img : ImageRGBA) (seed : ℤ) : ImageGlitcher := ⟨img.W, img.H, img, seed⟩

/-- Sum R+G+B of the 8-bit channel values of a colour. -/
def ColorRGBA.sumRGB (c : ColorRGBA) : ℕ := c.R.val + c.G.val + c.B.val

/-- A 5 by 4 raster whose pixels differ in brightness and in alpha from column
to column. -/
def sampleImage : ImageRGBA :=
  ⟨5, 4, fun x y => ⟨uint8 (200 - 40 * x.toNat), 10, uint8 (7 * y.toNat), uint8 (100 + x.toNat)⟩⟩

/-- A stream of draws: 0, 1, 2, ... -/
def sampleRand : Rand := ⟨fun i => i⟩

/-- A sample generator: the seed `s` starts the stream `s`, `s + 1`, ... -/
def sampleGen (s : ℤ) : Rand := ⟨fun i => s.toNat + i⟩

/-- Result of the random shift on the sample raster with intensity 2. -/
def sampleShifted : ImageRGBA × Rand :=
  (applyRandomGlitch sampleImage 2 sampleRand).getD (sampleImage, sampleRand)

/-- Step of the scan lines as the specification words it:
`max(1, round(f))`, rounding to the nearest integer. -/
def specScanStep (f : ℚ) : ℤ := Max.max 1 (round f)

/-- One cycle as the specification words it (section 4.7): scan-lines if
enabled, then pixel-sort if enabled, then color-offset if enabled, then the
random shift, the random stream handed from each effect to the next. -/
def specCycle (f : ℚ) (scanLines pixelSort colorOffset : Bool) (s : ImageRGBA × Rand) :
    Option (ImageRGBA × Rand) :=
  ((((some s).bind
      (fun s => some (if scanLines then applyScanLines s.1 f else s.1, s.2))).bind
      (fun s => some (if pixelSort then applyPixelSort s.1 else s.1, s.2))).bind
      (fun s => if colorOffset then applyColorOffset s.1 f s.2 else some s)).bind
      (fun s => applyRandomGlitch s.1 f s.2)

/-- The run as the specification words it: `n` cycles folded over one state,
each cycle starting from the raster and the stream the previous one left. -/
def specRun (f : ℚ) (scanLines pixelSort colorOffset : Bool) :
    ℕ → ImageRGBA × Rand → Option (ImageRGBA × Rand)
  | 0, s => some s
  | n + 1, s =>
    (specRun f scanLines pixelSort colorOffset n s).bind
      (specCycle f scanLines pixelSort colorOffset)

/-- A 2 by 4 raster, narrower than the largest color offset. -/
def narrowImage : ImageRGBA :=
  ⟨2, 4, fun x y => ⟨uint8 (10 + x.toNat), uint8 (20 + y.toNat), 30, 255⟩⟩

/-- Whether the returned value is a raster (no error). -/
def Outcome.isImage : Outcome → Bool
  | Outcome.image _ => true
  | Outcome.blackImageError => false

/-- A float64 value as the flag `-glitch-intensity` can hold it: the flag
package parses `NaN` and `Inf` as well as the finite numbers. -/
inductive Float64 where
  | finite (q : ℚ)
  | posInf
  | negInf
  | nan

/-- Comparison `x < c` of a float64 with a finite constant; false for NaN. -/
def Float64.lt (x : Float64) (c : ℚ) : Bool :=
  match x with
  | Float64.finite q => decide (q < c)
  | Float64.negInf => true
  | Float64.posInf => false
  | Float64.nan => false

/-- Comparison `x > c` of a float64 with a finite constant; false for NaN. -/
def Float64.gt (x : Float64) (c : ℚ) : Bool :=
  match x with
  | Float64.finite q => decide (q > c)
  | Float64.posInf => true
  | Float64.negInf => false
  | Float64.nan => false

/-- The float64 constant `0.1` of line 367: the float64 nearest to one tenth. -/
def float64Tenth : ℚ := 3602879701896397 / 36028797018963968

/-- What the still-image path of `main` does with the intensity flag: it ends
in `log.Fatalf` before the raster is touched, or calls the engine with the
value converted to float32, or calls the engine with NaN, a value the
embedding of the engine does not have. -/
inductive MainRun where
  | fatal
  | engine (result : Option (ImageGlitcher × Outcome))
  | engineNaN

/-- The still-image path of `main` from the intensity check to the engine call
(lines 366-369, 377-380, 387, 415). The check is
`*glitchIntensity < 0.1 || *glitchIntensity > 9.0`; both comparisons are false
for NaN, the only value that reaches the last branch. -/
def mainStill (seed : ℤ → Rand) (img : ImageRGBA) (randomSeed : ℤ) (glitchIntensity : Float64)
    (cycle step : ℤ) (scanLines pixelSort colorOffset : Bool) : MainRun :=
  if glitchIntensity.lt float64Tenth || glitchIntensity.gt 9 then MainRun.fatal
  else
    match glitchIntensity with
    | Float64.finite q =>
      MainRun.engine (GlitchImage seed ⟨img.W, img.H, img, randomSeed⟩ (f32 q) cycle step
        scanLines pixelSort colorOffset)
    | _ => MainRun.engineNaN

/-- Result of the engine on the sample raster with scan-lines and pixel-sort
on, intensity 2, one cycle. -/
def sampleScanned : ImageGlitcher × Outcome :=
  (GlitchImage (fun _ => sampleRand) (glitcherOf sampleImage 7) 2 1 1 true true false).getD
    (glitcherOf sampleImage 7, Outcome.blackImageError)

/-- State of the GIF frame loop of `main`: the glitcher (its raster evolves
from frame to frame) and the slices `images` and `delays`. The type `P` is
the paletted frame. -/
structure FrameState (P : Type) where
  glitcher : ImageGlitcher
  images : List P
  delays : List ℤ

/-- Body of the GIF frame loop of `main` (lines 398-406). A panic of the
engine and the `log.Fatalf` on its error both end the program (`none`). The
argument `quantize` is the library conversion of the returned raster to a new
paletted image (`image.NewPaletted` and `draw.FloydSteinberg.Draw`). -/
def gifFrameStep {P : Type} (seed : ℤ → Rand) (quantize : ImageRGBA → P) (f : ℚ)
    (cycle step delay : ℤ) (scanLines pixelSort colorOffset : Bool) (st : FrameState P) :
    Option (FrameState P) :=
  match GlitchImage seed st.glitcher f cycle step scanLines pixelSort colorOffset with
  | none => none
  | some (_, Outcome.blackImageError) => none
  | some (ig, Outcome.image img) =>
    some ⟨ig, st.images ++ [quantize img], st.delays ++ [delay]⟩

/-- The GIF frame loop of `main` (lines 397-407),
`for i := i0; i < frames; i += step`, the 64-bit sum wrapping. The first
argument bounds the number of iterations; a loop that would go on beyond it
has no result. -/
def gifFrames {P : Type} (seed : ℤ → Rand) (quantize : ImageRGBA → P) (f : ℚ)
    (cycle step delay frames : ℤ) (scanLines pixelSort colorOffset : Bool) :
    ℕ → ℤ → FrameState P → Option (FrameState P)
  | 0, i, st => if i < frames then none else some st
  | fuel + 1, i, st =>
    if i < frames then
      match gifFrameStep seed quantize f cycle step delay scanLines pixelSort colorOffset st with
      | none => none
      | some st1 =>
        gifFrames seed quantize f cycle step delay frames scanLines pixelSort colorOffset
          fuel (wrapInt (i + step)) st1
    else some st

/-- The GIF branch of `main` up to `saveGIF` (lines 393-407), from the fetched
glitcher and the parsed flags; the engine receives the intensity converted to
float32. The counter takes at most `2^64` values and the test `i < frames`
depends on it alone, so a loop still running after `2^64` rounds never ends:
the result is `none`. -/
def gifFrameLoop {P : Type} (seed : ℤ → Rand) (quantize : ImageRGBA → P) (ig : ImageGlitcher)
    (glitchIntensity : ℚ) (cycle step delay frames : ℤ)
    (scanLines pixelSort colorOffset : Bool) : Option (FrameState P) :=
  gifFrames seed quantize (f32 glitchIntensity) cycle step delay frames
    scanLines pixelSort colorOffset (2 ^ 64) 0 ⟨ig, [], []⟩

/-- Rasters returned by `k` successive engine calls on one glitcher, first
call first, and the glitcher the last call leaves; `none` if a call panics or
returns the error. -/
def engineCalls (seed : ℤ → Rand) (f : ℚ) (cycle step : ℤ)
    (scanLines pixelSort colorOffset : Bool) :
    ℕ → ImageGlitcher → Option (ImageGlitcher × List ImageRGBA)
  | 0, ig => some (ig, [])
  | k + 1, ig =>
    match GlitchImage seed ig f cycle step scanLines pixelSort colorOffset with
    | none => none
    | some (_, Outcome.blackImageError) => none
    | some (ig1, Outcome.image img) =>
      match engineCalls seed f cycle step scanLines pixelSort colorOffset k ig1 with
      | none => none
      | some (ig2, outs) => some (ig2, img :: outs)

/-- The five engine calls of the sequence scenario (10 frames, step 2) on the
sample raster with intensity 2. -/
def sampleSequence : ImageGlitcher × List ImageRGBA :=
  (engineCalls (fun _ => sampleRand) (f32 2) 1 2 false false false 5
    (glitcherOf sampleImage 7)).getD (glitcherOf sampleImage 7, [])

/-- Two rasters are equal pixel for pixel: same dimensions, same colour at
every coordinate. -/
def ImageRGBA.Same (a b : ImageRGBA) : Prop :=
  a.W = b.W ∧ a.H = b.H ∧ ∀ x y : ℤ, a.At x y = b.At x y

/-- Two intermediate results agree: both panicked, or the rasters are equal
pixel for pixel and the random streams are the same. -/
def SameRun : Option (ImageRGBA × Rand) → Option (ImageRGBA × Rand) → Prop
  | none, none => True
  | some (a, r), some (b, s) => a.Same b ∧ r = s
  | _, _ => False

/-- Two results of `GlitchImage` agree: both panicked, or both are the
black-image error, or both are rasters equal pixel for pixel; in the last two
cases the rasters left in the glitchers are equal pixel for pixel too. -/
def SameResult :
    Option (ImageGlitcher × Outcome) → Option (ImageGlitcher × Outcome) → Prop
  | none, none => True
  | some (g1, Outcome.blackImageError), some (g2, Outcome.blackImageError) =>
    g1.Image.Same g2.Image
  | some (g1, Outcome.image a), some (g2, Outcome.image b) =>
    a.Same b ∧ g1.Image.Same g2.Image
  | _, _ => False

/-! ## rasters: reads after writes -/

theorem inBounds_iff (img : ImageRGBA) (x y : ℤ) :
    img.inBounds x y = true ↔ (0 ≤ x ∧ x < img.W) ∧ (0 ≤ y ∧ y < img.H) := by
  simp [ImageRGBA.inBounds, and_assoc]

theorem RGBAAt_eq_At (img : ImageRGBA) (x y : ℤ) : img.RGBAAt x y = img.At x y := rfl

theorem At_of_inBounds (img : ImageRGBA) (x y : ℤ) (h : img.inBounds x y = true) :
    img.At x y = img.pix x y := by
  simp [ImageRGBA.At, h]

theorem At_of_not_inBounds (img : ImageRGBA) (x y : ℤ) (h : img.inBounds x y = false) :
    img.At x y = ColorRGBA.zero := by
  simp [ImageRGBA.At, h]

theorem Set_W (img : ImageRGBA) (x y : ℤ) (c : ColorRGBA) : (img.Set x y c).W = img.W := by
  unfold ImageRGBA.Set; split <;> rfl

theorem Set_H (img : ImageRGBA) (x y : ℤ) (c : ColorRGBA) : (img.Set x y c).H = img.H := by
  unfold ImageRGBA.Set; split <;> rfl

theorem Set_inBounds (img : ImageRGBA) (x y : ℤ) (c : ColorRGBA) (u v : ℤ) :
    (img.Set x y c).inBounds u v = img.inBounds u v := by
  simp [ImageRGBA.inBounds, Set_W, Set_H]

theorem Set_At (img : ImageRGBA) (x y : ℤ) (c : ColorRGBA) (u v : ℤ) :
    (img.Set x y c).At u v
      = if (u = x ∧ v = y) ∧ img.inBounds x y = true then c else img.At u v := by
  by_cases hb : img.inBounds x y = true
  · by_cases huv : u = x ∧ v = y
    · obtain ⟨rfl, rfl⟩ := huv
      have h1 : (img.Set u v c).inBounds u v = true := by rw [Set_inBounds]; exact hb
      rw [At_of_inBounds _ _ _ h1]
      simp [hb, ImageRGBA.Set]
    · simp only [ImageRGBA.At, Set_inBounds, huv, false_and, if_false]
      simp [ImageRGBA.Set, hb, huv]
  · simp [ImageRGBA.Set, hb]

/-! ## loops: invariants -/

theorem forLoop_ind {σ : Type} (body : ℤ → σ → σ) :
    ∀ (n : ℕ) (P : ℕ → σ → Prop) (lo : ℤ) (s : σ), P 0 s →
      (∀ (k : ℕ) (t : σ), k < n → P k t → P (k + 1) (body (lo + k) t)) →
      P n (forLoop body n lo s) := by
  intro n
  induction n with
  | zero => intro P lo s h0 _; exact h0
  | succ n ih =>
    intro P lo s h0 hstep
    show P (n + 1) (forLoop body n (lo + 1) (body lo s))
    apply ih (fun k t => P (k + 1) t) (lo + 1) (body lo s)
    · have := hstep 0 s (Nat.succ_pos n) h0
      simpa using this
    · intro k t hk hP
      have := hstep (k + 1) t (Nat.succ_lt_succ hk) hP
      have e : lo + ((k + 1 : ℕ) : ℤ) = lo + 1 + (k : ℤ) := by push_cast; ring
      rw [e] at this
      exact this

theorem forLoopM_ind {σ : Type} (body : ℤ → σ → Option σ) :
    ∀ (n : ℕ) (P : ℕ → σ → Prop) (lo : ℤ) (s r : σ), P 0 s →
      (∀ (k : ℕ) (t u : σ), k < n → P k t → body (lo + k) t = some u → P (k + 1) u) →
      forLoopM body n lo s = some r → P n r := by
  intro n
  induction n with
  | zero =>
    intro P lo s r h0 _ hr
    simp only [forLoopM, Option.some.injEq] at hr
    exact hr ▸ h0
  | succ n ih =>
    intro P lo s r h0 hstep hr
    simp only [forLoopM] at hr
    cases hb : body lo s with
    | none => simp [hb] at hr
    | some t =>
      simp only [hb] at hr
      apply ih (fun k t => P (k + 1) t) (lo + 1) t r _ _ hr
      · have := hstep 0 s t (Nat.succ_pos n) h0 (by simpa using hb)
        simpa using this
      · intro k t1 u hk hP hu
        have e : lo + ((k + 1 : ℕ) : ℤ) = lo + 1 + (k : ℤ) := by push_cast; ring
        exact hstep (k + 1) t1 u (Nat.succ_lt_succ hk) hP (by rw [e]; exact hu)

/-! ## the black-image guard -/

theorem widen_eq (v : Fin 256) : v.val ||| (v.val <<< 8) = 257 * v.val := by
  revert v; decide!

theorem RGBA_eq (c : ColorRGBA) :
    c.RGBA = (257 * c.R.val, 257 * c.G.val, 257 * c.B.val, 257 * c.A.val) := by
  simp [ColorRGBA.RGBA, widen_eq]

theorem blackTest_iff (c : ColorRGBA) :
    (!(c.RGBA.1 != 0 || c.RGBA.2.1 != 0 || c.RGBA.2.2.1 != 0 || c.RGBA.2.2.2 != 0)) = true
      ↔ c.IsZero := by
  rw [RGBA_eq]
  simp [ColorRGBA.IsZero, Fin.ext_iff, and_assoc]

theorem isBlackImage_iff_allPixels (img : ImageRGBA) :
    isBlackImage img = true ↔ img.AllPixels ColorRGBA.IsZero := by
  unfold isBlackImage ImageRGBA.AllPixels
  simp only [List.all_eq_true, List.mem_range, blackTest_iff]
  constructor
  · intro h x y hx0 hx hy0 hy
    have := h y.toNat (by omega) x.toNat (by omega)
    rwa [Int.toNat_of_nonneg hx0, Int.toNat_of_nonneg hy0] at this
  · intro h y hy x hx
    exact h x y (by omega) (by omega) (by omega) (by omega)

/-- C2. `isBlackImage` returns true exactly when every pixel of the raster has
R = G = B = A = 0. A non-empty raster of (0,0,0,255) pixels is not flagged; a
raster of (0,0,0,0) pixels is flagged. -/
theorem isBlackImage_spec (img : ImageRGBA) :
    (isBlackImage img = true ↔
      ∀ x y : ℤ, 0 ≤ x → x < img.W → 0 ≤ y → y < img.H →
        (img.At x y).R = 0 ∧ (img.At x y).G = 0 ∧ (img.At x y).B = 0 ∧ (img.At x y).A = 0)
    ∧ (∀ w h : ℕ, 0 < w → 0 < h → isBlackImage (uniformImage w h ⟨0, 0, 0, 255⟩) = false)
    ∧ (∀ w h : ℕ, isBlackImage (uniformImage w h ⟨0, 0, 0, 0⟩) = true) := by
  refine ⟨isBlackImage_iff_allPixels img, ?_, ?_⟩
  · intro w h hw hh
    rw [Bool.eq_false_iff]
    intro hb
    have h0 := (isBlackImage_iff_allPixels _).1 hb 0 0 (le_refl 0)
      (by simpa [uniformImage] using hw) (le_refl 0) (by simpa [uniformImage] using hh)
    have hin : (uniformImage w h ⟨0, 0, 0, 255⟩).inBounds 0 0 = true := by
      rw [inBounds_iff]; simpa [uniformImage] using And.intro hw hh
    rw [At_of_inBounds _ _ _ hin] at h0
    exact absurd h0.2.2.2 (by simp [uniformImage])
  · intro w h
    rw [isBlackImage_iff_allPixels]
    intro x y hx0 hx hy0 hy
    have hin : (uniformImage w h ⟨0, 0, 0, 0⟩).inBounds x y = true := by
      rw [inBounds_iff]; exact ⟨⟨hx0, hx⟩, hy0, hy⟩
    rw [At_of_inBounds _ _ _ hin]
    exact ⟨rfl, rfl, rfl, rfl⟩

/-! ## the engine: result and guard -/

/-- When the cycle loop completes, `GlitchImage` returns the black-image error
exactly when the raster the loop left has every pixel at R = G = B = A = 0,
and returns that raster exactly when it has not; the guard reads the state
after the last cycle only. A panic of the cycle loop is a panic of the call. -/
theorem GlitchImage_guard (seed : ℤ → Rand) (ig : ImageGlitcher) (f : ℚ) (cycle step : ℤ)
    (sl ps co : Bool) :
    (∀ ig1 : ImageGlitcher,
      GlitchImage seed ig f cycle step sl ps co = some (ig1, Outcome.blackImageError) ↔
        ∃ img r, glitchCycles seed ig f cycle sl ps co = some (img, r) ∧
          ig1 = { ig with Image := img } ∧ img.AllPixels ColorRGBA.IsZero)
    ∧ (∀ (ig1 : ImageGlitcher) (out : ImageRGBA),
      GlitchImage seed ig f cycle step sl ps co = some (ig1, Outcome.image out) ↔
        ∃ r, glitchCycles seed ig f cycle sl ps co = some (out, r) ∧
          ig1 = { ig with Image := out } ∧ ¬ out.AllPixels ColorRGBA.IsZero)
    ∧ (GlitchImage seed ig f cycle step sl ps co = none ↔
        glitchCycles seed ig f cycle sl ps co = none) := by
  unfold GlitchImage
  cases hc : glitchCycles seed ig f cycle sl ps co with
  | none => simp
  | some p =>
    obtain ⟨img, r⟩ := p
    cases hb : isBlackImage img with
    | true =>
      have hz := (isBlackImage_iff_allPixels img).1 hb
      refine ⟨?_, ?_, by simp [hb]⟩
      · intro ig1
        simp only [hb, if_true, Option.some.injEq, Prod.mk.injEq, and_true]
        constructor
        · intro h; exact ⟨img, r, ⟨rfl, rfl⟩, h.symm, hz⟩
        · rintro ⟨img1, r1, ⟨h1, _⟩, h2, _⟩; rw [h2, h1]
      · intro ig1 out
        simp only [hb, if_true, Option.some.injEq, Prod.mk.injEq]
        constructor
        · intro h; exact absurd h.2 (by simp)
        · rintro ⟨r1, ⟨h1, _⟩, _, h3⟩; exact absurd (h1 ▸ hz) h3
    | false =>
      have hz : ¬ img.AllPixels ColorRGBA.IsZero := fun h => by
        rw [(isBlackImage_iff_allPixels img).2 h] at hb; exact absurd hb (by decide)
      refine ⟨?_, ?_, by simp [hb]⟩
      · intro ig1
        simp only [hb, Bool.false_eq_true, if_false, Option.some.injEq, Prod.mk.injEq]
        constructor
        · intro h; exact absurd h.2 (by simp)
        · rintro ⟨img1, r1, ⟨h1, _⟩, _, h3⟩; exact absurd (h1 ▸ h3) hz
      · intro ig1 out
        simp only [hb, Bool.false_eq_true, if_false, Option.some.injEq, Prod.mk.injEq,
          Outcome.image.injEq]
        constructor
        · rintro ⟨h1, h2⟩; subst h2; exact ⟨r, ⟨rfl, rfl⟩, h1.symm, hz⟩
        · rintro ⟨r1, ⟨h1, _⟩, h2, _⟩; subst h1; exact ⟨h2.symm, rfl⟩

/-! ## the random shift on a narrow raster -/

theorem maxOffsetOf_one_four : maxOffsetOf 1 4 = 0 := by decide!

theorem glitchCount_one : truncInt (f32 (1 * 2)) = 2 := by decide!

theorem forRangeM_none_of_first {σ : Type} (hi : ℤ) (body : ℤ → σ → Option σ) (s : σ)
    (hpos : 0 < hi) (h : body 0 s = none) : forRangeM 0 hi body s = none := by
  unfold forRangeM
  obtain ⟨n, hn⟩ : ∃ n : ℕ, (hi - 0).toNat = n + 1 := ⟨(hi - 0).toNat - 1, by omega⟩
  rw [hn]
  simp only [forLoopM, h]

theorem applyRandomGlitch_scenario1 (r : Rand) :
    applyRandomGlitch (uniformImage 4 4 ⟨200, 100, 50, 255⟩) 1 r = none := by
  unfold applyRandomGlitch
  apply forRangeM_none_of_first
  · rw [glitchCount_one]; decide
  · show randomGlitchStep (maxOffsetOf 1 4) _ = none
    rw [maxOffsetOf_one_four]
    rfl

theorem glitchCycle_plain (f : ℚ) (s : ImageRGBA × Rand) :
    glitchCycle f false false false s = applyRandomGlitch s.1 f s.2 := rfl

theorem glitchCycles_scenario1 (seed : ℤ → Rand) :
    glitchCycles seed (glitcherOf (uniformImage 4 4 ⟨200, 100, 50, 255⟩) 42) 1 1
      false false false = none := by
  unfold glitchCycles
  apply forRangeM_none_of_first _ _ _ Int.one_pos
  rw [glitchCycle_plain]
  exact applyRandomGlitch_scenario1 _

theorem GlitchImage_of_cycles_none (seed : ℤ → Rand) (ig : ImageGlitcher) (f : ℚ)
    (cycle step : ℤ) (sl ps co : Bool) (h : glitchCycles seed ig f cycle sl ps co = none) :
    GlitchImage seed ig f cycle step sl ps co = none := by
  unfold GlitchImage
  rw [h]

/-- C3 (failing input). On the 4x4 raster of (200,100,50,255) pixels with
seed 42, intensity 1.0, one cycle and no optional effect, `maxOffset` is
`int(1.0 * 4 / 10) = 0`, the first draw of `applyRandomGlitch` is
`rand.Intn(0)`, and the call panics whatever stream the seed starts. -/
theorem GlitchImage_scenario1_panics (seed : ℤ → Rand) :
    GlitchImage seed (glitcherOf (uniformImage 4 4 ⟨200, 100, 50, 255⟩) 42) 1 1 1
      false false false = none :=
  GlitchImage_of_cycles_none _ _ _ _ _ _ _ _ (glitchCycles_scenario1 seed)

theorem maxOffsetOf_one_five : maxOffsetOf 1 5 = 0 := by decide!

theorem applyRandomGlitch_width_five (img : ImageRGBA) (hW : img.W = 5) (r : Rand) :
    applyRandomGlitch img 1 r = none := by
  unfold applyRandomGlitch
  apply forRangeM_none_of_first
  · rw [glitchCount_one]; decide
  · show randomGlitchStep (maxOffsetOf 1 img.W) _ = none
    rw [hW, maxOffsetOf_one_five]
    rfl

theorem glitchCycles_width_five (seed : ℤ → Rand) (ig : ImageGlitcher) (hW : ig.Image.W = 5) :
    glitchCycles seed ig 1 1 false false false = none := by
  unfold glitchCycles
  apply forRangeM_none_of_first _ _ _ Int.one_pos
  rw [glitchCycle_plain]
  exact applyRandomGlitch_width_five _ hW _

/-- C1 (failing input). The 5 by 4 sample raster is not all zero. Called on it
with intensity 1.0, one cycle and every optional effect off, `GlitchImage`
computes `maxOffset = int(1.0 * 5 / 10) = 0`, draws `rand.Intn(0)` and panics,
for every seed and every random source: it returns neither the raster nor the
error. On the all-zero 5 by 4 raster the same call panics as well, where the
black-image error is due. -/
theorem GlitchImage_neither_raster_nor_error (seed : ℤ → Rand) (s : ℤ) :
    isBlackImage sampleImage = false
    ∧ GlitchImage seed (glitcherOf sampleImage s) 1 1 1 false false false = none
    ∧ isBlackImage (uniformImage 5 4 ⟨0, 0, 0, 0⟩) = true
    ∧ GlitchImage seed (glitcherOf (uniformImage 5 4 ⟨0, 0, 0, 0⟩) s) 1 1 1
        false false false = none :=
  ⟨by decide!,
    GlitchImage_of_cycles_none _ _ _ _ _ _ _ _ (glitchCycles_width_five seed _ rfl),
    by decide!,
    GlitchImage_of_cycles_none _ _ _ _ _ _ _ _ (glitchCycles_width_five seed _ rfl)⟩

/-! ## loops that fill a row -/

theorem Set_At_prop (img : ImageRGBA) (x y : ℤ) (c : ColorRGBA) (u v : ℤ) :
    (img.Set x y c).At u v
      = if u = x ∧ v = y ∧ (0 ≤ x ∧ x < img.W) ∧ (0 ≤ y ∧ y < img.H) then c
        else img.At u v := by
  rw [Set_At]
  have h := inBounds_iff img x y
  by_cases hb : img.inBounds x y = true
  · have h2 := h.1 hb
    by_cases huv : u = x ∧ v = y
    · rw [if_pos ⟨huv, hb⟩, if_pos ⟨huv.1, huv.2, h2⟩]
    · rw [if_neg (fun hh => huv hh.1), if_neg (fun hh => huv ⟨hh.1, hh.2.1⟩)]
  · rw [if_neg (fun hh => hb hh.2), if_neg (fun hh => hb (h.2 hh.2.2))]

theorem At_outside (img : ImageRGBA) (x y : ℤ)
    (h : ¬ ((0 ≤ x ∧ x < img.W) ∧ (0 ≤ y ∧ y < img.H))) : img.At x y = ColorRGBA.zero := by
  apply At_of_not_inBounds
  rw [← Bool.not_eq_true, inBounds_iff]
  exact h

/-- What a row-filling loop leaves. -/
theorem fillRow_spec (body : ℤ → ImageRGBA → ImageRGBA) (d y : ℤ) (c : ℤ → ColorRGBA)
    (hbody : ∀ x t, body x t = t.Set (x + d) y (c x)) (n : ℕ) (lo : ℤ) (img : ImageRGBA) :
    (forLoop body n lo img).W = img.W ∧ (forLoop body n lo img).H = img.H ∧
    ∀ u v : ℤ, (forLoop body n lo img).At u v
      = if v = y ∧ (lo + d ≤ u ∧ u < lo + d + n) ∧ (0 ≤ u ∧ u < img.W) ∧ (0 ≤ v ∧ v < img.H)
        then c (u - d) else img.At u v := by
  apply forLoop_ind body n (fun k t => t.W = img.W ∧ t.H = img.H ∧
    ∀ u v : ℤ, t.At u v
      = if v = y ∧ (lo + d ≤ u ∧ u < lo + d + k) ∧ (0 ≤ u ∧ u < img.W) ∧ (0 ≤ v ∧ v < img.H)
        then c (u - d) else img.At u v)
  · refine ⟨rfl, rfl, fun u v => ?_⟩
    rw [if_neg]; omega
  · rintro k t _ ⟨hW, hH, hAt⟩
    rw [hbody]
    refine ⟨by rw [Set_W, hW], by rw [Set_H, hH], fun u v => ?_⟩
    rw [Set_At_prop, hAt, hW, hH]
    by_cases h1 : u = lo + k + d ∧ v = y ∧ (0 ≤ lo + k + d ∧ lo + k + d < img.W) ∧ (0 ≤ y ∧ y < img.H)
    · rw [if_pos h1, if_pos]
      · obtain ⟨rfl, _⟩ := h1; congr 1; ring
      · push_cast; omega
    · rw [if_neg h1]
      by_cases h2 : v = y ∧ (lo + d ≤ u ∧ u < lo + d + k) ∧ (0 ≤ u ∧ u < img.W) ∧ (0 ≤ v ∧ v < img.H)
      · rw [if_pos h2, if_pos]; push_cast; omega
      · rw [if_neg h2, if_neg]; push_cast; omega

/-! ## sort.Slice: ordered rearrangement -/

theorem sink_perm {α : Type} (less : α → α → Bool) (a : α) (l : List α) :
    (sink less a l).Perm (a :: l) := by
  induction l with
  | nil => exact List.Perm.refl _
  | cons b rest ih =>
    unfold sink
    split
    · exact (List.Perm.cons b ih).trans (List.Perm.swap a b rest)
    · exact List.Perm.refl _

theorem sink_descending {α : Type} (less : α → α → Bool) (key : α → ℕ)
    (hless : ∀ a b, less a b = true ↔ key a < key b) (a : α) (l : List α)
    (hl : l.Pairwise (fun x y => key y ≤ key x)) :
    (sink less a l).Pairwise (fun x y => key y ≤ key x) := by
  induction l with
  | nil => simp [sink]
  | cons b rest ih =>
    rw [List.pairwise_cons] at hl
    unfold sink
    split
    · rename_i h
      rw [List.pairwise_cons]
      refine ⟨fun y hy => ?_, ih hl.2⟩
      rcases List.mem_cons.1 ((sink_perm less a rest).mem_iff.1 hy) with rfl | hy
      · exact le_of_lt ((hless _ _).1 h)
      · exact hl.1 y hy
    · rename_i h
      have hab : key b ≤ key a := not_lt.1 (fun hh => h ((hless _ _).2 hh))
      rw [List.pairwise_cons, List.pairwise_cons]
      refine ⟨fun y hy => ?_, hl⟩
      rcases List.mem_cons.1 hy with rfl | hy
      · exact hab
      · exact le_trans (hl.1 y hy) hab

theorem foldl_sink_descending {α : Type} (less : α → α → Bool) (key : α → ℕ)
    (hless : ∀ a b, less a b = true ↔ key a < key b) (l acc : List α)
    (hacc : acc.Pairwise (fun x y => key y ≤ key x)) :
    (l.foldl (fun acc a => sink less a acc) acc).Pairwise (fun x y => key y ≤ key x) := by
  induction l generalizing acc with
  | nil => exact hacc
  | cons a l ih => exact ih (sink less a acc) (sink_descending less key hless a acc hacc)

theorem foldl_sink_perm {α : Type} (less : α → α → Bool) (l acc : List α) :
    (l.foldl (fun acc a => sink less a acc) acc).Perm (l.reverse ++ acc) := by
  induction l generalizing acc with
  | nil => simp
  | cons a l ih =>
    refine (ih (sink less a acc)).trans ?_
    rw [List.reverse_cons, List.append_assoc]
    exact List.Perm.append_left _ (sink_perm less a acc)

theorem sortSlice_sorted {α : Type} (less : α → α → Bool) (key : α → ℕ)
    (hless : ∀ a b, less a b = true ↔ key a < key b) (l : List α) :
    (sortSlice less l).Pairwise (fun x y => key x ≤ key y) := by
  unfold sortSlice
  rw [List.pairwise_reverse]
  exact foldl_sink_descending less key hless l [] List.Pairwise.nil

theorem sortSlice_perm {α : Type} (less : α → α → Bool) (l : List α) :
    (sortSlice less l).Perm l := by
  unfold sortSlice
  refine (List.reverse_perm _).trans ((foldl_sink_perm less l []).trans ?_)
  rw [List.append_nil]
  exact List.reverse_perm l

theorem sortSlice_length {α : Type} (less : α → α → Bool) (l : List α) :
    (sortSlice less l).length = l.length := (sortSlice_perm less l).length_eq

theorem brightnessLess_iff (c d : ColorRGBA) :
    brightnessLess c d = true ↔ c.sumRGB < d.sumRGB := by
  unfold brightnessLess
  rw [RGBA_eq, RGBA_eq]
  simp only [decide_eq_true_eq, ColorRGBA.sumRGB]
  have h1 := c.R.isLt; have h2 := c.G.isLt; have h3 := c.B.isLt
  have h4 := d.R.isLt; have h5 := d.G.isLt; have h6 := d.B.isLt
  rw [Nat.mod_eq_of_lt (by omega : 257 * c.R.val + 257 * c.G.val + 257 * c.B.val < 2 ^ 32),
    Nat.mod_eq_of_lt (by omega : 257 * d.R.val + 257 * d.G.val + 257 * d.B.val < 2 ^ 32)]
  omega

/-! ## pixel sort -/

theorem row_length (img : ImageRGBA) (y : ℤ) : (img.row y).length = img.W := by
  simp [ImageRGBA.row]

theorem row_getD (img : ImageRGBA) (y : ℤ) (x : ℕ) (hx : x < img.W) :
    (img.row y).getD x ColorRGBA.zero = img.At x y := by
  rw [List.getD_eq_getElem _ _ (by rw [row_length]; exact hx)]
  simp [ImageRGBA.row]

theorem row_congr (a b : ImageRGBA) (y : ℤ) (hW : a.W = b.W)
    (h : ∀ u : ℤ, a.At u y = b.At u y) : a.row y = b.row y := by
  unfold ImageRGBA.row
  rw [hW]
  exact List.map_congr_left (fun x _ => h x)

theorem row_eq_of_At (img : ImageRGBA) (y : ℤ) (L : List ColorRGBA) (hlen : L.length = img.W)
    (h : ∀ x : ℕ, x < img.W → img.At x y = L.getD x ColorRGBA.zero) : img.row y = L := by
  apply List.ext_getElem
  · rw [row_length, hlen]
  · intro n h1 h2
    rw [row_length] at h1
    have := h n h1
    rw [List.getD_eq_getElem _ _ h2] at this
    rw [← this]
    simp [ImageRGBA.row]

/-- Pixels left by `applyPixelSort`: every row is the sorted former row. -/
theorem applyPixelSort_At (img : ImageRGBA) :
    (applyPixelSort img).W = img.W ∧ (applyPixelSort img).H = img.H ∧
    ∀ u v : ℤ, (applyPixelSort img).At u v
      = if (0 ≤ u ∧ u < img.W) ∧ (0 ≤ v ∧ v < img.H)
        then (sortSlice brightnessLess (img.row v)).getD u.toNat ColorRGBA.zero
        else img.At u v := by
  unfold applyPixelSort forRange
  have key := forLoop_ind
    (fun y im => forLoop (fun x t => t.Set x y
      ((sortSlice brightnessLess (im.row y)).getD x.toNat ColorRGBA.zero)) ((im.W : ℤ) - 0).toNat 0 im)
    ((img.H : ℤ) - 0).toNat
    (fun k t => t.W = img.W ∧ t.H = img.H ∧
      ∀ u v : ℤ, t.At u v
        = if (0 ≤ u ∧ u < img.W) ∧ (0 ≤ v ∧ v < k)
          then (sortSlice brightnessLess (img.row v)).getD u.toNat ColorRGBA.zero
          else img.At u v) 0 img
    ⟨rfl, rfl, fun u v => by rw [if_neg]; omega⟩
    (by
      rintro k t hk ⟨hW, hH, hAt⟩
      have hrow : t.row (0 + k) = img.row (0 + k) :=
        row_congr _ _ _ hW (fun u => by rw [hAt, if_neg]; omega)
      obtain ⟨fW, fH, fAt⟩ := fillRow_spec
        (fun x t1 => t1.Set x (0 + (k : ℤ))
          ((sortSlice brightnessLess (t.row (0 + k))).getD x.toNat ColorRGBA.zero)) 0 (0 + k)
        (fun x => (sortSlice brightnessLess (t.row (0 + k))).getD x.toNat ColorRGBA.zero)
        (fun x t1 => by rw [add_zero]) ((t.W : ℤ) - 0).toNat 0 t
      refine ⟨fW.trans hW, fH.trans hH, fun u v => ?_⟩
      rw [fAt, hAt, hW, hH, hrow]
      by_cases h1 : v = 0 + (k : ℤ) ∧ (0 + 0 ≤ u ∧ u < 0 + 0 + ((((img.W : ℤ) - 0).toNat : ℕ) : ℤ)) ∧
          (0 ≤ u ∧ u < img.W) ∧ (0 ≤ v ∧ v < img.H)
      · rw [if_pos h1, if_pos (by omega)]
        obtain ⟨rfl, _⟩ := h1
        rw [sub_zero]
      · rw [if_neg h1]
        by_cases h2 : (0 ≤ u ∧ u < img.W) ∧ (0 ≤ v ∧ v < k)
        · rw [if_pos h2, if_pos (by omega)]
        · rw [if_neg h2, if_neg (by omega)])
  refine ⟨key.1, key.2.1, fun u v => ?_⟩
  rw [key.2.2]
  by_cases h : (0 ≤ u ∧ u < img.W) ∧ (0 ≤ v ∧ v < img.H)
  · rw [if_pos h, if_pos (by omega)]
  · rw [if_neg h, if_neg (by omega)]

theorem applyPixelSort_row (img : ImageRGBA) (y : ℤ) (hy0 : 0 ≤ y) (hy : y < img.H) :
    (applyPixelSort img).row y = sortSlice brightnessLess (img.row y) := by
  obtain ⟨hW, _, hAt⟩ := applyPixelSort_At img
  apply row_eq_of_At
  · rw [sortSlice_length, row_length, hW]
  · intro x hx
    rw [hW] at hx
    rw [hAt, if_pos (by omega), Int.toNat_ofNat]

/-- C4. After `applyPixelSort`, in every row the sum R+G+B of a pixel is at
most the sum R+G+B of its right neighbour. -/
theorem applyPixelSort_sorted (img : ImageRGBA) (x y : ℤ) (hx0 : 0 ≤ x) (hx : x + 1 < img.W)
    (hy0 : 0 ≤ y) (hy : y < img.H) :
    ((applyPixelSort img).At x y).sumRGB ≤ ((applyPixelSort img).At (x + 1) y).sumRGB := by
  obtain ⟨_, _, hAt⟩ := applyPixelSort_At img
  have hlen : (sortSlice brightnessLess (img.row y)).length = img.W := by
    rw [sortSlice_length, row_length]
  have hs := sortSlice_sorted brightnessLess ColorRGBA.sumRGB brightnessLess_iff (img.row y)
  rw [List.pairwise_iff_getElem] at hs
  have h1 : x.toNat < (sortSlice brightnessLess (img.row y)).length := by omega
  have h2 : (x + 1).toNat < (sortSlice brightnessLess (img.row y)).length := by omega
  rw [hAt, hAt, if_pos (by omega), if_pos (by omega), List.getD_eq_getElem _ _ h1,
    List.getD_eq_getElem _ _ h2]
  exact hs x.toNat (x + 1).toNat h1 h2 (by omega)

theorem applyPixelSort_sorted_witness :
    (0 : ℤ) ≤ 0 ∧ (0 : ℤ) + 1 < sampleImage.W ∧ (0 : ℤ) ≤ 1 ∧ (1 : ℤ) < sampleImage.H ∧
    ((applyPixelSort sampleImage).At 0 1).sumRGB
      ≤ ((applyPixelSort sampleImage).At (0 + 1) 1).sumRGB :=
  ⟨by decide, by decide, by decide, by decide,
    applyPixelSort_sorted sampleImage 0 1 (by decide) (by decide) (by decide) (by decide)⟩

/-- C5. `applyPixelSort` keeps the dimensions and, row by row, the multiset of
(R,G,B,A) pixels: it only rearranges the pixels of a row within that row. -/
theorem applyPixelSort_row_multiset (img : ImageRGBA) (y : ℤ) :
    (applyPixelSort img).W = img.W ∧ (applyPixelSort img).H = img.H ∧
    (((applyPixelSort img).row y : List ColorRGBA) : Multiset ColorRGBA)
      = ((img.row y : List ColorRGBA) : Multiset ColorRGBA) := by
  obtain ⟨hW, hH, hAt⟩ := applyPixelSort_At img
  refine ⟨hW, hH, ?_⟩
  by_cases h : 0 ≤ y ∧ y < img.H
  · rw [applyPixelSort_row img y h.1 h.2]
    exact Quotient.sound (sortSlice_perm _ _)
  · rw [row_congr _ _ y hW (fun u => by rw [hAt, if_neg (by omega)])]

/-! ## chunks -/

theorem fillRect_spec (body : ℤ → ℤ → ImageRGBA → ImageRGBA) (dx dy : ℤ)
    (c : ℤ → ℤ → ColorRGBA)
    (hbody : ∀ x y t, body x y t = t.Set (x + dx) (y + dy) (c x y))
    (x0 x1 y0 y1 : ℤ) (img : ImageRGBA) :
    (forRange y0 y1 (fun y t => forRange x0 x1 (fun x t => body x y t) t) img).W = img.W ∧
    (forRange y0 y1 (fun y t => forRange x0 x1 (fun x t => body x y t) t) img).H = img.H ∧
    ∀ u v : ℤ,
      (forRange y0 y1 (fun y t => forRange x0 x1 (fun x t => body x y t) t) img).At u v
        = if (x0 + dx ≤ u ∧ u < x1 + dx) ∧ (y0 + dy ≤ v ∧ v < y1 + dy) ∧
            (0 ≤ u ∧ u < img.W) ∧ (0 ≤ v ∧ v < img.H)
          then c (u - dx) (v - dy) else img.At u v := by
  unfold forRange
  have key := forLoop_ind
    (fun y t => forLoop (fun x t => body x y t) (x1 - x0).toNat x0 t) (y1 - y0).toNat
    (fun k t => t.W = img.W ∧ t.H = img.H ∧
      ∀ u v : ℤ, t.At u v
        = if (x0 + dx ≤ u ∧ u < x1 + dx) ∧ (y0 + dy ≤ v ∧ v < y0 + dy + k) ∧
            (0 ≤ u ∧ u < img.W) ∧ (0 ≤ v ∧ v < img.H)
          then c (u - dx) (v - dy) else img.At u v) y0 img
    ⟨rfl, rfl, fun u v => by rw [if_neg]; omega⟩
    (by
      rintro k t hk ⟨hW, hH, hAt⟩
      obtain ⟨fW, fH, fAt⟩ := fillRow_spec (fun x t => body x (y0 + k) t) dx (y0 + k + dy)
        (fun x => c x (y0 + k)) (fun x t1 => hbody x (y0 + k) t1) (x1 - x0).toNat x0 t
      refine ⟨fW.trans hW, fH.trans hH, fun u v => ?_⟩
      rw [fAt, hAt, hW, hH]
      by_cases h1 : v = y0 + k + dy ∧ (x0 + dx ≤ u ∧ u < x0 + dx + ((x1 - x0).toNat : ℤ)) ∧
          (0 ≤ u ∧ u < img.W) ∧ (0 ≤ v ∧ v < img.H)
      · rw [if_pos h1, if_pos (by omega)]
        obtain ⟨rfl, _⟩ := h1
        congr 1; ring
      · rw [if_neg h1]
        by_cases h2 : (x0 + dx ≤ u ∧ u < x1 + dx) ∧ (y0 + dy ≤ v ∧ v < y0 + dy + k) ∧
            (0 ≤ u ∧ u < img.W) ∧ (0 ≤ v ∧ v < img.H)
        · rw [if_pos h2, if_pos (by omega)]
        · rw [if_neg h2, if_neg (by omega)])
  refine ⟨key.1, key.2.1, fun u v => ?_⟩
  rw [key.2.2]
  by_cases h : (x0 + dx ≤ u ∧ u < x1 + dx) ∧ (y0 + dy ≤ v ∧ v < y1 + dy) ∧
      (0 ≤ u ∧ u < img.W) ∧ (0 ≤ v ∧ v < img.H)
  · rw [if_pos h, if_pos (by omega)]
  · rw [if_neg h, if_neg (by omega)]

theorem NewRGBA_At (w h u v : ℤ) : (NewRGBA w h).At u v = ColorRGBA.zero := by
  unfold ImageRGBA.At NewRGBA
  split <;> rfl

theorem extractChunk_At (img : ImageRGBA) (startY stopY startX stopX : ℤ) (u v : ℤ) :
    (extractChunk img startY stopY startX stopX).At u v
      = if (0 ≤ u ∧ u < stopX - startX) ∧ (0 ≤ v ∧ v < stopY - startY)
        then img.At (u + startX) (v + startY) else ColorRGBA.zero := by
  unfold extractChunk
  obtain ⟨_, _, hAt⟩ := fillRect_spec
    (fun x y chunk => chunk.Set (x - startX) (y - startY) (img.At x y)) (-startX) (-startY)
    (fun x y => img.At x y) (fun x y t => by simp only [sub_eq_add_neg])
    startX stopX startY stopY (NewRGBA (stopX - startX) (stopY - startY))
  rw [hAt, NewRGBA_At]
  have hW : ((NewRGBA (stopX - startX) (stopY - startY)).W : ℤ) = ((stopX - startX).toNat : ℤ) := rfl
  have hH : ((NewRGBA (stopX - startX) (stopY - startY)).H : ℤ) = ((stopY - startY).toNat : ℤ) := rfl
  rw [hW, hH]
  by_cases h : (0 ≤ u ∧ u < stopX - startX) ∧ (0 ≤ v ∧ v < stopY - startY)
  · rw [if_pos h, if_pos (by omega), sub_neg_eq_add, sub_neg_eq_add]
  · rw [if_neg h, if_neg (by omega)]

theorem placeChunk_spec (img chunk : ImageRGBA) (startY stopY startX stopX : ℤ) :
    (placeChunk img chunk startY stopY startX stopX).W = img.W ∧
    (placeChunk img chunk startY stopY startX stopX).H = img.H ∧
    ∀ u v : ℤ, (placeChunk img chunk startY stopY startX stopX).At u v
      = if (startX ≤ u ∧ u < stopX) ∧ (startY ≤ v ∧ v < stopY) ∧
          (0 ≤ u ∧ u < img.W) ∧ (0 ≤ v ∧ v < img.H)
        then chunk.At (u - startX) (v - startY) else img.At u v := by
  unfold placeChunk
  obtain ⟨hW, hH, hAt⟩ := fillRect_spec
    (fun x y t => t.Set x y (chunk.At (x - startX) (y - startY))) 0 0
    (fun x y => chunk.At (x - startX) (y - startY)) (fun x y t => by simp only [add_zero])
    startX stopX startY stopY img
  refine ⟨hW, hH, fun u v => ?_⟩
  rw [hAt]
  simp only [add_zero, sub_zero]

/-! ## the shift of a band -/

theorem Intn_eq_some (n : ℤ) (r : Rand) (v : ℤ) (r1 : Rand) (h : Intn n r = some (v, r1)) :
    0 < n ∧ 0 ≤ v ∧ v < n := by
  unfold Intn at h
  split at h
  · exact absurd h (by simp)
  · rename_i hn
    simp only [Option.some.injEq, Prod.mk.injEq] at h
    have hpos : 0 < n := by omega
    rw [← h.1]
    exact ⟨hpos, Int.emod_nonneg _ (by omega), Int.emod_lt_of_pos _ hpos⟩

theorem Intn_of_pos (n : ℤ) (r : Rand) (hn : 0 < n) :
    ∃ v r1, Intn n r = some (v, r1) := by
  unfold Intn
  rw [if_neg (by omega)]
  exact ⟨_, _, rfl⟩

theorem emod_shift (a W k : ℤ) (h0 : 0 ≤ a + k * W) (h1 : a + k * W < W) :
    a % W = a + k * W := by
  rw [← Int.add_mul_emod_self (a := a) (b := k) (c := W)]
  exact Int.emod_eq_of_lt h0 h1

theorem min_bounds (a b : ℤ) (ha : 1 ≤ a) (hb : 1 ≤ b) :
    1 ≤ Glitcher.min a b ∧ Glitcher.min a b ≤ a ∧ Glitcher.min a b ≤ b := by
  unfold Glitcher.min
  split <;> omega

/-- What a completed `glitchLeft` leaves, for a shift `0 < o < W`. -/
theorem glitchLeft_spec (img : ImageRGBA) (o : ℤ) (r : Rand) (out : ImageRGBA) (r1 : Rand)
    (h : glitchLeft img o r = some (out, r1)) (ho : 0 < o) (hoW : o < img.W) :
    ∃ startY stopY : ℤ, 0 ≤ startY ∧ startY < stopY ∧ stopY ≤ img.H ∧
      stopY - startY ≤ (img.H : ℤ) / 4 ∧ out.W = img.W ∧ out.H = img.H ∧
      ∀ x y : ℤ, 0 ≤ x → x < img.W → 0 ≤ y → y < img.H →
        out.At x y = if startY ≤ y ∧ y < stopY then img.At ((x + o) % img.W) y
          else img.At x y := by
  unfold glitchLeft at h
  cases h1 : Intn img.H r with
  | none => rw [h1] at h; exact absurd h (by simp)
  | some p1 =>
    obtain ⟨startY, ra⟩ := p1
    rw [h1] at h
    simp only at h
    cases h2 : Intn (Int.tdiv img.H 4) ra with
    | none => rw [h2] at h; exact absurd h (by simp)
    | some p2 =>
      obtain ⟨c, rb⟩ := p2
      rw [h2] at h
      simp only [Option.some.injEq, Prod.mk.injEq] at h
      obtain ⟨hs1, hs2, hs3⟩ := Intn_eq_some _ _ _ _ h1
      obtain ⟨hc1, hc2, hc3⟩ := Intn_eq_some _ _ _ _ h2
      rw [Int.tdiv_eq_ediv (by omega) (by omega)] at hc1 hc3
      obtain ⟨hm1, hm2, hm3⟩ := min_bounds (c + 1) (img.H - startY) (by omega) (by omega)
      obtain ⟨pW, pH, pAt⟩ := placeChunk_spec img
        (extractChunk img startY (startY + Glitcher.min (c + 1) (img.H - startY)) o img.W)
        startY (startY + Glitcher.min (c + 1) (img.H - startY)) 0 (img.W - o)
      obtain ⟨qW, qH, qAt⟩ := placeChunk_spec
        (placeChunk img
          (extractChunk img startY (startY + Glitcher.min (c + 1) (img.H - startY)) o img.W)
          startY (startY + Glitcher.min (c + 1) (img.H - startY)) 0 (img.W - o))
        (extractChunk img startY (startY + Glitcher.min (c + 1) (img.H - startY)) 0 o)
        startY (startY + Glitcher.min (c + 1) (img.H - startY)) (img.W - o) img.W
      rw [h.1] at qW qH qAt
      refine ⟨startY, startY + Glitcher.min (c + 1) (img.H - startY), hs2, by omega, by omega,
        by omega, qW.trans pW, qH.trans pH, fun x y hx0 hx hy0 hy => ?_⟩
      rw [qAt, pAt, pW, pH, extractChunk_At, extractChunk_At]
      generalize Glitcher.min (c + 1) (img.H - startY) = m at hm1 hm2 hm3 ⊢
      by_cases hband : startY ≤ y ∧ y < startY + m
      · rw [if_pos hband]
        by_cases hx1 : x < img.W - o
        · rw [if_neg (by omega), if_pos (by omega), if_pos (by omega),
            Int.emod_eq_of_lt (by omega) (by omega)]
          congr 1 <;> omega
        · rw [if_pos (by omega), if_pos (by omega),
            emod_shift (x + o) img.W (-1) (by omega) (by omega)]
          congr 1 <;> omega
      · rw [if_neg hband, if_neg (by omega), if_neg (by omega)]

/-- What a completed `glitchRight` leaves, for a shift `0 < o < W`. -/
theorem glitchRight_spec (img : ImageRGBA) (o : ℤ) (r : Rand) (out : ImageRGBA) (r1 : Rand)
    (h : glitchRight img o r = some (out, r1)) (ho : 0 < o) (hoW : o < img.W) :
    ∃ startY stopY : ℤ, 0 ≤ startY ∧ startY < stopY ∧ stopY ≤ img.H ∧
      stopY - startY ≤ (img.H : ℤ) / 4 ∧ out.W = img.W ∧ out.H = img.H ∧
      ∀ x y : ℤ, 0 ≤ x → x < img.W → 0 ≤ y → y < img.H →
        out.At x y = if startY ≤ y ∧ y < stopY then img.At ((x - o) % img.W) y
          else img.At x y := by
  unfold glitchRight at h
  cases h1 : Intn img.H r with
  | none => rw [h1] at h; exact absurd h (by simp)
  | some p1 =>
    obtain ⟨startY, ra⟩ := p1
    rw [h1] at h
    simp only at h
    cases h2 : Intn (Int.tdiv img.H 4) ra with
    | none => rw [h2] at h; exact absurd h (by simp)
    | some p2 =>
      obtain ⟨c, rb⟩ := p2
      rw [h2] at h
      simp only [Option.some.injEq, Prod.mk.injEq] at h
      obtain ⟨hs1, hs2, hs3⟩ := Intn_eq_some _ _ _ _ h1
      obtain ⟨hc1, hc2, hc3⟩ := Intn_eq_some _ _ _ _ h2
      rw [Int.tdiv_eq_ediv (by omega) (by omega)] at hc1 hc3
      obtain ⟨hm1, hm2, hm3⟩ := min_bounds (c + 1) (img.H - startY) (by omega) (by omega)
      obtain ⟨pW, pH, pAt⟩ := placeChunk_spec img
        (extractChunk img startY (startY + Glitcher.min (c + 1) (img.H - startY)) 0 (img.W - o))
        startY (startY + Glitcher.min (c + 1) (img.H - startY)) o img.W
      obtain ⟨qW, qH, qAt⟩ := placeChunk_spec
        (placeChunk img
          (extractChunk img startY (startY + Glitcher.min (c + 1) (img.H - startY)) 0
            (img.W - o))
          startY (startY + Glitcher.min (c + 1) (img.H - startY)) o img.W)
        (extractChunk img startY (startY + Glitcher.min (c + 1) (img.H - startY)) (img.W - o)
          img.W)
        startY (startY + Glitcher.min (c + 1) (img.H - startY)) 0 o
      rw [h.1] at qW qH qAt
      refine ⟨startY, startY + Glitcher.min (c + 1) (img.H - startY), hs2, by omega, by omega,
        by omega, qW.trans pW, qH.trans pH, fun x y hx0 hx hy0 hy => ?_⟩
      rw [qAt, pAt, pW, pH, extractChunk_At, extractChunk_At]
      generalize Glitcher.min (c + 1) (img.H - startY) = m at hm1 hm2 hm3 ⊢
      by_cases hband : startY ≤ y ∧ y < startY + m
      · rw [if_pos hband]
        by_cases hx1 : o ≤ x
        · rw [if_neg (by omega), if_pos (by omega), if_pos (by omega),
            Int.emod_eq_of_lt (by omega) (by omega)]
          congr 1 <;> omega
        · rw [if_pos (by omega), if_pos (by omega),
            emod_shift (x - o) img.W 1 (by omega) (by omega)]
          congr 1 <;> omega
      · rw [if_neg hband, if_neg (by omega), if_neg (by omega)]


theorem glitchLeft_completes (img : ImageRGBA) (o : ℤ) (r : Rand) (hH : 4 ≤ img.H) :
    ∃ out r1, glitchLeft img o r = some (out, r1) := by
  obtain ⟨v1, ra, h1⟩ := Intn_of_pos img.H r (by omega)
  obtain ⟨v2, rb, h2⟩ := Intn_of_pos (Int.tdiv img.H 4) ra (by
    rw [Int.tdiv_eq_ediv (by omega) (by omega)]; omega)
  unfold glitchLeft
  rw [h1]
  simp only
  rw [h2]
  exact ⟨_, _, rfl⟩

theorem glitchRight_completes (img : ImageRGBA) (o : ℤ) (r : Rand) (hH : 4 ≤ img.H) :
    ∃ out r1, glitchRight img o r = some (out, r1) := by
  obtain ⟨v1, ra, h1⟩ := Intn_of_pos img.H r (by omega)
  obtain ⟨v2, rb, h2⟩ := Intn_of_pos (Int.tdiv img.H 4) ra (by
    rw [Int.tdiv_eq_ediv (by omega) (by omega)]; omega)
  unfold glitchRight
  rw [h1]
  simp only
  rw [h2]
  exact ⟨_, _, rfl⟩

/-- C6. For a raster of height at least 4 and a shift `0 < o < W`, `glitchLeft`
completes, picks a band of rows `[startY, stopY)` with
`0 ≤ startY < stopY ≤ H` and `stopY - startY ≤ H / 4`, rotates every row of the
band left by `o` columns (`new(x,y) = old((x + o) mod W, y)`) and leaves every
other row as it was; `glitchRight` does the same with
`new(x,y) = old((x - o) mod W, y)`. -/
theorem glitch_shift_spec (img : ImageRGBA) (o : ℤ) (r : Rand) (hH : 4 ≤ img.H) (ho : 0 < o)
    (hoW : o < img.W) :
    (∃ (out : ImageRGBA) (r1 : Rand) (startY stopY : ℤ), glitchLeft img o r = some (out, r1) ∧
      0 ≤ startY ∧ startY < stopY ∧ stopY ≤ img.H ∧ stopY - startY ≤ (img.H : ℤ) / 4 ∧
      out.W = img.W ∧ out.H = img.H ∧
      ∀ x y : ℤ, 0 ≤ x → x < img.W → 0 ≤ y → y < img.H →
        out.At x y = if startY ≤ y ∧ y < stopY then img.At ((x + o) % img.W) y
          else img.At x y) ∧
    (∃ (out : ImageRGBA) (r1 : Rand) (startY stopY : ℤ), glitchRight img o r = some (out, r1) ∧
      0 ≤ startY ∧ startY < stopY ∧ stopY ≤ img.H ∧ stopY - startY ≤ (img.H : ℤ) / 4 ∧
      out.W = img.W ∧ out.H = img.H ∧
      ∀ x y : ℤ, 0 ≤ x → x < img.W → 0 ≤ y → y < img.H →
        out.At x y = if startY ≤ y ∧ y < stopY then img.At ((x - o) % img.W) y
          else img.At x y) := by
  constructor
  · obtain ⟨out, r1, h⟩ := glitchLeft_completes img o r (by omega)
    obtain ⟨startY, stopY, hs⟩ := glitchLeft_spec img o r out r1 h ho hoW
    exact ⟨out, r1, startY, stopY, h, hs⟩
  · obtain ⟨out, r1, h⟩ := glitchRight_completes img o r (by omega)
    obtain ⟨startY, stopY, hs⟩ := glitchRight_spec img o r out r1 h ho hoW
    exact ⟨out, r1, startY, stopY, h, hs⟩

theorem glitch_shift_spec_witness :
    (4 : ℤ) ≤ sampleImage.H ∧ (0 : ℤ) < 2 ∧ (2 : ℤ) < sampleImage.W ∧
    ((∃ (out : ImageRGBA) (r1 : Rand) (startY stopY : ℤ),
      glitchLeft sampleImage 2 sampleRand = some (out, r1) ∧
      0 ≤ startY ∧ startY < stopY ∧ stopY ≤ sampleImage.H ∧
      stopY - startY ≤ (sampleImage.H : ℤ) / 4 ∧
      out.W = sampleImage.W ∧ out.H = sampleImage.H ∧
      ∀ x y : ℤ, 0 ≤ x → x < sampleImage.W → 0 ≤ y → y < sampleImage.H →
        out.At x y = if startY ≤ y ∧ y < stopY then sampleImage.At ((x + 2) % sampleImage.W) y
          else sampleImage.At x y) ∧
    (∃ (out : ImageRGBA) (r1 : Rand) (startY stopY : ℤ),
      glitchRight sampleImage 2 sampleRand = some (out, r1) ∧
      0 ≤ startY ∧ startY < stopY ∧ stopY ≤ sampleImage.H ∧
      stopY - startY ≤ (sampleImage.H : ℤ) / 4 ∧
      out.W = sampleImage.W ∧ out.H = sampleImage.H ∧
      ∀ x y : ℤ, 0 ≤ x → x < sampleImage.W → 0 ≤ y → y < sampleImage.H →
        out.At x y = if startY ≤ y ∧ y < stopY then sampleImage.At ((x - 2) % sampleImage.W) y
          else sampleImage.At x y)) :=
  ⟨by decide, by decide, by decide,
    glitch_shift_spec sampleImage 2 sampleRand (by decide) (by decide) (by decide)⟩

/-! ## float32: rounding error -/

theorem roundHalfEven_bounds (r : ℚ) :
    r - 1 / 2 ≤ (roundHalfEven r : ℚ) ∧ (roundHalfEven r : ℚ) ≤ r + 1 / 2 := by
  have h1 := Int.floor_le r
  have h2 := Int.lt_floor_add_one r
  unfold roundHalfEven
  split_ifs with a b c
  · constructor <;> linarith
  · push_cast; constructor <;> linarith
  · constructor <;> linarith
  · push_cast; constructor <;> linarith

theorem ulp32_pos (x : ℚ) : 0 < ulp32 x := by
  unfold ulp32
  positivity

theorem ulp32_le (x : ℚ) (hx : 0 < x) : ulp32 x / 2 ≤ x * (1 / 2 ^ 24) := by
  have h := Int.zpow_log_le_self (b := 2) (r := x) (by norm_num) hx
  unfold ulp32
  rw [abs_of_pos hx]
  have e : (2 : ℚ) ^ (Int.log 2 x - 23) = (2 : ℚ) ^ (Int.log 2 x) * (1 / 2 ^ 23) := by
    rw [zpow_sub₀ (by norm_num : (2 : ℚ) ≠ 0)]
    norm_num [div_eq_mul_inv]
  rw [e]
  push_cast at h
  nlinarith

theorem f32_le_of_nonneg (x : ℚ) (hx : 0 ≤ x) : 0 ≤ f32 x ∧ f32 x ≤ x * (1 + 1 / 2 ^ 24) := by
  unfold f32
  split_ifs with h0
  · subst h0; norm_num
  · have hpos : 0 < x := lt_of_le_of_ne hx (Ne.symm h0)
    have hu := ulp32_pos x
    have hb := roundHalfEven_bounds (x / ulp32 x)
    have hle := ulp32_le x hpos
    have hq : 0 ≤ x / ulp32 x := div_nonneg hx hu.le
    constructor
    · apply mul_nonneg _ hu.le
      have : (-1 : ℚ) < (roundHalfEven (x / ulp32 x) : ℚ) := by linarith [hb.1]
      have : (-1 : ℤ) < roundHalfEven (x / ulp32 x) := by exact_mod_cast this
      have : (0 : ℤ) ≤ roundHalfEven (x / ulp32 x) := by omega
      exact_mod_cast this
    · calc (roundHalfEven (x / ulp32 x) : ℚ) * ulp32 x
          ≤ (x / ulp32 x + 1 / 2) * ulp32 x := mul_le_mul_of_nonneg_right hb.2 hu.le
        _ = x + ulp32 x / 2 := by field_simp; ring
        _ ≤ x * (1 + 1 / 2 ^ 24) := by linarith

theorem f32_nonpos (x : ℚ) (hx : x ≤ 0) : f32 x ≤ 0 := by
  unfold f32
  split_ifs with h0
  · exact le_refl 0
  · have hneg : x < 0 := lt_of_le_of_ne hx h0
    have hu := ulp32_pos x
    have hb := roundHalfEven_bounds (x / ulp32 x)
    have hq : x / ulp32 x < 0 := div_neg_of_neg_of_pos hneg hu
    have : (roundHalfEven (x / ulp32 x) : ℚ) < 1 := by linarith [hb.2]
    have : roundHalfEven (x / ulp32 x) < 1 := by exact_mod_cast this
    have : roundHalfEven (x / ulp32 x) ≤ 0 := by omega
    have : (roundHalfEven (x / ulp32 x) : ℚ) ≤ 0 := by exact_mod_cast this
    exact mul_nonpos_of_nonpos_of_nonneg this hu.le

theorem truncInt_lt (x : ℚ) (n : ℤ) (hn : 0 < n) (h : x < n) : truncInt x < n := by
  unfold truncInt
  split_ifs with h0
  · exact Int.floor_lt.2 h
  · have : ⌈x⌉ ≤ 0 := Int.ceil_le.2 (by push_cast; linarith)
    omega

/-- For an intensity of at most 9 the largest shift stays below the width. -/
theorem maxOffsetOf_lt (f : ℚ) (W : ℕ) (hf : f ≤ 9) (hW : 0 < W) : maxOffsetOf f W < W := by
  unfold maxOffsetOf
  apply truncInt_lt _ _ (by exact_mod_cast hW)
  have hWq : (0 : ℚ) < (W : ℚ) := by exact_mod_cast hW
  obtain ⟨a0, a1⟩ := f32_le_of_nonneg (W : ℚ) hWq.le
  by_cases hf0 : 0 ≤ f
  · obtain ⟨b0, b1⟩ := f32_le_of_nonneg (f * f32 W) (mul_nonneg hf0 a0)
    obtain ⟨c0, c1⟩ := f32_le_of_nonneg (f32 (f * f32 W) / 10) (div_nonneg b0 (by norm_num))
    have h1 : f * f32 W ≤ 9 * (W * (1 + 1 / 2 ^ 24)) :=
      mul_le_mul hf a1 a0 (by norm_num)
    have h2 : f32 (f * f32 W) ≤ 9 * (W * (1 + 1 / 2 ^ 24)) * (1 + 1 / 2 ^ 24) :=
      le_trans b1 (mul_le_mul_of_nonneg_right h1 (by norm_num))
    have h3 : f32 (f32 (f * f32 W) / 10)
        ≤ 9 * (W * (1 + 1 / 2 ^ 24)) * (1 + 1 / 2 ^ 24) / 10 * (1 + 1 / 2 ^ 24) :=
      le_trans c1 (mul_le_mul_of_nonneg_right
        (div_le_div_of_nonneg_right h2 (by norm_num)) (by norm_num))
    have h4 : 9 * ((W : ℚ) * (1 + 1 / 2 ^ 24)) * (1 + 1 / 2 ^ 24) / 10 * (1 + 1 / 2 ^ 24)
        = (W : ℚ) * (9 * (1 + 1 / 2 ^ 24) ^ 3 / 10) := by ring
    have h5 : (9 * (1 + 1 / 2 ^ 24) ^ 3 / 10 : ℚ) < 1 := by norm_num
    calc f32 (f32 (f * f32 W) / 10) ≤ (W : ℚ) * (9 * (1 + 1 / 2 ^ 24) ^ 3 / 10) := by
          rw [← h4]; exact h3
      _ < (W : ℚ) * 1 := mul_lt_mul_of_pos_left h5 hWq
      _ = ((W : ℤ) : ℚ) := by push_cast; ring
  · have h1 : f * f32 W ≤ 0 := mul_nonpos_of_nonpos_of_nonneg (by linarith) a0
    have h2 := f32_nonpos _ h1
    have h3 := f32_nonpos (f32 (f * f32 W) / 10) (div_nonpos_of_nonpos_of_nonneg h2 (by norm_num))
    calc f32 (f32 (f * f32 W) / 10) ≤ 0 := h3
      _ < ((W : ℤ) : ℚ) := by push_cast; exact hWq

/-! ## the random shift keeps the pixels of every row -/

theorem row_congr_nat (a b : ImageRGBA) (y : ℤ) (hW : a.W = b.W)
    (h : ∀ x : ℕ, x < a.W → a.At x y = b.At x y) : a.row y = b.row y := by
  unfold ImageRGBA.row
  rw [← hW]
  exact List.map_congr_left (fun x hx => h x (List.mem_range.1 hx))

theorem row_rotate (img out : ImageRGBA) (y : ℤ) (n : ℕ) (hW : out.W = img.W)
    (h : ∀ x : ℕ, x < img.W → out.At x y = img.At (((x + n) % img.W : ℕ) : ℤ) y) :
    out.row y = (img.row y).rotate n := by
  apply row_eq_of_At
  · rw [List.length_rotate, row_length, hW]
  · intro x hx
    rw [hW] at hx
    have hlen : x < ((img.row y).rotate n).length := by
      rw [List.length_rotate, row_length]; exact hx
    have hmod : (x + n) % (img.row y).length < img.W := by
      rw [row_length]; exact Nat.mod_lt _ (by omega)
    rw [List.getD_eq_getElem _ _ hlen, List.getElem_rotate,
      ← List.getD_eq_getElem _ ColorRGBA.zero, row_getD _ _ _ hmod, row_length]
    exact h x hx

/-- A raster whose band rows are the former rows rotated by `k` columns, the
other rows being unchanged, has the same pixels in every row. -/
theorem shifted_row_multiset (img out : ImageRGBA) (k startY stopY : ℤ)
    (hW : out.W = img.W) (hH : out.H = img.H)
    (hAt : ∀ x y : ℤ, 0 ≤ x → x < img.W → 0 ≤ y → y < img.H →
      out.At x y = if startY ≤ y ∧ y < stopY then img.At ((x + k) % img.W) y
        else img.At x y) (y : ℤ) :
    ((out.row y : List ColorRGBA) : Multiset ColorRGBA)
      = ((img.row y : List ColorRGBA) : Multiset ColorRGBA) := by
  by_cases hy : 0 ≤ y ∧ y < img.H
  · by_cases hband : startY ≤ y ∧ y < stopY
    · have hr : out.row y = (img.row y).rotate (k % img.W).toNat := by
        apply row_rotate _ _ _ _ hW
        intro x hx
        have hWpos : (0 : ℤ) < img.W := by omega
        rw [hAt x y (by omega) (by omega) hy.1 hy.2, if_pos hband]
        congr 1
        have h1 : ((k % img.W).toNat : ℤ) = k % img.W :=
          Int.toNat_of_nonneg (Int.emod_nonneg k (by omega))
        push_cast
        rw [h1, Int.add_emod_emod]
      rw [hr]
      exact Quotient.sound (List.rotate_perm _ _)
    · rw [row_congr_nat out img y hW (fun x hx => by
        rw [hW] at hx
        rw [hAt x y (by omega) (by omega) hy.1 hy.2, if_neg hband])]
  · rw [row_congr_nat out img y hW (fun x hx => by
      rw [At_outside out x y (by rw [hH]; omega), At_outside img x y (by omega)])]

theorem maxOffsetOf_zero_width (f : ℚ) : maxOffsetOf f 0 = 0 := by
  simp [maxOffsetOf, f32, truncInt]

theorem randomGlitchStep_rows (m : ℤ) (s t : ImageRGBA × Rand)
    (hm : m < s.1.W ∨ m ≤ 0) (h : randomGlitchStep m s = some t) :
    t.1.W = s.1.W ∧ t.1.H = s.1.H ∧
    ∀ y : ℤ, ((t.1.row y : List ColorRGBA) : Multiset ColorRGBA)
      = ((s.1.row y : List ColorRGBA) : Multiset ColorRGBA) := by
  unfold randomGlitchStep at h
  cases h1 : Intn (2 * m) s.2 with
  | none => rw [h1] at h; exact absurd h (by simp)
  | some p =>
    obtain ⟨d, ra⟩ := p
    rw [h1] at h
    simp only at h
    obtain ⟨k1, k2, k3⟩ := Intn_eq_some _ _ _ _ h1
    have hmW : m < s.1.W := by omega
    split_ifs at h with e1 e2
    · simp only [Option.some.injEq] at h
      rw [← h]
      exact ⟨rfl, rfl, fun y => rfl⟩
    · obtain ⟨out, rb⟩ := t
      obtain ⟨sY, eY, _, _, _, _, gW, gH, gAt⟩ :=
        glitchLeft_spec s.1 (-(d - m)) ra out rb h (by omega) (by omega)
      exact ⟨gW, gH, shifted_row_multiset s.1 out (-(d - m)) sY eY gW gH gAt⟩
    · obtain ⟨out, rb⟩ := t
      obtain ⟨sY, eY, _, _, _, _, gW, gH, gAt⟩ :=
        glitchRight_spec s.1 (d - m) ra out rb h (by omega) (by omega)
      refine ⟨gW, gH, shifted_row_multiset s.1 out (-(d - m)) sY eY gW gH ?_⟩
      intro x y hx0 hx hy0 hy
      rw [gAt x y hx0 hx hy0 hy, sub_eq_add_neg]

theorem maxOffsetOf_lt_or (f : ℚ) (W : ℕ) (hf : f ≤ 9) :
    maxOffsetOf f W < W ∨ maxOffsetOf f W ≤ 0 := by
  rcases Nat.eq_zero_or_pos W with h | h
  · right; rw [h, maxOffsetOf_zero_width]
  · left; exact maxOffsetOf_lt f W hf h

/-- C7 (amended). For an intensity in [0.1, 9.0], a completed
`applyRandomGlitch` keeps the dimensions of the raster and the multiset of
pixels of every row. -/
theorem applyRandomGlitch_rows (img : ImageRGBA) (f : ℚ) (r : Rand) (out : ImageRGBA)
    (r1 : Rand) (hlo : 1 / 10 ≤ f) (hhi : f ≤ 9)
    (h : applyRandomGlitch img f r = some (out, r1)) :
    out.W = img.W ∧ out.H = img.H ∧
    ∀ y : ℤ, ((out.row y : List ColorRGBA) : Multiset ColorRGBA)
      = ((img.row y : List ColorRGBA) : Multiset ColorRGBA) := by
  unfold applyRandomGlitch forRangeM at h
  exact forLoopM_ind (fun _ s => randomGlitchStep (maxOffsetOf f img.W) s)
    (truncInt (f32 (f * 2)) - 0).toNat
    (fun _ t => t.1.W = img.W ∧ t.1.H = img.H ∧
      ∀ y : ℤ, ((t.1.row y : List ColorRGBA) : Multiset ColorRGBA)
        = ((img.row y : List ColorRGBA) : Multiset ColorRGBA))
    0 (img, r) (out, r1) ⟨rfl, rfl, fun _ => rfl⟩
    (fun k t u _ hP hu => by
      obtain ⟨tW, tH, tR⟩ := hP
      obtain ⟨uW, uH, uR⟩ := randomGlitchStep_rows (maxOffsetOf f img.W) t u
        (by rw [tW]; exact maxOffsetOf_lt_or f img.W hhi) hu
      exact ⟨uW.trans tW, uH.trans tH, fun y => (uR y).trans (tR y)⟩) h

theorem sampleShifted_isSome : (applyRandomGlitch sampleImage 2 sampleRand).isSome = true := by
  decide!

theorem sampleShifted_eq :
    applyRandomGlitch sampleImage 2 sampleRand = some (sampleShifted.1, sampleShifted.2) := by
  obtain ⟨p, hp⟩ := Option.isSome_iff_exists.1 sampleShifted_isSome
  unfold sampleShifted
  rw [hp]
  rfl

theorem applyRandomGlitch_rows_witness :
    (1 / 10 : ℚ) ≤ 2 ∧ (2 : ℚ) ≤ 9 ∧
    applyRandomGlitch sampleImage 2 sampleRand = some (sampleShifted.1, sampleShifted.2) ∧
    (sampleShifted.1.W = sampleImage.W ∧ sampleShifted.1.H = sampleImage.H ∧
      ∀ y : ℤ, ((sampleShifted.1.row y : List ColorRGBA) : Multiset ColorRGBA)
        = ((sampleImage.row y : List ColorRGBA) : Multiset ColorRGBA)) :=
  ⟨by norm_num, by norm_num, sampleShifted_eq,
    applyRandomGlitch_rows sampleImage 2 sampleRand sampleShifted.1 sampleShifted.2
      (by norm_num) (by norm_num) sampleShifted_eq⟩

/-- C7 (counterexample). With intensity 20 on a raster one pixel wide,
`maxOffset` is 2, a shift by 2 columns reads outside the raster, and the
(200,100,50,255) pixel of row 0 is replaced by (0,0,0,0). -/
theorem applyRandomGlitch_intensity20_loses_pixel :
    (applyRandomGlitch (uniformImage 1 4 ⟨200, 100, 50, 255⟩) 20 ⟨fun _ => 0⟩).map
        (fun p => p.1.row 0) = some [⟨0, 0, 0, 0⟩] ∧
    (uniformImage 1 4 ⟨200, 100, 50, 255⟩).row 0 = [⟨200, 100, 50, 255⟩] := by
  decide!

/-! ## scan lines -/

theorem scanStep_eq (f : ℚ) : truncInt (Glitcher.max 1 f) = Max.max 1 ⌊f⌋ := by
  unfold Glitcher.max truncInt
  by_cases h : (1 : ℚ) > f
  · rw [if_pos h, if_pos (by norm_num), Int.floor_one]
    have : ⌊f⌋ < 1 := Int.floor_lt.2 (by exact_mod_cast h)
    omega
  · rw [if_neg h, if_pos (by linarith)]
    have : (1 : ℤ) ≤ ⌊f⌋ := Int.le_floor.2 (by push_cast; linarith)
    omega

theorem multiple_step (step y v : ℤ) (hstep : 1 ≤ step) (hy : y % step = 0) :
    (y ≤ v ∧ v % step = 0) ↔ (v = y ∨ (y + step ≤ v ∧ v % step = 0)) := by
  constructor
  · rintro ⟨h1, h2⟩
    by_cases e : v = y
    · exact Or.inl e
    · right
      refine ⟨?_, h2⟩
      have hd : step ∣ v - y :=
        Int.dvd_sub (Int.dvd_of_emod_eq_zero h2) (Int.dvd_of_emod_eq_zero hy)
      have := Int.le_of_dvd (by omega) hd
      omega
  · rintro (rfl | ⟨h1, h2⟩)
    · exact ⟨le_refl _, hy⟩
    · exact ⟨by omega, h2⟩

theorem scanRows_spec (step : ℤ) (hstep : 1 ≤ step) :
    ∀ (fuel : ℕ) (y : ℤ) (img : ImageRGBA), 0 ≤ y → y % step = 0 →
      (img.H : ℤ) ≤ y + fuel * step →
      (scanRows step fuel y img).W = img.W ∧ (scanRows step fuel y img).H = img.H ∧
      ∀ u v : ℤ, (scanRows step fuel y img).At u v
        = if ((0 ≤ u ∧ u < img.W) ∧ (0 ≤ v ∧ v < img.H)) ∧ (y ≤ v ∧ v % step = 0)
          then ⟨0, 0, 0, 255⟩ else img.At u v := by
  intro fuel
  induction fuel with
  | zero =>
    intro y img hy0 hy hH
    refine ⟨rfl, rfl, fun u v => ?_⟩
    simp only [scanRows]
    rw [if_neg]
    push_cast at hH
    omega
  | succ fuel ih =>
    intro y img hy0 hy hH
    simp only [scanRows]
    by_cases hlt : y < img.H
    · rw [if_pos hlt]
      obtain ⟨fW, fH, fAt⟩ := fillRow_spec (fun x t => t.Set x y ⟨0, 0, 0, 255⟩) 0 y
        (fun _ => ⟨0, 0, 0, 255⟩) (fun x t => by simp only [add_zero])
        ((img.W : ℤ) - 0).toNat 0 img
      unfold forRange
      obtain ⟨iW, iH, iAt⟩ := ih (y + step)
        (forLoop (fun x t => t.Set x y ⟨0, 0, 0, 255⟩) ((img.W : ℤ) - 0).toNat 0 img)
        (by omega) (by rw [Int.add_emod_self]; exact hy)
        (by rw [fH]; push_cast at hH ⊢; linarith)
      refine ⟨iW.trans fW, iH.trans fH, fun u v => ?_⟩
      rw [iAt, fAt, fW, fH]
      have hm := multiple_step step y v hstep hy
      by_cases hb : (0 ≤ u ∧ u < img.W) ∧ (0 ≤ v ∧ v < img.H)
      · by_cases hv : v = y
        · subst hv
          rw [if_neg (by omega), if_pos (by omega), if_pos ⟨hb, le_refl _, hy⟩]
        · by_cases hc : y ≤ v ∧ v % step = 0
          · have h2 := (hm.1 hc).resolve_left hv
            rw [if_pos ⟨hb, h2⟩, if_pos ⟨hb, hc⟩]
          · have h2 : ¬ (y + step ≤ v ∧ v % step = 0) := fun h => hc (hm.2 (Or.inr h))
            rw [if_neg (fun h => h2 h.2), if_neg (by omega), if_neg (fun h => hc h.2)]
      · rw [if_neg (fun h => hb h.1), if_neg (by omega), if_neg (fun h => hb h.1)]
    · rw [if_neg hlt]
      refine ⟨rfl, rfl, fun u v => ?_⟩
      rw [if_neg]
      omega

/-- C8 (amended). For an intensity `f` in [0.1, 9.0], `applyScanLines` sets
every pixel of every row `y` with `y mod step = 0` to (0,0,0,255), where
`step = max(1, floor(f))`, and leaves every pixel of the other rows as it
was. -/
theorem applyScanLines_spec (img : ImageRGBA) (f : ℚ) (hlo : 1 / 10 ≤ f) (hhi : f ≤ 9) :
    (applyScanLines img f).W = img.W ∧ (applyScanLines img f).H = img.H ∧
    ∀ x y : ℤ, 0 ≤ x → x < img.W → 0 ≤ y → y < img.H →
      (applyScanLines img f).At x y
        = if y % (Max.max 1 ⌊f⌋) = 0 then ⟨0, 0, 0, 255⟩ else img.At x y := by
  unfold applyScanLines
  rw [scanStep_eq]
  have hstep : (1 : ℤ) ≤ Max.max 1 ⌊f⌋ := le_max_left _ _
  obtain ⟨sW, sH, sAt⟩ := scanRows_spec (Max.max 1 ⌊f⌋) hstep img.H 0 img (le_refl 0)
    (Int.zero_emod _) (by
      have : (0 : ℤ) ≤ img.H := Int.ofNat_nonneg _
      nlinarith)
  refine ⟨sW, sH, fun x y hx0 hx hy0 hy => ?_⟩
  rw [sAt]
  by_cases h : y % (Max.max 1 ⌊f⌋) = 0
  · rw [if_pos h, if_pos ⟨⟨⟨hx0, hx⟩, hy0, hy⟩, hy0, h⟩]
  · rw [if_neg h, if_neg (fun hh => h hh.2.2)]

theorem applyScanLines_spec_witness :
    (1 / 10 : ℚ) ≤ 7 / 4 ∧ (7 / 4 : ℚ) ≤ 9 ∧
    ((applyScanLines sampleImage (7 / 4)).W = sampleImage.W ∧
      (applyScanLines sampleImage (7 / 4)).H = sampleImage.H ∧
      ∀ x y : ℤ, 0 ≤ x → x < sampleImage.W → 0 ≤ y → y < sampleImage.H →
        (applyScanLines sampleImage (7 / 4)).At x y
          = if y % (Max.max 1 ⌊(7 / 4 : ℚ)⌋) = 0 then ⟨0, 0, 0, 255⟩
            else sampleImage.At x y) :=
  ⟨by norm_num, by norm_num,
    applyScanLines_spec sampleImage (7 / 4) (by norm_num) (by norm_num)⟩

/-- C8 (counterexample). With intensity 1.75 the specification's step
`max(1, round(f))` is 2, so row 1 should keep its pixels; the code's step is
`int(max(1, f)) = 1` and the pixel (0,1) is overwritten with (0,0,0,255). -/
theorem applyScanLines_round_step_fails :
    specScanStep (7 / 4) = 2 ∧ (1 : ℤ) % specScanStep (7 / 4) ≠ 0 ∧
    (applyScanLines sampleImage (7 / 4)).At 0 1 = ⟨0, 0, 0, 255⟩ ∧
    sampleImage.At 0 1 = ⟨200, 10, 7, 100⟩ := by
  decide!

/-! ## color offset: the write at one pixel -/

theorem uint8_narrow (v : Fin 256) : uint8 ((v.val ||| (v.val <<< 8)) >>> 8) = v := by
  revert v; decide!

theorem Set_At_self (img : ImageRGBA) (x y : ℤ) (c : ColorRGBA)
    (hx0 : 0 ≤ x) (hx : x < img.W) (hy0 : 0 ≤ y) (hy : y < img.H) :
    (img.Set x y c).At x y = c := by
  rw [Set_At_prop, if_pos ⟨rfl, rfl, ⟨hx0, hx⟩, hy0, hy⟩]

theorem Set_At_other (img : ImageRGBA) (x y : ℤ) (c : ColorRGBA) (u v : ℤ)
    (h : ¬ (u = x ∧ v = y)) : (img.Set x y c).At u v = img.At u v := by
  rw [Set_At_prop, if_neg (fun hh => h ⟨hh.1, hh.2.1⟩)]

/-- C9 (amended). In `applyColorOffset`, the write at a pixel `(x,y)` of the
raster changes no other pixel; it takes the chosen channel and the alpha from
the source pixel read at that moment and keeps the two other colour channels
that `(x,y)` held before the write. -/
theorem colorOffsetPixel_write (img : ImageRGBA) (channel offsetX offsetY x y : ℤ)
    (hx0 : 0 ≤ x) (hx : x < img.W) (hy0 : 0 ≤ y) (hy : y < img.H)
    (hc : channel = 0 ∨ channel = 1 ∨ channel = 2) :
    ((colorOffsetPixel channel offsetX offsetY x y img).At x y).A
        = (img.RGBAAt (Int.tmod (x + offsetX + img.W) img.W)
            (Int.tmod (y + offsetY + img.H) img.H)).A
    ∧ (channel = 0 →
        ((colorOffsetPixel channel offsetX offsetY x y img).At x y).R
          = (img.RGBAAt (Int.tmod (x + offsetX + img.W) img.W)
              (Int.tmod (y + offsetY + img.H) img.H)).R
        ∧ ((colorOffsetPixel channel offsetX offsetY x y img).At x y).G = (img.At x y).G
        ∧ ((colorOffsetPixel channel offsetX offsetY x y img).At x y).B = (img.At x y).B)
    ∧ (channel = 1 →
        ((colorOffsetPixel channel offsetX offsetY x y img).At x y).G
          = (img.RGBAAt (Int.tmod (x + offsetX + img.W) img.W)
              (Int.tmod (y + offsetY + img.H) img.H)).G
        ∧ ((colorOffsetPixel channel offsetX offsetY x y img).At x y).R = (img.At x y).R
        ∧ ((colorOffsetPixel channel offsetX offsetY x y img).At x y).B = (img.At x y).B)
    ∧ (channel = 2 →
        ((colorOffsetPixel channel offsetX offsetY x y img).At x y).B
          = (img.RGBAAt (Int.tmod (x + offsetX + img.W) img.W)
              (Int.tmod (y + offsetY + img.H) img.H)).B
        ∧ ((colorOffsetPixel channel offsetX offsetY x y img).At x y).R = (img.At x y).R
        ∧ ((colorOffsetPixel channel offsetX offsetY x y img).At x y).G = (img.At x y).G)
    ∧ (∀ u v : ℤ, ¬ (u = x ∧ v = y) →
        (colorOffsetPixel channel offsetX offsetY x y img).At u v = img.At u v) := by
  unfold colorOffsetPixel
  simp only [ColorRGBA.RGBA, RGBAAt_eq_At]
  rcases hc with rfl | rfl | rfl
  · simp only [if_true]
    refine ⟨?_, ?_, ?_, ?_, fun u v huv => Set_At_other _ _ _ _ _ _ huv⟩ <;>
      simp [Set_At_self _ _ _ _ hx0 hx hy0 hy, uint8_narrow]
  · simp only [if_true, one_ne_zero, if_false]
    refine ⟨?_, ?_, ?_, ?_, fun u v huv => Set_At_other _ _ _ _ _ _ huv⟩ <;>
      simp [Set_At_self _ _ _ _ hx0 hx hy0 hy, uint8_narrow]
  · simp only [if_true, OfNat.ofNat_ne_zero, OfNat.ofNat_ne_one, if_false]
    refine ⟨?_, ?_, ?_, ?_, fun u v huv => Set_At_other _ _ _ _ _ _ huv⟩ <;>
      simp [Set_At_self _ _ _ _ hx0 hx hy0 hy, uint8_narrow]

theorem colorOffsetPixel_write_witness :
    (0 : ℤ) ≤ 0 ∧ (0 : ℤ) < sampleImage.W ∧ (0 : ℤ) ≤ 0 ∧ (0 : ℤ) < sampleImage.H ∧
    ((0 : ℤ) = 0 ∨ (0 : ℤ) = 1 ∨ (0 : ℤ) = 2) ∧
    ((colorOffsetPixel 0 1 0 0 0 sampleImage).At 0 0).A
      = (sampleImage.RGBAAt (Int.tmod (0 + 1 + sampleImage.W) sampleImage.W)
          (Int.tmod (0 + 0 + sampleImage.H) sampleImage.H)).A :=
  ⟨by decide, by decide, by decide, by decide, by decide,
    (colorOffsetPixel_write sampleImage 0 1 0 0 0 (by decide) (by decide) (by decide)
      (by decide) (by decide)).1⟩

/-- C9 (counterexample). With intensity 1.0 and the draws 2, 1, 0 the offsets
are (1, 0) and the channel is R; the write at pixel (0,0) of the sample raster
reads the source pixel (1,0) and replaces the alpha 100 of (0,0) by the
source's alpha 101. -/
theorem colorOffsetPixel_overwrites_alpha :
    (colorOffsetDraws 1 ⟨fun i => 2 - i⟩).map Prod.fst = some (1, 0, 0) ∧
    (sampleImage.At 0 0).A = 100 ∧
    ((colorOffsetPixel 0 1 0 0 0 sampleImage).At 0 0).A = 101 := by
  decide!

/-! ## color offset: the draws -/

theorem roundHalfEven_ge_floor (r : ℚ) : ⌊r⌋ ≤ roundHalfEven r := by
  unfold roundHalfEven
  split_ifs <;> omega

theorem f32_ge_one (y : ℚ) (hy : 1 ≤ y) : 1 ≤ f32 y := by
  have hpos : 0 < y := by linarith
  have hlog : 0 ≤ Int.log 2 y :=
    (Int.zpow_le_iff_le_log (b := 2) (by norm_num) hpos).1 (by simpa using hy)
  have hle := Int.zpow_log_le_self (b := 2) (r := y) (by norm_num) hpos
  push_cast at hle
  unfold f32
  rw [if_neg (by linarith)]
  have hu := ulp32_pos y
  have hue : ulp32 y = (2 : ℚ) ^ (Int.log 2 y) * (1 / 2 ^ 23) := by
    unfold ulp32
    rw [abs_of_pos hpos, zpow_sub₀ (by norm_num : (2 : ℚ) ≠ 0)]
    norm_num [div_eq_mul_inv]
  have hq : ((2 ^ 23 : ℤ) : ℚ) ≤ y / ulp32 y := by
    rw [le_div_iff₀ hu, hue]
    push_cast
    linarith
  have hfl : (2 ^ 23 : ℤ) ≤ roundHalfEven (y / ulp32 y) :=
    le_trans (Int.le_floor.2 hq) (roundHalfEven_ge_floor _)
  have hflq : ((2 ^ 23 : ℤ) : ℚ) ≤ (roundHalfEven (y / ulp32 y) : ℚ) := by exact_mod_cast hfl
  have h1 : (1 : ℚ) ≤ (2 : ℚ) ^ (Int.log 2 y) := one_le_zpow₀ (by norm_num) hlog
  calc (1 : ℚ) ≤ (2 : ℚ) ^ (Int.log 2 y) := h1
    _ = ((2 ^ 23 : ℤ) : ℚ) * ulp32 y := by rw [hue]; push_cast; ring
    _ ≤ (roundHalfEven (y / ulp32 y) : ℚ) * ulp32 y :=
        mul_le_mul_of_nonneg_right hflq hu.le

theorem offsetRange_pos (f : ℚ) (hf : 0 ≤ f) : 1 ≤ offsetRange f := by
  unfold offsetRange
  have h0 := (f32_le_of_nonneg (f * 2) (by linarith)).1
  have h1 := f32_ge_one (f32 (f * 2) + 1) (by linarith)
  unfold truncInt
  rw [if_pos (by linarith)]
  exact Int.le_floor.2 (by push_cast; exact h1)

theorem offsetRange_whole (k : ℤ) (h1 : 1 ≤ k) (h9 : k ≤ 9) :
    offsetRange (k : ℚ) = 2 * k + 1 := by
  interval_cases k <;> decide!

theorem truncInt_of_nonneg (f : ℚ) (hf : 0 ≤ f) : truncInt f = ⌊f⌋ := by
  unfold truncInt
  rw [if_pos hf]

/-- C10 (amended). For an intensity `f` in [0.1, 9.0] and every outcome of
the draws, the three draws of `applyColorOffset` succeed; the draw range is
`R = int(f*2+1)`, at least 1; `offsetX` and `offsetY` lie in
`[-floor(f), R - 1 - floor(f)]`; the channel index lies in {0,1,2}. For a
whole intensity `R = 2*f + 1` and the interval is the symmetric `[-f, f]`. -/
theorem colorOffsetDraws_bounds (f : ℚ) (r : Rand) (hlo : 1 / 10 ≤ f) (hhi : f ≤ 9) :
    1 ≤ offsetRange f
    ∧ (∃ offsetX offsetY channel r3,
        colorOffsetDraws f r = some ((offsetX, offsetY, channel), r3))
    ∧ (∀ offsetX offsetY channel r3,
        colorOffsetDraws f r = some ((offsetX, offsetY, channel), r3) →
          (-⌊f⌋ ≤ offsetX ∧ offsetX ≤ offsetRange f - 1 - ⌊f⌋) ∧
          (-⌊f⌋ ≤ offsetY ∧ offsetY ≤ offsetRange f - 1 - ⌊f⌋) ∧
          (0 ≤ channel ∧ channel ≤ 2))
    ∧ (∀ k : ℤ, f = k → offsetRange f = 2 * k + 1 ∧ offsetRange f - 1 - ⌊f⌋ = ⌊f⌋) := by
  have hf0 : 0 ≤ f := by linarith
  have hR := offsetRange_pos f hf0
  refine ⟨hR, ?_, ?_, ?_⟩
  · obtain ⟨a, r1, h1⟩ := Intn_of_pos (offsetRange f) r (by omega)
    obtain ⟨b, r2, h2⟩ := Intn_of_pos (offsetRange f) r1 (by omega)
    obtain ⟨c, r3, h3⟩ := Intn_of_pos 3 r2 (by decide)
    refine ⟨a - truncInt f, b - truncInt f, c, r3, ?_⟩
    unfold colorOffsetDraws
    simp only [h1, h2, h3]
  · intro offsetX offsetY channel r3 h
    unfold colorOffsetDraws at h
    cases h1 : Intn (offsetRange f) r with
    | none => rw [h1] at h; exact absurd h (by simp)
    | some p1 =>
      obtain ⟨a, r1⟩ := p1
      rw [h1] at h
      simp only at h
      cases h2 : Intn (offsetRange f) r1 with
      | none => rw [h2] at h; exact absurd h (by simp)
      | some p2 =>
        obtain ⟨b, r2⟩ := p2
        rw [h2] at h
        simp only at h
        cases h3 : Intn 3 r2 with
        | none => rw [h3] at h; exact absurd h (by simp)
        | some p3 =>
          obtain ⟨c, r4⟩ := p3
          rw [h3] at h
          simp only [Option.some.injEq, Prod.mk.injEq] at h
          obtain ⟨⟨e1, e2, e3⟩, _⟩ := h
          obtain ⟨_, a0, a1⟩ := Intn_eq_some _ _ _ _ h1
          obtain ⟨_, b0, b1⟩ := Intn_eq_some _ _ _ _ h2
          obtain ⟨_, c0, c1⟩ := Intn_eq_some _ _ _ _ h3
          rw [truncInt_of_nonneg f hf0] at e1 e2
          omega
  · intro k hk
    subst hk
    have k1 : 1 ≤ k := by
      have : (0 : ℚ) < (k : ℚ) := by linarith
      have : 0 < k := by exact_mod_cast this
      omega
    have k9 : k ≤ 9 := by exact_mod_cast hhi
    rw [offsetRange_whole k k1 k9, Int.floor_intCast]
    omega

theorem colorOffsetDraws_bounds_witness :
    (1 / 10 : ℚ) ≤ 3 / 2 ∧ (3 / 2 : ℚ) ≤ 9 ∧ 1 ≤ offsetRange (3 / 2) :=
  ⟨by norm_num, by norm_num,
    (colorOffsetDraws_bounds (3 / 2) sampleRand (by norm_num) (by norm_num)).1⟩

/-- C10 (counterexample). With intensity 1.5 the draw range is
`int(1.5*2+1) = 4`, not `2*floor(1.5)+1 = 3`, and a draw of 3 gives
`offsetX = offsetY = 3 - 1 = 2`, outside `[-1, 1]`. -/
theorem colorOffsetDraws_asymmetric :
    offsetRange (3 / 2) = 4 ∧ ⌊(3 / 2 : ℚ)⌋ = 1 ∧
    (colorOffsetDraws (3 / 2) ⟨fun _ => 3⟩).map Prod.fst = some (2, 2, 0) := by
  decide!

/-! ## scan lines: repeated application -/

theorem scanStep_pos (f : ℚ) : 1 ≤ truncInt (Glitcher.max 1 f) := by
  rw [scanStep_eq]; exact le_max_left _ _

/-- Pixels left by `applyScanLines`, for every intensity. -/
theorem applyScanLines_At (img : ImageRGBA) (f : ℚ) :
    (applyScanLines img f).W = img.W ∧ (applyScanLines img f).H = img.H ∧
    ∀ u v : ℤ, (applyScanLines img f).At u v
      = if ((0 ≤ u ∧ u < img.W) ∧ (0 ≤ v ∧ v < img.H)) ∧
          v % truncInt (Glitcher.max 1 f) = 0
        then ⟨0, 0, 0, 255⟩ else img.At u v := by
  unfold applyScanLines
  have hstep := scanStep_pos f
  obtain ⟨sW, sH, sAt⟩ := scanRows_spec (truncInt (Glitcher.max 1 f)) hstep img.H 0 img
    (le_refl 0) (Int.zero_emod _) (by
      have : (0 : ℤ) ≤ img.H := Int.ofNat_nonneg _
      nlinarith)
  refine ⟨sW, sH, fun u v => ?_⟩
  rw [sAt]
  by_cases h : ((0 ≤ u ∧ u < img.W) ∧ (0 ≤ v ∧ v < img.H)) ∧
      v % truncInt (Glitcher.max 1 f) = 0
  · rw [if_pos h, if_pos ⟨h.1, h.1.2.1, h.2⟩]
  · rw [if_neg h, if_neg (fun hh => h ⟨hh.1, hh.2.2⟩)]

/-- Over unbounded integers `applyScanLines` is idempotent: applying it twice
with the same intensity leaves the raster that applying it once leaves (same
dimensions, same pixel at every coordinate). -/
theorem applyScanLines_idempotent (img : ImageRGBA) (f : ℚ) :
    (applyScanLines (applyScanLines img f) f).W = (applyScanLines img f).W ∧
    (applyScanLines (applyScanLines img f) f).H = (applyScanLines img f).H ∧
    ∀ x y : ℤ, (applyScanLines (applyScanLines img f) f).At x y
      = (applyScanLines img f).At x y := by
  obtain ⟨aW, aH, aAt⟩ := applyScanLines_At img f
  obtain ⟨bW, bH, bAt⟩ := applyScanLines_At (applyScanLines img f) f
  refine ⟨bW, bH, fun x y => ?_⟩
  rw [bAt, aW, aH, aAt]
  by_cases h : ((0 ≤ x ∧ x < img.W) ∧ (0 ≤ y ∧ y < img.H)) ∧
      y % truncInt (Glitcher.max 1 f) = 0
  · rw [if_pos h, if_pos h]
  · rw [if_neg h]

/-! ## the engine: the cycle loop as a fold -/

theorem forLoopM_succ_last {σ : Type} (body : ℤ → σ → Option σ) :
    ∀ (n : ℕ) (lo : ℤ) (s : σ),
      forLoopM body (n + 1) lo s = (forLoopM body n lo s).bind (body (lo + n)) := by
  intro n
  induction n with
  | zero =>
    intro lo s
    simp only [forLoopM, Option.some_bind, Nat.cast_zero, add_zero]
    cases body lo s <;> rfl
  | succ n ih =>
    intro lo s
    rw [forLoopM]
    cases hb : body lo s with
    | none => simp only [forLoopM, hb, Option.none_bind]
    | some t =>
      simp only
      rw [ih (lo + 1) t]
      have e : lo + 1 + (n : ℤ) = lo + ((n + 1 : ℕ) : ℤ) := by push_cast; ring
      rw [e]
      conv_rhs => rw [forLoopM]
      simp only [hb]

theorem glitchCycle_eq_specCycle (f : ℚ) (sl ps co : Bool) (s : ImageRGBA × Rand) :
    glitchCycle f sl ps co s = specCycle f sl ps co s := by
  unfold glitchCycle specCycle
  simp only [Option.some_bind]
  cases co
  · simp only [Bool.false_eq_true, if_false, Option.some_bind]
  · simp only [if_true]
    cases h : applyColorOffset (if ps = true then applyPixelSort
        (if sl = true then applyScanLines s.1 f else s.1)
        else if sl = true then applyScanLines s.1 f else s.1) f s.2 with
    | none => rfl
    | some p => rfl

theorem forLoopM_eq_specRun (f : ℚ) (sl ps co : Bool) (n : ℕ) (lo : ℤ)
    (s : ImageRGBA × Rand) :
    forLoopM (fun _ t => glitchCycle f sl ps co t) n lo s = specRun f sl ps co n s := by
  induction n with
  | zero => rfl
  | succ n ih =>
    rw [forLoopM_succ_last, ih, specRun]
    congr 1
    funext t
    exact glitchCycle_eq_specCycle f sl ps co t

/-- The cycle loop of `GlitchImage` is the fold of `cycle` specification
cycles from the raster and the stream the source yields after the one call of
`rand.Seed`, each cycle running scan-lines, pixel-sort and color-offset when
enabled and then always the random shift, on one threaded stream; the returned
value is read off the final raster. With all flags off a cycle is
`applyRandomGlitch` alone; scan-lines and pixel-sort hand the stream on
untouched. -/
theorem GlitchImage_refines_spec (seed : ℤ → Rand) (ig : ImageGlitcher) (f : ℚ)
    (cycle step : ℤ) (sl ps co : Bool) :
    glitchCycles seed ig f cycle sl ps co
        = specRun f sl ps co cycle.toNat (ig.Image, seed ig.Seed)
    ∧ GlitchImage seed ig f cycle step sl ps co
        = (specRun f sl ps co cycle.toNat (ig.Image, seed ig.Seed)).bind (fun s =>
            if isBlackImage s.1 then some ({ ig with Image := s.1 }, Outcome.blackImageError)
            else some ({ ig with Image := s.1 }, Outcome.image s.1))
    ∧ (∀ s : ImageRGBA × Rand, specCycle f false false false s = applyRandomGlitch s.1 f s.2)
    ∧ (∀ (img : ImageRGBA) (r : Rand),
        specCycle f true true false (img, r)
          = applyRandomGlitch (applyPixelSort (applyScanLines img f)) f r)
    ∧ (∀ (img : ImageRGBA) (r : Rand),
        specCycle f sl ps true (img, r)
          = (applyColorOffset
              (if ps then applyPixelSort (if sl then applyScanLines img f else img)
                else if sl then applyScanLines img f else img) f r).bind
              (fun s => applyRandomGlitch s.1 f s.2)) := by
  have h1 : glitchCycles seed ig f cycle sl ps co
      = specRun f sl ps co cycle.toNat (ig.Image, seed ig.Seed) := by
    unfold glitchCycles forRangeM
    rw [sub_zero]
    exact forLoopM_eq_specRun f sl ps co cycle.toNat 0 _
  refine ⟨h1, ?_, fun s => rfl, fun img r => rfl, fun img r => rfl⟩
  unfold GlitchImage
  rw [h1]
  cases specRun f sl ps co cycle.toNat (ig.Image, seed ig.Seed) with
  | none => rfl
  | some p => rfl

/-- C18 (failing input). On the sample raster with seed 42, intensity 2.0, one
cycle and every optional effect off, the fold of the specification's cycle
from the stream the seed starts (in the sample generator: 42, 43, ...)
rotates row 3 and leaves row 1 as it was, and this is what `GlitchImage`
returns when `rand.Seed` restarts the source. Built with Go 1.24 or later,
where `rand.Seed` has no effect, the source is not seeded: in a process whose
source yields 0, 1, 2, ... the call rotates row 1 and leaves row 3 as it was,
and it does so for the seed 43 as for the seed 42. -/
theorem GlitchImage_source_not_seeded :
    (specRun 2 false false false 1 (sampleImage, sampleGen 42)).map
        (fun p => (p.1.row 1, p.1.row 3))
      = some ([⟨200, 10, 7, 100⟩, ⟨160, 10, 7, 101⟩, ⟨120, 10, 7, 102⟩, ⟨80, 10, 7, 103⟩,
            ⟨40, 10, 7, 104⟩],
          [⟨120, 10, 21, 102⟩, ⟨80, 10, 21, 103⟩, ⟨40, 10, 21, 104⟩, ⟨200, 10, 21, 100⟩,
            ⟨160, 10, 21, 101⟩])
    ∧ (GlitchImage (seedRestarts sampleGen sampleRand) (glitcherOf sampleImage 42) 2 1 1
        false false false).map (fun p => (p.1.Image.row 1, p.1.Image.row 3))
      = some ([⟨200, 10, 7, 100⟩, ⟨160, 10, 7, 101⟩, ⟨120, 10, 7, 102⟩, ⟨80, 10, 7, 103⟩,
            ⟨40, 10, 7, 104⟩],
          [⟨120, 10, 21, 102⟩, ⟨80, 10, 21, 103⟩, ⟨40, 10, 21, 104⟩, ⟨200, 10, 21, 100⟩,
            ⟨160, 10, 21, 101⟩])
    ∧ (GlitchImage (seedNoOp sampleRand) (glitcherOf sampleImage 42) 2 1 1
        false false false).map (fun p => (p.1.Image.row 1, p.1.Image.row 3))
      = some ([⟨120, 10, 7, 102⟩, ⟨80, 10, 7, 103⟩, ⟨40, 10, 7, 104⟩, ⟨200, 10, 7, 100⟩,
            ⟨160, 10, 7, 101⟩],
          [⟨200, 10, 21, 100⟩, ⟨160, 10, 21, 101⟩, ⟨120, 10, 21, 102⟩, ⟨80, 10, 21, 103⟩,
            ⟨40, 10, 21, 104⟩])
    ∧ (GlitchImage (seedNoOp sampleRand) (glitcherOf sampleImage 43) 2 1 1
        false false false).map (fun p => (p.1.Image.row 1, p.1.Image.row 3))
      = some ([⟨120, 10, 7, 102⟩, ⟨80, 10, 7, 103⟩, ⟨40, 10, 7, 104⟩, ⟨200, 10, 7, 100⟩,
            ⟨160, 10, 7, 101⟩],
          [⟨200, 10, 21, 100⟩, ⟨160, 10, 21, 101⟩, ⟨120, 10, 21, 102⟩, ⟨80, 10, 21, 103⟩,
            ⟨40, 10, 21, 104⟩]) := by
  decide!

/-! ## the random shift: loop count and offsets -/

theorem log2_unique (x : ℚ) (e : ℤ) (hx : 0 < x) (h1 : (2 : ℚ) ^ e ≤ x)
    (h2 : x < (2 : ℚ) ^ (e + 1)) : Int.log 2 x = e := by
  have a : e ≤ Int.log 2 x :=
    (Int.zpow_le_iff_le_log (b := 2) (by norm_num) hx).1 (by exact_mod_cast h1)
  have b : Int.log 2 x < e + 1 :=
    (Int.lt_zpow_iff_log_lt (b := 2) (by norm_num) hx).1 (by exact_mod_cast h2)
  omega

theorem log2_double (x : ℚ) (hx : 0 < x) : Int.log 2 (x * 2) = Int.log 2 x + 1 := by
  have h1 := Int.zpow_log_le_self (b := 2) (r := x) (by norm_num) hx
  have h2 := Int.lt_zpow_succ_log_self (b := 2) (by norm_num) x
  push_cast at h1 h2
  apply log2_unique _ _ (by linarith)
  · rw [zpow_add_one₀ (by norm_num : (2 : ℚ) ≠ 0)]
    linarith
  · rw [zpow_add_one₀ (by norm_num : (2 : ℚ) ≠ 0)]
    linarith

theorem ulp32_double (x : ℚ) (hx : x ≠ 0) : ulp32 (x * 2) = ulp32 x * 2 := by
  unfold ulp32
  have habs : |x * 2| = |x| * 2 := by rw [abs_mul]; norm_num
  rw [habs, log2_double _ (abs_pos.2 hx)]
  have e : Int.log 2 |x| + 1 - 23 = (Int.log 2 |x| - 23) + 1 := by ring
  rw [e, zpow_add_one₀ (by norm_num : (2 : ℚ) ≠ 0)]

/-- Doubling is exact in float32. -/
theorem f32_double (x : ℚ) : f32 (x * 2) = f32 x * 2 := by
  unfold f32
  by_cases hx : x = 0
  · subst hx; norm_num
  · rw [if_neg hx, if_neg (by simpa using hx), ulp32_double x hx]
    have hu := ulp32_pos x
    have : x * 2 / (ulp32 x * 2) = x / ulp32 x := by
      field_simp
      ring
    rw [this]
    ring

theorem truncInt_toNat (x : ℚ) : (truncInt x).toNat = ⌊x⌋.toNat := by
  unfold truncInt
  split_ifs with h
  · rfl
  · have h1 : ⌈x⌉ ≤ 0 := Int.ceil_le.2 (by push_cast; linarith)
    have h2 : ⌊x⌋ ≤ 0 := le_trans (Int.floor_le_ceil x) h1
    omega

theorem randomGlitchStep_zero_offset (m : ℤ) (img : ImageRGBA) (r : Rand) (hm : 0 < m)
    (h : (r.draws 0 : ℤ) % (2 * m) = m) :
    randomGlitchStep m (img, r) = some (img, ⟨fun i => r.draws (i + 1)⟩) := by
  unfold randomGlitchStep Intn
  simp only
  rw [if_neg (by omega), h]
  simp only [sub_self, if_true]

theorem maxOffsetOf_one_ten : maxOffsetOf 1 10 = 1 := by decide!

/-- Dropping the record from the recording loop body gives the loop body. -/
theorem randomGlitchStepLogged_fst (m : ℤ) (s : (ImageRGBA × Rand) × List ℤ) :
    (randomGlitchStepLogged m s).map Prod.fst = randomGlitchStep m s.1 := by
  unfold randomGlitchStepLogged randomGlitchStep
  cases h : Intn (2 * m) s.1.2 with
  | none => rfl
  | some p =>
    obtain ⟨d, r1⟩ := p
    simp only
    split_ifs
    · rfl
    · cases glitchLeft s.1.1 (-(d - m)) r1 <;> rfl
    · cases glitchRight s.1.1 (d - m) r1 <;> rfl

theorem forLoopM_logged_fst (m : ℤ) :
    ∀ (n : ℕ) (lo : ℤ) (s : (ImageRGBA × Rand) × List ℤ),
      (forLoopM (fun _ s => randomGlitchStepLogged m s) n lo s).map Prod.fst
        = forLoopM (fun _ s => randomGlitchStep m s) n lo s.1 := by
  intro n
  induction n with
  | zero => intro lo s; rfl
  | succ n ih =>
    intro lo s
    have e := randomGlitchStepLogged_fst m s
    simp only [forLoopM]
    cases hL : randomGlitchStepLogged m s with
    | none =>
      rw [hL] at e
      rw [← e]
      rfl
    | some t =>
      rw [hL] at e
      rw [← e]
      exact ih (lo + 1) t

/-- The recording run of `applyRandomGlitch` returns what the function
returns, next to the record. -/
theorem applyRandomGlitchLogged_fst (img : ImageRGBA) (f : ℚ) (r : Rand) :
    (applyRandomGlitchLogged img f r).map Prod.fst = applyRandomGlitch img f r := by
  unfold applyRandomGlitchLogged applyRandomGlitch forRangeM
  exact forLoopM_logged_fst _ _ _ _

/-- One completed iteration appends one offset to the record, a value of
`[-maxOffset, maxOffset)`. -/
theorem randomGlitchStepLogged_log (m : ℤ) (s u : (ImageRGBA × Rand) × List ℤ)
    (h : randomGlitchStepLogged m s = some u) :
    ∃ o : ℤ, u.2 = s.2 ++ [o] ∧ -m ≤ o ∧ o < m := by
  unfold randomGlitchStepLogged at h
  cases hI : Intn (2 * m) s.1.2 with
  | none => rw [hI] at h; exact absurd h (by simp)
  | some p =>
    obtain ⟨d, r1⟩ := p
    obtain ⟨_, d0, d1⟩ := Intn_eq_some _ _ _ _ hI
    rw [hI] at h
    simp only at h
    refine ⟨d - m, ?_, by omega, by omega⟩
    split_ifs at h
    · simp only [Option.some.injEq] at h
      rw [← h]
    · cases hg : glitchLeft s.1.1 (-(d - m)) r1 with
      | none => rw [hg] at h; exact absurd h (by simp)
      | some t =>
        rw [hg] at h
        simp only [Option.some.injEq] at h
        rw [← h]
    · cases hg : glitchRight s.1.1 (d - m) r1 with
      | none => rw [hg] at h; exact absurd h (by simp)
      | some t =>
        rw [hg] at h
        simp only [Option.some.injEq] at h
        rw [← h]

/-- The record of a completed run: one offset for each of the `int(f*2)`
iterations, each a value of `[-maxOffset, maxOffset)`. -/
theorem applyRandomGlitchLogged_log (img : ImageRGBA) (f : ℚ) (r : Rand)
    (out : ImageRGBA × Rand) (log : List ℤ)
    (h : applyRandomGlitchLogged img f r = some (out, log)) :
    log.length = (truncInt (f32 (f * 2))).toNat ∧
    ∀ o ∈ log, -maxOffsetOf f img.W ≤ o ∧ o < maxOffsetOf f img.W := by
  unfold applyRandomGlitchLogged forRangeM at h
  rw [sub_zero] at h
  exact forLoopM_ind (fun _ s => randomGlitchStepLogged (maxOffsetOf f img.W) s)
    (truncInt (f32 (f * 2))).toNat
    (fun (k : ℕ) (t : (ImageRGBA × Rand) × List ℤ) => t.2.length = k ∧
      ∀ o ∈ t.2, -maxOffsetOf f img.W ≤ o ∧ o < maxOffsetOf f img.W)
    0 ((img, r), []) (out, log) ⟨rfl, fun o ho => absurd ho (List.not_mem_nil o)⟩
    (fun k t u _ hP hu => by
      obtain ⟨o, e, o1, o2⟩ := randomGlitchStepLogged_log _ t u hu
      refine ⟨by rw [e, List.length_append, hP.1]; rfl, fun o3 ho3 => ?_⟩
      rw [e, List.mem_append, List.mem_singleton] at ho3
      rcases ho3 with ho3 | ho3
      · exact hP.2 o3 ho3
      · rw [ho3]; exact ⟨o1, o2⟩) h

/-- A draw that gives the offset `o` makes the iteration record `o`, when the
raster has at least 4 rows. -/
theorem randomGlitchStepLogged_offset (m o : ℤ) (t : ImageRGBA) (r : Rand) (log : List ℤ)
    (h1 : -m ≤ o) (h2 : o < m) (hH : 4 ≤ t.H) (hd : (r.draws 0 : ℤ) % (2 * m) = o + m) :
    ∃ u : ImageRGBA × Rand,
      randomGlitchStepLogged m ((t, r), log) = some (u, log ++ [o]) := by
  have hI : Intn (2 * m) r = some (o + m, ⟨fun i => r.draws (i + 1)⟩) := by
    unfold Intn
    rw [if_neg (by omega), hd]
  unfold randomGlitchStepLogged
  simp only
  rw [hI]
  simp only [add_sub_cancel_right]
  split_ifs with a b
  · exact ⟨_, rfl⟩
  · obtain ⟨out, r1, hg⟩ := glitchLeft_completes t (-o) ⟨fun i => r.draws (i + 1)⟩ hH
    rw [hg]
    exact ⟨_, rfl⟩
  · obtain ⟨out, r1, hg⟩ := glitchRight_completes t o ⟨fun i => r.draws (i + 1)⟩ hH
    rw [hg]
    exact ⟨_, rfl⟩

theorem randomGlitchStepLogged_zero_offset (m : ℤ) (t : ImageRGBA) (r : Rand) (log : List ℤ)
    (hm : 0 < m) (hd : (r.draws 0 : ℤ) % (2 * m) = m) :
    randomGlitchStepLogged m ((t, r), log)
      = some ((t, ⟨fun i => r.draws (i + 1)⟩), log ++ [0]) := by
  have hI : Intn (2 * m) r = some (m, ⟨fun i => r.draws (i + 1)⟩) := by
    unfold Intn
    rw [if_neg (by omega), hd]
  unfold randomGlitchStepLogged
  simp only
  rw [hI]
  simp only [sub_self, if_true]

theorem maxOffsetOf_two_five : maxOffsetOf 2 5 = 1 := by decide!

/-- C11 (amended). In `applyRandomGlitch`, with `maxOffset` the value
`int(f * float32(W) / 10)` the code computes in float32 arithmetic and a
float32 intensity `f` in [0.1, 9.0]: the run that records the variable
`offset` of every iteration returns what `applyRandomGlitch` returns; in every
completed run the loop body has run exactly `floor(2*f)` times and every
offset it drew lies in `[-maxOffset, maxOffset]`; on a raster of at least 4
rows every integer of `[-maxOffset, maxOffset)` is the offset of an iteration
for some draw; and an iteration whose offset is zero leaves the raster as it
is and consumes exactly one draw. -/
theorem applyRandomGlitch_draws (img : ImageRGBA) (f : ℚ) (hlo : 1 / 10 ≤ f) (hhi : f ≤ 9)
    (hrep : f32 f = f) :
    (∀ r : Rand, (applyRandomGlitchLogged img f r).map Prod.fst = applyRandomGlitch img f r)
    ∧ (∀ (r : Rand) (out : ImageRGBA × Rand) (log : List ℤ),
        applyRandomGlitchLogged img f r = some (out, log) →
        log.length = ⌊2 * f⌋.toNat ∧
        ∀ o ∈ log, -maxOffsetOf f img.W ≤ o ∧ o ≤ maxOffsetOf f img.W)
    ∧ (∀ (o : ℤ) (t : ImageRGBA) (log : List ℤ),
        -maxOffsetOf f img.W ≤ o → o < maxOffsetOf f img.W → 4 ≤ t.H →
        ∃ (r : Rand) (u : ImageRGBA × Rand),
          randomGlitchStepLogged (maxOffsetOf f img.W) ((t, r), log) = some (u, log ++ [o]))
    ∧ (∀ (t : ImageRGBA) (r : Rand) (log : List ℤ), 0 < maxOffsetOf f img.W →
        (r.draws 0 : ℤ) % (2 * maxOffsetOf f img.W) = maxOffsetOf f img.W →
        randomGlitchStepLogged (maxOffsetOf f img.W) ((t, r), log)
            = some ((t, ⟨fun i => r.draws (i + 1)⟩), log ++ [0])
          ∧ randomGlitchStep (maxOffsetOf f img.W) (t, r)
            = some (t, ⟨fun i => r.draws (i + 1)⟩)) := by
  refine ⟨fun r => applyRandomGlitchLogged_fst img f r, fun r out log h => ?_,
    fun o t log h1 h2 hH => ?_,
    fun t r log hm h => ⟨randomGlitchStepLogged_zero_offset _ t r log hm h,
      randomGlitchStep_zero_offset _ t r hm h⟩⟩
  · obtain ⟨k1, k2⟩ := applyRandomGlitchLogged_log img f r out log h
    refine ⟨?_, fun o ho => ⟨(k2 o ho).1, le_of_lt (k2 o ho).2⟩⟩
    rw [k1, f32_double, hrep, truncInt_toNat, mul_comm]
  · obtain ⟨u, hu⟩ := randomGlitchStepLogged_offset (maxOffsetOf f img.W) o t
      ⟨fun _ => (o + maxOffsetOf f img.W).toNat⟩ log h1 h2 hH (by
        simp only
        rw [Int.toNat_of_nonneg (by omega), Int.emod_eq_of_lt (by omega) (by omega)])
    exact ⟨_, u, hu⟩

theorem applyRandomGlitch_draws_witness :
    (1 / 10 : ℚ) ≤ 2 ∧ (2 : ℚ) ≤ 9 ∧ f32 2 = 2 ∧ maxOffsetOf 2 sampleImage.W = 1 ∧
    ⌊2 * (2 : ℚ)⌋.toNat = 4 ∧
    (applyRandomGlitchLogged sampleImage 2 sampleRand).map Prod.snd = some [-1, 0, -1, 0] ∧
    (∀ (r : Rand) (out : ImageRGBA × Rand) (log : List ℤ),
        applyRandomGlitchLogged sampleImage 2 r = some (out, log) →
        log.length = ⌊2 * (2 : ℚ)⌋.toNat ∧
        ∀ o ∈ log, -maxOffsetOf 2 sampleImage.W ≤ o ∧ o ≤ maxOffsetOf 2 sampleImage.W) :=
  ⟨by norm_num, by norm_num, by decide!, maxOffsetOf_two_five, by decide!, by decide!,
    (applyRandomGlitch_draws sampleImage 2 (by norm_num) (by norm_num) (by decide!)).2.1⟩

/-- C11 (counterexample). With intensity 1.0 and width 10 `maxOffset` is 1 and
the draw is `rand.Intn(2) - 1`: on the draws 0, 1, 2, ... the two iterations
have the offsets -1 and 0, and in no completed run does an iteration have the
offset `+1`. With intensity float32(0.9) and width 100 the code's `maxOffset`
is 9 while `floor(f * W / 10)` is 8. -/
theorem applyRandomGlitch_offsets_not_symmetric :
    maxOffsetOf 1 10 = 1
    ∧ (applyRandomGlitchLogged (uniformImage 10 4 ⟨200, 100, 50, 255⟩) 1 sampleRand).map
        Prod.snd = some [-1, 0]
    ∧ (∀ (r : Rand) (out : ImageRGBA × Rand) (log : List ℤ),
        applyRandomGlitchLogged (uniformImage 10 4 ⟨200, 100, 50, 255⟩) 1 r = some (out, log) →
        (1 : ℤ) ∉ log)
    ∧ f32 (7549747 / 8388608) = 7549747 / 8388608
    ∧ maxOffsetOf (7549747 / 8388608) 100 = 9
    ∧ ⌊(7549747 / 8388608 : ℚ) * 100 / 10⌋ = 8 := by
  refine ⟨maxOffsetOf_one_ten, by decide!, fun r out log h ho => ?_, by decide!, by decide!,
    by decide!⟩
  have k := (applyRandomGlitchLogged_log _ 1 r out log h).2 1 ho
  have e : maxOffsetOf 1 (uniformImage 10 4 ⟨200, 100, 50, 255⟩).W = 1 := maxOffsetOf_one_ten
  rw [e] at k
  omega

/-! ## scan lines: the 64-bit row counter -/

theorem wrapInt_of_range (x : ℤ) (h1 : -2 ^ 63 ≤ x) (h2 : x < 2 ^ 63) : wrapInt x = x := by
  unfold wrapInt
  omega

theorem scanFill_H (img : ImageRGBA) (y : ℤ) :
    (forRange 0 img.W (fun x img => img.Set x y ⟨0, 0, 0, 255⟩) img).H = img.H := by
  unfold forRange
  exact (fillRow_spec (fun x t => t.Set x y ⟨0, 0, 0, 255⟩) 0 y
    (fun _ => ⟨0, 0, 0, 255⟩) (fun x t => by simp only [add_zero])
    ((img.W : ℤ) - 0).toNat 0 img).2.1

/-- More rounds than the row loop needs change nothing. -/
theorem scanRows_fuel (step : ℤ) (hstep : 1 ≤ step) (k : ℕ) :
    ∀ (fuel : ℕ) (y : ℤ) (img : ImageRGBA), (img.H : ℤ) ≤ y + fuel * step →
      scanRows step (fuel + k) y img = scanRows step fuel y img := by
  intro fuel
  induction fuel with
  | zero =>
    intro y img h
    have hy : ¬ y < (img.H : ℤ) := by push_cast at h; omega
    cases k with
    | zero => rfl
    | succ k =>
      rw [Nat.zero_add]
      simp only [scanRows]
      rw [if_neg hy]
  | succ fuel ih =>
    intro y img h
    have e : fuel + 1 + k = (fuel + k) + 1 := by omega
    rw [e]
    simp only [scanRows]
    by_cases hy : y < (img.H : ℤ)
    · rw [if_pos hy, if_pos hy]
      apply ih
      rw [scanFill_H]
      push_cast at h
      linarith
    · rw [if_neg hy, if_neg hy]

/-- With a step from 1 to `2^63 - 1` and fewer than `2^62` rows the 64-bit
counter never wraps: the row loop ends and leaves what the loop over
unbounded integers leaves. -/
theorem scanRows64_eq (step : ℤ) (hstep : 1 ≤ step) (hmax : step < 2 ^ 63) :
    ∀ (fuel : ℕ) (y : ℤ) (img : ImageRGBA), (img.H : ℤ) ≤ 2 ^ 62 → (y = 0 ∨ step ≤ y) →
      (img.H : ℤ) ≤ y + fuel * step →
      scanRows64 step fuel y img = some (scanRows step fuel y img) := by
  intro fuel
  induction fuel with
  | zero =>
    intro y img _ _ h
    have hy : ¬ y < (img.H : ℤ) := by push_cast at h; omega
    simp only [scanRows64, scanRows]
    rw [if_neg hy]
  | succ fuel ih =>
    intro y img hH hy0 h
    simp only [scanRows64, scanRows]
    by_cases hy : y < (img.H : ℤ)
    · rw [if_pos hy, if_pos hy, wrapInt_of_range (y + step) (by omega) (by omega)]
      apply ih
      · rw [scanFill_H]; exact hH
      · right; omega
      · rw [scanFill_H]
        push_cast at h
        linarith
    · rw [if_neg hy, if_neg hy]

theorem truncInt_lt_of_lt (x : ℚ) (b : ℤ) (h1 : 0 ≤ x) (h2 : x < b) : truncInt x < b := by
  unfold truncInt
  rw [if_pos h1]
  exact Int.floor_lt.2 h2

theorem max_one_nonneg (f : ℚ) : 0 ≤ Glitcher.max 1 f := by
  unfold Glitcher.max
  split_ifs with h
  · norm_num
  · push_neg at h; linarith

theorem max_one_lt (f : ℚ) (b : ℚ) (hb : 1 < b) (hf : f < b) : Glitcher.max 1 f < b := by
  unfold Glitcher.max
  split_ifs with h
  · exact hb
  · exact hf

/-- For an intensity below `2^63` and fewer than `2^62` rows `applyScanLines`
returns on every platform, with the raster of the loop over unbounded
integers. -/
theorem applyScanLines64_eq (oor : ℤ) (img : ImageRGBA) (f : ℚ) (hf : f < 2 ^ 63)
    (hH : (img.H : ℤ) ≤ 2 ^ 62) :
    applyScanLines64 oor img f = some (applyScanLines img f) := by
  have h1 := scanStep_pos f
  have h2 : truncInt (Glitcher.max 1 f) < 2 ^ 63 :=
    truncInt_lt_of_lt _ _ (max_one_nonneg f)
      (by push_cast; exact max_one_lt f _ (by norm_num) hf)
  have hH0 : (0 : ℤ) ≤ img.H := Int.ofNat_nonneg _
  unfold applyScanLines64 applyScanLines intOfFloat
  rw [if_pos ⟨by omega, h2⟩]
  have hfuel : (2 : ℕ) ^ 64 = img.H + (2 ^ 64 - img.H) := by
    have : img.H ≤ 2 ^ 64 := by
      have h3 : (img.H : ℤ) ≤ 2 ^ 64 := le_trans hH (by norm_num)
      exact_mod_cast h3
    omega
  rw [scanRows64_eq _ h1 h2 _ 0 img hH (Or.inl rfl) (by push_cast; nlinarith), hfuel,
    scanRows_fuel _ h1 _ _ 0 img (by nlinarith)]

/-- On a platform whose out-of-range conversion yields `-2^63` the counter of
the row loop with that step alternates between 0 and `-2^63`: the loop never
ends on a raster with at least one row. -/
theorem scanRows64_minInt_runs_on :
    ∀ (fuel : ℕ) (y : ℤ) (img : ImageRGBA), (y = 0 ∨ y = -2 ^ 63) → 1 ≤ img.H →
      scanRows64 (-2 ^ 63) fuel y img = none := by
  intro fuel
  induction fuel with
  | zero =>
    intro y img hy hH
    simp only [scanRows64]
    rw [if_pos (by omega)]
  | succ fuel ih =>
    intro y img hy hH
    simp only [scanRows64]
    rw [if_pos (by omega)]
    apply ih
    · unfold wrapInt; omega
    · rw [scanFill_H]; exact hH

/-- C17 (amended). For every raster of at most `2^62` rows and every
intensity `f` below `2^63`, `applyScanLines` returns, whatever the platform
makes of an out-of-range conversion, and applying it twice with the same
intensity leaves the raster that applying it once leaves: same dimensions,
same pixel at every coordinate. -/
theorem applyScanLines64_idempotent (oor : ℤ) (img : ImageRGBA) (f : ℚ) (hf : f < 2 ^ 63)
    (hH : (img.H : ℤ) ≤ 2 ^ 62) :
    ∃ once twice : ImageRGBA,
      applyScanLines64 oor img f = some once ∧ applyScanLines64 oor once f = some twice ∧
      twice.W = once.W ∧ twice.H = once.H ∧ ∀ x y : ℤ, twice.At x y = once.At x y := by
  obtain ⟨aW, aH, aAt⟩ := applyScanLines_At img f
  obtain ⟨bW, bH, bAt⟩ := applyScanLines_idempotent img f
  exact ⟨applyScanLines img f, applyScanLines (applyScanLines img f) f,
    applyScanLines64_eq oor img f hf hH,
    applyScanLines64_eq oor _ f hf (by rw [aH]; exact hH), bW, bH, bAt⟩

theorem applyScanLines64_idempotent_witness :
    (2 : ℚ) < 2 ^ 63 ∧ (sampleImage.H : ℤ) ≤ 2 ^ 62 ∧
    ∃ once twice : ImageRGBA,
      applyScanLines64 (-2 ^ 63) sampleImage 2 = some once ∧
      applyScanLines64 (-2 ^ 63) once 2 = some twice ∧
      twice.W = once.W ∧ twice.H = once.H ∧ ∀ x y : ℤ, twice.At x y = once.At x y :=
  ⟨by norm_num, by decide,
    applyScanLines64_idempotent (-2 ^ 63) sampleImage 2 (by norm_num) (by decide)⟩

theorem f32_two_pow_63 : f32 9223372036854775808 = 9223372036854775808 := by
  have hlog : Int.log 2 |(9223372036854775808 : ℚ)| = 63 :=
    log2_unique _ 63 (by norm_num) (by norm_num) (by norm_num)
  have hu : ulp32 9223372036854775808 = 1099511627776 := by
    unfold ulp32
    rw [hlog]
    norm_num
  have hr : roundHalfEven 8388608 = 8388608 := by
    unfold roundHalfEven
    have : ⌊(8388608 : ℚ)⌋ = 8388608 := Int.floor_natCast 8388608
    rw [this]
    norm_num
  unfold f32
  rw [if_neg (by norm_num), hu]
  have hd : (9223372036854775808 : ℚ) / 1099511627776 = 8388608 := by norm_num
  rw [hd, hr]
  norm_num

/-- C17 (counterexample). The intensity `2^63` is a float32, and
`int(max(1, 2^63))` does not fit a 64-bit `int`. On amd64 the conversion
yields `-2^63`: the counter of the row loop goes 0, `-2^63`, 0, ... and never
reaches the height, so on the sample raster `applyScanLines` does not return,
neither once nor twice. -/
theorem applyScanLines64_never_returns :
    (9223372036854775808 : ℚ) = 2 ^ 63
    ∧ f32 9223372036854775808 = 9223372036854775808
    ∧ intOfFloat (-2 ^ 63) (Glitcher.max 1 9223372036854775808) = -2 ^ 63
    ∧ wrapInt (0 + -2 ^ 63) = -2 ^ 63
    ∧ wrapInt (-2 ^ 63 + -2 ^ 63) = 0
    ∧ applyScanLines64 (-2 ^ 63) sampleImage 9223372036854775808 = none := by
  have h2 : intOfFloat (-2 ^ 63) (Glitcher.max 1 9223372036854775808) = -2 ^ 63 := by decide!
  refine ⟨by norm_num, f32_two_pow_63, h2, by decide, by decide, ?_⟩
  unfold applyScanLines64
  rw [h2]
  exact scanRows64_minInt_runs_on _ 0 sampleImage (Or.inl rfl) (by decide)

/-! ## parameters the engine does not check -/

/-- C12 (failing input). On the 2 by 4 raster with intensity 9.0 and draws 0,
0, 0 the offsets are (-9, -9) and the channel is R. At pixel (0,0) the code
computes `(0 - 9 + 2) % 2 = -1` and `(0 - 9 + 4) % 4 = -1` (Go's remainder
keeps the sign), reads outside the raster, where `RGBAAt` yields the zero
colour, and writes R = 0 and A = 0; the mathematical remainders are 1 and 3,
the pixel (1,3), whose R is 11 and whose alpha is 255. -/
theorem applyColorOffset_reads_outside :
    (colorOffsetDraws 9 ⟨fun _ => 0⟩).map Prod.fst = some (-9, -9, 0)
    ∧ Int.tmod (0 + (-9) + (narrowImage.W : ℤ)) narrowImage.W = -1
    ∧ Int.tmod (0 + (-9) + (narrowImage.H : ℤ)) narrowImage.H = -1
    ∧ ((0 : ℤ) + (-9)) % (narrowImage.W : ℤ) = 1
    ∧ ((0 : ℤ) + (-9)) % (narrowImage.H : ℤ) = 3
    ∧ narrowImage.At 0 0 = ⟨10, 20, 30, 255⟩
    ∧ narrowImage.At 1 3 = ⟨11, 23, 30, 255⟩
    ∧ (colorOffsetPixel 0 (-9) (-9) 0 0 narrowImage).At 0 0 = ⟨0, 20, 30, 0⟩
    ∧ (applyColorOffset narrowImage 9 ⟨fun _ => 0⟩).map (fun p => p.1.At 0 0)
        = some ⟨0, 20, 30, 0⟩ := by
  decide!

theorem forLoopM_zero_iterations {σ : Type} (body : ℤ → σ → Option σ) (hi : ℤ) (s : σ)
    (h : hi ≤ 0) : forRangeM 0 hi body s = some s := by
  unfold forRangeM
  have : (hi - 0).toNat = 0 := by omega
  rw [this]
  rfl

theorem float64Tenth_gt : (1 / 10 : ℚ) < float64Tenth := by
  unfold float64Tenth
  norm_num

/-- C15 (amended). `GlitchImage` validates none of its parameters. With a
cycle count `≤ 0` it applies no effect, whatever the intensity and the step:
the raster is left exactly as it was and is returned without error, or with
the black-image error when every pixel is zero. The step never changes the
result. Whatever the cycle count and the step, `main` refuses an intensity
below 0.1 or above 9.0 (the infinities included) before the engine is called,
passes an intensity from the float64 `0.1` to 9.0 on to the engine, and does
not refuse NaN, for which both comparisons are false. -/
theorem GlitchImage_no_validation (seed : ℤ → Rand) (ig : ImageGlitcher) (f : ℚ)
    (cycle step : ℤ) (sl ps co : Bool) :
    (cycle ≤ 0 →
      GlitchImage seed ig f cycle step sl ps co
        = some (ig, if isBlackImage ig.Image then Outcome.blackImageError
            else Outcome.image ig.Image))
    ∧ (∀ s2 : ℤ,
        GlitchImage seed ig f cycle step sl ps co = GlitchImage seed ig f cycle s2 sl ps co)
    ∧ (∀ (img : ImageRGBA) (randomSeed : ℤ) (g : ℚ), (g < 1 / 10 ∨ g > 9) →
        mainStill seed img randomSeed (Float64.finite g) cycle step sl ps co = MainRun.fatal)
    ∧ (∀ (img : ImageRGBA) (randomSeed : ℤ),
        mainStill seed img randomSeed Float64.posInf cycle step sl ps co = MainRun.fatal
        ∧ mainStill seed img randomSeed Float64.negInf cycle step sl ps co = MainRun.fatal)
    ∧ (∀ (img : ImageRGBA) (randomSeed : ℤ) (g : ℚ), float64Tenth ≤ g → g ≤ 9 →
        mainStill seed img randomSeed (Float64.finite g) cycle step sl ps co
          = MainRun.engine (GlitchImage seed ⟨img.W, img.H, img, randomSeed⟩ (f32 g) cycle step
              sl ps co))
    ∧ (∀ (img : ImageRGBA) (randomSeed : ℤ),
        mainStill seed img randomSeed Float64.nan cycle step sl ps co = MainRun.engineNaN) := by
  refine ⟨fun hc => ?_, fun s2 => rfl, fun img randomSeed g hg => ?_,
    fun img randomSeed => ⟨rfl, rfl⟩, fun img randomSeed g h1 h2 => ?_,
    fun img randomSeed => rfl⟩
  · unfold GlitchImage glitchCycles
    rw [forLoopM_zero_iterations _ _ _ hc]
    simp only
    split <;> rfl
  · have h0 := float64Tenth_gt
    unfold mainStill Float64.lt Float64.gt
    simp only
    rw [if_pos]
    rcases hg with hg | hg
    · simp only [Bool.or_eq_true, decide_eq_true_eq]
      exact Or.inl (lt_trans hg h0)
    · simp only [Bool.or_eq_true, decide_eq_true_eq]
      exact Or.inr hg
  · unfold mainStill Float64.lt Float64.gt
    simp only
    rw [if_neg]
    simp only [Bool.or_eq_true, decide_eq_true_eq, not_or, not_lt]
    exact ⟨h1, h2⟩

theorem GlitchImage_no_validation_witness :
    (0 : ℤ) ≤ 0 ∧ ((20 : ℚ) < 1 / 10 ∨ (20 : ℚ) > 9) ∧
    GlitchImage (fun _ => sampleRand) (glitcherOf sampleImage 7) 20 0 0 true true true
      = some (glitcherOf sampleImage 7,
          if isBlackImage (glitcherOf sampleImage 7).Image then Outcome.blackImageError
          else Outcome.image (glitcherOf sampleImage 7).Image) ∧
    mainStill (fun _ => sampleRand) sampleImage 7 (Float64.finite 20) 1 1 true true true
      = MainRun.fatal ∧
    mainStill (fun _ => sampleRand) sampleImage 7 Float64.nan 1 1 true true true
      = MainRun.engineNaN :=
  ⟨le_refl 0, Or.inr (by norm_num),
    (GlitchImage_no_validation (fun _ => sampleRand) (glitcherOf sampleImage 7) 20 0 0
      true true true).1 (le_refl 0),
    (GlitchImage_no_validation (fun _ => sampleRand) (glitcherOf sampleImage 7) 20 1 1
      true true true).2.2.1 sampleImage 7 20 (Or.inr (by norm_num)),
    (GlitchImage_no_validation (fun _ => sampleRand) (glitcherOf sampleImage 7) 20 1 1
      true true true).2.2.2.2.2 sampleImage 7⟩

/-- C15 (counterexample). Called with the invalid intensity 20 (and one
cycle) on the 1 by 4 raster of (200,100,50,255) pixels, `GlitchImage` returns
a raster, not an error, and the pixel of row 0 has been overwritten. -/
theorem GlitchImage_accepts_invalid_intensity :
    (GlitchImage (fun _ => ⟨fun _ => 0⟩) (glitcherOf (uniformImage 1 4 ⟨200, 100, 50, 255⟩) 0)
        20 1 1 false false false).map (fun p => (p.2.isImage, p.1.Image.row 0))
      = some (true, [⟨0, 0, 0, 0⟩])
    ∧ (uniformImage 1 4 ⟨200, 100, 50, 255⟩).row 0 = [⟨200, 100, 50, 255⟩] := by
  decide!

theorem maxOffsetOf_one_eight : maxOffsetOf 1 8 = 0 := by decide!

theorem applyRandomGlitch_zero_eight (r : Rand) :
    applyRandomGlitch (uniformImage 8 8 ⟨0, 0, 0, 0⟩) 1 r = none := by
  unfold applyRandomGlitch
  apply forRangeM_none_of_first
  · rw [glitchCount_one]; decide
  · show randomGlitchStep (maxOffsetOf 1 8) _ = none
    rw [maxOffsetOf_one_eight]
    rfl

theorem glitchCycles_zero_eight (seed : ℤ → Rand) (s : ℤ) :
    glitchCycles seed (glitcherOf (uniformImage 8 8 ⟨0, 0, 0, 0⟩) s) 1 1
      false false false = none := by
  unfold glitchCycles
  apply forRangeM_none_of_first _ _ _ Int.one_pos
  rw [glitchCycle_plain]
  exact applyRandomGlitch_zero_eight _

/-- C16 (failing input). On the fully transparent-black 8x8 raster with
intensity 1.0, one cycle and every optional effect off, `maxOffset` is
`int(1.0 * 8 / 10) = 0`, the first draw of `applyRandomGlitch` is
`rand.Intn(0)`, and the call panics for every seed instead of returning the
black-image error. -/
theorem GlitchImage_zero_eight_panics (seed : ℤ → Rand) (s : ℤ) :
    GlitchImage seed (glitcherOf (uniformImage 8 8 ⟨0, 0, 0, 0⟩) s) 1 1 1
      false false false = none :=
  GlitchImage_of_cycles_none _ _ _ _ _ _ _ _ (glitchCycles_zero_eight seed s)

/-! ## scan lines keep the result from being black -/

theorem mem_row_iff (img : ImageRGBA) (y : ℤ) (c : ColorRGBA) :
    c ∈ img.row y ↔ ∃ x : ℕ, x < img.W ∧ img.At x y = c := by
  unfold ImageRGBA.row
  simp only [List.mem_map, List.mem_range]

/-- For an intensity of at most 9, a completed `applyRandomGlitch` keeps the
dimensions and the pixels of every row. -/
theorem applyRandomGlitch_preserves_rows (img : ImageRGBA) (f : ℚ) (r : Rand)
    (out : ImageRGBA) (r1 : Rand) (hhi : f ≤ 9)
    (h : applyRandomGlitch img f r = some (out, r1)) :
    out.W = img.W ∧ out.H = img.H ∧
    ∀ y : ℤ, ((out.row y : List ColorRGBA) : Multiset ColorRGBA)
      = ((img.row y : List ColorRGBA) : Multiset ColorRGBA) := by
  unfold applyRandomGlitch forRangeM at h
  exact forLoopM_ind (fun _ s => randomGlitchStep (maxOffsetOf f img.W) s)
    (truncInt (f32 (f * 2)) - 0).toNat
    (fun _ t => t.1.W = img.W ∧ t.1.H = img.H ∧
      ∀ y : ℤ, ((t.1.row y : List ColorRGBA) : Multiset ColorRGBA)
        = ((img.row y : List ColorRGBA) : Multiset ColorRGBA))
    0 (img, r) (out, r1) ⟨rfl, rfl, fun _ => rfl⟩
    (fun k t u _ hP hu => by
      obtain ⟨tW, tH, tR⟩ := hP
      obtain ⟨uW, uH, uR⟩ := randomGlitchStep_rows (maxOffsetOf f img.W) t u
        (by rw [tW]; exact maxOffsetOf_lt_or f img.W hhi) hu
      exact ⟨uW.trans tW, uH.trans tH, fun y => (uR y).trans (tR y)⟩) h

theorem applyPixelSort_rows (img : ImageRGBA) (y : ℤ) :
    ((((applyPixelSort img).row y : List ColorRGBA)) : Multiset ColorRGBA)
      = ((img.row y : List ColorRGBA) : Multiset ColorRGBA) := by
  obtain ⟨hW, hH, hAt⟩ := applyPixelSort_At img
  by_cases h : 0 ≤ y ∧ y < img.H
  · rw [applyPixelSort_row img y h.1 h.2]
    exact Quotient.sound (sortSlice_perm _ _)
  · rw [row_congr _ _ y hW (fun u => by rw [hAt, if_neg (by omega)])]

/-- One cycle with scan-lines on and color-offset off, intensity at most 9:
the dimensions are kept and row 0 holds an opaque black pixel. -/
theorem glitchCycle_scanLines_row0 (f : ℚ) (ps : Bool) (s t : ImageRGBA × Rand)
    (hhi : f ≤ 9) (hW : 1 ≤ s.1.W) (hH : 1 ≤ s.1.H)
    (h : glitchCycle f true ps false s = some t) :
    t.1.W = s.1.W ∧ t.1.H = s.1.H ∧ (⟨0, 0, 0, 255⟩ : ColorRGBA) ∈ t.1.row 0 := by
  obtain ⟨aW, aH, aAt⟩ := applyScanLines_At s.1 f
  have hmem1 : (⟨0, 0, 0, 255⟩ : ColorRGBA) ∈ (applyScanLines s.1 f).row 0 := by
    rw [mem_row_iff]
    refine ⟨0, by omega, ?_⟩
    rw [aAt, if_pos]
    refine ⟨⟨⟨le_refl _, ?_⟩, le_refl _, ?_⟩, Int.zero_emod _⟩
    · exact_mod_cast hW
    · exact_mod_cast hH
  obtain ⟨out, r1⟩ := t
  cases ps with
  | false =>
    have h2 : applyRandomGlitch (applyScanLines s.1 f) f s.2 = some (out, r1) := h
    obtain ⟨gW, gH, gR⟩ := applyRandomGlitch_preserves_rows _ f _ out r1 hhi h2
    refine ⟨gW.trans aW, gH.trans aH, ?_⟩
    have := gR 0
    rw [← Multiset.mem_coe, this, Multiset.mem_coe]
    exact hmem1
  | true =>
    have h2 : applyRandomGlitch (applyPixelSort (applyScanLines s.1 f)) f s.2
        = some (out, r1) := h
    obtain ⟨pW, pH, _⟩ := applyPixelSort_At (applyScanLines s.1 f)
    obtain ⟨gW, gH, gR⟩ := applyRandomGlitch_preserves_rows _ f _ out r1 hhi h2
    refine ⟨gW.trans (pW.trans aW), gH.trans (pH.trans aH), ?_⟩
    have := gR 0
    rw [← Multiset.mem_coe, this, applyPixelSort_rows, Multiset.mem_coe]
    exact hmem1

theorem glitchCycles_scanLines_row0 (seed : ℤ → Rand) (ig : ImageGlitcher) (f : ℚ)
    (cycle : ℤ) (ps : Bool) (img : ImageRGBA) (r : Rand)
    (hW : 1 ≤ ig.Image.W) (hH : 1 ≤ ig.Image.H) (hhi : f ≤ 9) (hc : 1 ≤ cycle)
    (h : glitchCycles seed ig f cycle true ps false = some (img, r)) :
    (⟨0, 0, 0, 255⟩ : ColorRGBA) ∈ img.row 0 := by
  unfold glitchCycles forRangeM at h
  have key := forLoopM_ind (fun _ s => glitchCycle f true ps false s) (cycle - 0).toNat
    (fun k t => t.1.W = ig.Image.W ∧ t.1.H = ig.Image.H ∧
      (1 ≤ k → (⟨0, 0, 0, 255⟩ : ColorRGBA) ∈ t.1.row 0))
    0 (ig.Image, seed ig.Seed) (img, r) ⟨rfl, rfl, fun h0 => absurd h0 (by decide)⟩
    (fun k t u _ hP hu => by
      obtain ⟨tW, tH, _⟩ := hP
      obtain ⟨uW, uH, uM⟩ := glitchCycle_scanLines_row0 f ps t u hhi
        (by rw [tW]; exact hW) (by rw [tH]; exact hH) hu
      exact ⟨uW.trans tW, uH.trans tH, fun _ => uM⟩) h
  exact key.2.2 (by omega)

/-- C19 (amended). With scan-lines enabled and color-offset disabled, for a
raster with `W ≥ 1` and `H ≥ 1`, an intensity in [0.1, 9.0] and a cycle count
`≥ 1`, a call of `GlitchImage` that completes never returns the black-image
error: it returns the raster. -/
theorem GlitchImage_scanLines_not_black (seed : ℤ → Rand) (ig ig1 : ImageGlitcher) (f : ℚ)
    (cycle step : ℤ) (ps : Bool) (out : Outcome)
    (hW : 1 ≤ ig.Image.W) (hH : 1 ≤ ig.Image.H) (hlo : 1 / 10 ≤ f) (hhi : f ≤ 9)
    (hc : 1 ≤ cycle)
    (h : GlitchImage seed ig f cycle step true ps false = some (ig1, out)) :
    out ≠ Outcome.blackImageError ∧ out = Outcome.image ig1.Image := by
  unfold GlitchImage at h
  cases hcy : glitchCycles seed ig f cycle true ps false with
  | none => rw [hcy] at h; exact absurd h (by simp)
  | some p =>
    obtain ⟨img, r⟩ := p
    rw [hcy] at h
    simp only at h
    have hmem := glitchCycles_scanLines_row0 seed ig f cycle ps img r hW hH hhi hc hcy
    have hnb : isBlackImage img = false := by
      rw [Bool.eq_false_iff]
      intro hb
      obtain ⟨x, hx, hAt⟩ := (mem_row_iff img 0 _).1 hmem
      have hz := (isBlackImage_iff_allPixels img).1 hb
      by_cases hin : (0 : ℤ) < img.H
      · have := hz x 0 (by omega) (by omega) (le_refl 0) hin
        rw [hAt] at this
        exact absurd this.2.2.2 (by decide)
      · rw [At_outside img x 0 (by omega)] at hAt
        exact absurd hAt (by decide)
    rw [hnb] at h
    simp only [Bool.false_eq_true, if_false, Option.some.injEq, Prod.mk.injEq] at h
    obtain ⟨h1, h2⟩ := h
    subst h1 h2
    exact ⟨by simp, rfl⟩

theorem sampleScanned_isSome :
    (GlitchImage (fun _ => sampleRand) (glitcherOf sampleImage 7) 2 1 1 true true false).isSome
      = true := by
  decide!

theorem sampleScanned_eq :
    GlitchImage (fun _ => sampleRand) (glitcherOf sampleImage 7) 2 1 1 true true false
      = some (sampleScanned.1, sampleScanned.2) := by
  obtain ⟨p, hp⟩ := Option.isSome_iff_exists.1 sampleScanned_isSome
  unfold sampleScanned
  rw [hp]
  rfl

theorem GlitchImage_scanLines_not_black_witness :
    1 ≤ (glitcherOf sampleImage 7).Image.W ∧ 1 ≤ (glitcherOf sampleImage 7).Image.H ∧
    (1 / 10 : ℚ) ≤ 2 ∧ (2 : ℚ) ≤ 9 ∧ (1 : ℤ) ≤ 1 ∧
    GlitchImage (fun _ => sampleRand) (glitcherOf sampleImage 7) 2 1 1 true true false
      = some (sampleScanned.1, sampleScanned.2) ∧
    (sampleScanned.2 ≠ Outcome.blackImageError ∧
      sampleScanned.2 = Outcome.image sampleScanned.1.Image) :=
  ⟨by decide, by decide, by norm_num, by norm_num, le_refl 1, sampleScanned_eq,
    GlitchImage_scanLines_not_black (fun _ => sampleRand) (glitcherOf sampleImage 7)
      sampleScanned.1 2 1 1 true sampleScanned.2 (by decide) (by decide) (by norm_num)
      (by norm_num) (le_refl 1) sampleScanned_eq⟩

/-- C19 (counterexample). With scan-lines on, color-offset off and the
intensity 20 on the all-zero 1 by 4 raster, scan-lines writes (0,0,0,255) at
row 0, the random shift by 2 columns reads outside the raster and overwrites
it with (0,0,0,0), and `GlitchImage` returns the black-image error. -/
theorem GlitchImage_scanLines_black_at_intensity20 :
    (applyScanLines (uniformImage 1 4 ⟨0, 0, 0, 0⟩) 20).row 0 = [⟨0, 0, 0, 255⟩]
    ∧ (GlitchImage (fun _ => ⟨fun _ => 0⟩) (glitcherOf (uniformImage 1 4 ⟨0, 0, 0, 0⟩) 0)
        20 1 1 true false false).map (fun p => (p.2.isImage, p.1.Image.row 0))
      = some (false, [⟨0, 0, 0, 0⟩]) := by
  decide!

/-! ## sequence mode: the frame loop -/

theorem gifFrames_spec {P : Type} (seed : ℤ → Rand) (quantize : ImageRGBA → P) (f : ℚ)
    (cycle step delay frames : ℤ) (sl ps co : Bool) (hS : 1 ≤ step)
    (hb : frames + step ≤ 2 ^ 63) :
    ∀ (m fuel : ℕ) (i : ℤ) (st : FrameState P) (ig1 : ImageGlitcher) (outs : List ImageRGBA),
      m ≤ fuel → 0 ≤ i → frames ≤ i + m * step →
      (1 ≤ m → i + ((m : ℤ) - 1) * step < frames) →
      engineCalls seed f cycle step sl ps co m st.glitcher = some (ig1, outs) →
      gifFrames seed quantize f cycle step delay frames sl ps co fuel i st
          = some ⟨ig1, st.images ++ outs.map quantize, st.delays ++ List.replicate m delay⟩
        ∧ outs.length = m := by
  intro m
  induction m with
  | zero =>
    intro fuel i st ig1 outs _ _ hle _ h
    simp only [engineCalls, Option.some.injEq, Prod.mk.injEq] at h
    obtain ⟨h1, h2⟩ := h
    subst h1 h2
    have hi : ¬ i < frames := by push_cast at hle; omega
    refine ⟨?_, rfl⟩
    cases fuel with
    | zero => simp [gifFrames, hi]
    | succ fuel => simp [gifFrames, hi]
  | succ m ih =>
    intro fuel i st ig1 outs hfuel hi0 hle hlt h
    have hm0 : (0 : ℤ) ≤ (m : ℤ) * step := mul_nonneg (Int.ofNat_nonneg m) (by omega)
    have hi : i < frames := by
      have := hlt (Nat.succ_pos m)
      push_cast at this
      linarith
    obtain ⟨fuel1, rfl⟩ : ∃ k, fuel = k + 1 := ⟨fuel - 1, by omega⟩
    simp only [gifFrames, if_pos hi, gifFrameStep]
    rw [wrapInt_of_range (i + step) (by omega) (by omega)]
    simp only [engineCalls] at h
    cases hg : GlitchImage seed st.glitcher f cycle step sl ps co with
    | none => rw [hg] at h; exact absurd h (by simp)
    | some p =>
      obtain ⟨ig2, o⟩ := p
      rw [hg] at h
      cases o with
      | blackImageError => exact absurd h (by simp)
      | image img =>
        simp only at h ⊢
        cases he : engineCalls seed f cycle step sl ps co m ig2 with
        | none => rw [he] at h; exact absurd h (by simp)
        | some q =>
          obtain ⟨ig3, outs1⟩ := q
          rw [he] at h
          simp only [Option.some.injEq, Prod.mk.injEq] at h
          obtain ⟨h1, h2⟩ := h
          subst h1 h2
          obtain ⟨k1, k2⟩ := ih fuel1 (i + step)
            ⟨ig2, st.images ++ [quantize img], st.delays ++ [delay]⟩ ig3 outs1
            (by omega) (by omega) (by push_cast at hle; linarith)
            (fun _ => by
              have := hlt (Nat.succ_pos m)
              push_cast at this
              linarith) he
          rw [k1]
          refine ⟨?_, by rw [List.length_cons, k2]⟩
          simp only [List.map_cons, List.append_assoc, List.singleton_append,
            List.replicate_succ]

theorem ceil_div_bounds (N S : ℤ) (hS : 1 ≤ S) :
    N ≤ ⌈(N : ℚ) / (S : ℚ)⌉ * S ∧ (⌈(N : ℚ) / (S : ℚ)⌉ - 1) * S < N := by
  have hSq : (0 : ℚ) < (S : ℚ) := by exact_mod_cast (by omega : (0 : ℤ) < S)
  have h1 := Int.le_ceil ((N : ℚ) / (S : ℚ))
  have h2 := Int.ceil_lt_add_one ((N : ℚ) / (S : ℚ))
  constructor
  · have : (N : ℚ) ≤ (⌈(N : ℚ) / (S : ℚ)⌉ : ℚ) * S := by
      rw [div_le_iff₀ hSq] at h1; exact h1
    exact_mod_cast this
  · have : ((⌈(N : ℚ) / (S : ℚ)⌉ : ℚ) - 1) * S < N := by
      have h3 : (⌈(N : ℚ) / (S : ℚ)⌉ : ℚ) - 1 < (N : ℚ) / (S : ℚ) := by linarith
      rw [lt_div_iff₀ hSq] at h3; exact h3
    exact_mod_cast this

/-- C13 (amended). In sequence mode, for a frame count `N ≥ 1` and a step
`S ≥ 1` with `N + S ≤ 2^63` (the 64-bit loop counter does not overflow), if
none of the `ceil(N/S)` successive engine calls fails, the frame loop ends
having called the engine and appended a frame exactly `ceil(N/S)` times: the
frames are the returned rasters in production order, and the delay list has
the same length, every entry being the configured delay. -/
theorem gifFrameLoop_frames {P : Type} (seed : ℤ → Rand) (quantize : ImageRGBA → P)
    (ig ig1 : ImageGlitcher) (outs : List ImageRGBA) (g : ℚ) (cycle S delay N : ℤ)
    (sl ps co : Bool) (hN : 1 ≤ N) (hS : 1 ≤ S) (hb : N + S ≤ 2 ^ 63)
    (hok : engineCalls seed (f32 g) cycle S sl ps co ⌈(N : ℚ) / (S : ℚ)⌉.toNat ig
      = some (ig1, outs)) :
    gifFrameLoop seed quantize ig g cycle S delay N sl ps co
        = some ⟨ig1, outs.map quantize, List.replicate ⌈(N : ℚ) / (S : ℚ)⌉.toNat delay⟩
    ∧ (outs.map quantize).length = ⌈(N : ℚ) / (S : ℚ)⌉.toNat
    ∧ (List.replicate ⌈(N : ℚ) / (S : ℚ)⌉.toNat delay).length = ⌈(N : ℚ) / (S : ℚ)⌉.toNat := by
  obtain ⟨c1, c2⟩ := ceil_div_bounds N S hS
  have hc1 : 1 ≤ ⌈(N : ℚ) / (S : ℚ)⌉ := by
    by_contra hneg
    have : ⌈(N : ℚ) / (S : ℚ)⌉ * S ≤ 0 :=
      mul_nonpos_of_nonpos_of_nonneg (by omega) (by omega)
    omega
  have hcN : ⌈(N : ℚ) / (S : ℚ)⌉ ≤ N := by nlinarith
  have hcast : ((⌈(N : ℚ) / (S : ℚ)⌉.toNat : ℕ) : ℤ) = ⌈(N : ℚ) / (S : ℚ)⌉ :=
    Int.toNat_of_nonneg (by omega)
  obtain ⟨k1, k2⟩ := gifFrames_spec seed quantize (f32 g) cycle S delay N sl ps co hS hb
    ⌈(N : ℚ) / (S : ℚ)⌉.toNat (2 ^ 64) 0 ⟨ig, [], []⟩ ig1 outs (by omega) (le_refl 0)
    (by rw [hcast]; omega) (fun _ => by rw [hcast]; omega) hok
  refine ⟨?_, by rw [List.length_map, k2], List.length_replicate _ _⟩
  unfold gifFrameLoop
  rw [k1]
  simp only [List.nil_append]

theorem sampleSequence_count : ⌈((10 : ℤ) : ℚ) / ((2 : ℤ) : ℚ)⌉.toNat = 5 := by decide!

theorem sampleSequence_isSome :
    (engineCalls (fun _ => sampleRand) (f32 2) 1 2 false false false 5
      (glitcherOf sampleImage 7)).isSome = true := by
  decide!

theorem sampleSequence_eq :
    engineCalls (fun _ => sampleRand) (f32 2) 1 2 false false false
        ⌈((10 : ℤ) : ℚ) / ((2 : ℤ) : ℚ)⌉.toNat (glitcherOf sampleImage 7)
      = some (sampleSequence.1, sampleSequence.2) := by
  rw [sampleSequence_count]
  obtain ⟨p, hp⟩ := Option.isSome_iff_exists.1 sampleSequence_isSome
  unfold sampleSequence
  rw [hp]
  rfl

theorem gifFrameLoop_frames_witness :
    (1 : ℤ) ≤ 10 ∧ (1 : ℤ) ≤ 2 ∧ (10 : ℤ) + 2 ≤ 2 ^ 63 ∧
    engineCalls (fun _ => sampleRand) (f32 2) 1 2 false false false
        ⌈((10 : ℤ) : ℚ) / ((2 : ℤ) : ℚ)⌉.toNat (glitcherOf sampleImage 7)
      = some (sampleSequence.1, sampleSequence.2) ∧
    ⌈((10 : ℤ) : ℚ) / ((2 : ℤ) : ℚ)⌉.toNat = 5 ∧
    (gifFrameLoop (fun _ => sampleRand) ImageRGBA.rows (glitcherOf sampleImage 7) 2 1 2 10 10
        false false false
      = some ⟨sampleSequence.1, sampleSequence.2.map ImageRGBA.rows,
          List.replicate ⌈((10 : ℤ) : ℚ) / ((2 : ℤ) : ℚ)⌉.toNat 10⟩
    ∧ (sampleSequence.2.map ImageRGBA.rows).length = ⌈((10 : ℤ) : ℚ) / ((2 : ℤ) : ℚ)⌉.toNat
    ∧ (List.replicate ⌈((10 : ℤ) : ℚ) / ((2 : ℤ) : ℚ)⌉.toNat (10 : ℤ)).length
        = ⌈((10 : ℤ) : ℚ) / ((2 : ℤ) : ℚ)⌉.toNat) :=
  ⟨by decide, by decide, by decide, sampleSequence_eq, sampleSequence_count,
    gifFrameLoop_frames (fun _ => sampleRand) ImageRGBA.rows (glitcherOf sampleImage 7)
      sampleSequence.1 sampleSequence.2 2 1 2 10 10 false false false (by decide) (by decide)
      (by decide) sampleSequence_eq⟩

/-- With `N = 2^63 - 1` and `S = 2^63 - 2` the counter of the frame loop stays
even and below `N`: `i + S` is either below `N` or wraps to a negative value,
so the loop test never fails. -/
theorem gifFrames_overflow_runs_on {P : Type} (seed : ℤ → Rand) (quantize : ImageRGBA → P)
    (f : ℚ) (cycle delay : ℤ) (sl ps co : Bool) :
    ∀ (fuel : ℕ) (i : ℤ) (st : FrameState P), i % 2 = 0 → -2 ^ 63 ≤ i → i ≤ 2 ^ 63 - 2 →
      gifFrames seed quantize f cycle (2 ^ 63 - 2) delay (2 ^ 63 - 1) sl ps co fuel i st
        = none := by
  intro fuel
  induction fuel with
  | zero =>
    intro i st _ _ h3
    simp only [gifFrames]
    rw [if_pos (by omega)]
  | succ fuel ih =>
    intro i st h1 h2 h3
    simp only [gifFrames]
    rw [if_pos (by omega)]
    cases gifFrameStep seed quantize f cycle (2 ^ 63 - 2) delay sl ps co st with
    | none => rfl
    | some st1 =>
      simp only
      apply ih
      · unfold wrapInt; omega
      · unfold wrapInt; omega
      · unfold wrapInt; omega

theorem overflowSequence_count :
    ⌈(((2 ^ 63 - 1 : ℤ) : ℤ) : ℚ) / (((2 ^ 63 - 2 : ℤ) : ℤ) : ℚ)⌉ = 2 := by decide!

/-- C13 (counterexample). With `N = 2^63 - 1` frames and the step
`S = 2^63 - 2`, `ceil(N/S)` is 2, and on the sample raster (intensity 2, one
cycle) the first three engine calls succeed. The counter goes 0, `2^63 - 2`,
and then wraps to -4, which is below `N`: two rounds do not end the loop (it
has no result with two rounds allowed although both engine calls succeed), a
third frame is appended, and the loop never ends. -/
theorem gifFrameLoop_counter_wraps :
    ⌈(((2 ^ 63 - 1 : ℤ) : ℤ) : ℚ) / (((2 ^ 63 - 2 : ℤ) : ℤ) : ℚ)⌉ = 2
    ∧ wrapInt (0 + (2 ^ 63 - 2)) = 2 ^ 63 - 2
    ∧ wrapInt (2 ^ 63 - 2 + (2 ^ 63 - 2)) = -4
    ∧ (engineCalls (fun _ => sampleRand) (f32 2) 1 (2 ^ 63 - 2) false false false 3
        (glitcherOf sampleImage 7)).isSome = true
    ∧ gifFrames (fun _ => sampleRand) ImageRGBA.rows (f32 2) 1 (2 ^ 63 - 2) 10 (2 ^ 63 - 1)
        false false false 2 0 ⟨glitcherOf sampleImage 7, [], []⟩ = none
    ∧ gifFrameLoop (fun _ => sampleRand) ImageRGBA.rows (glitcherOf sampleImage 7) 2 1
        (2 ^ 63 - 2) 10 (2 ^ 63 - 1) false false false = none := by
  refine ⟨overflowSequence_count, by decide, by decide, by decide!, ?_, ?_⟩
  · exact gifFrames_overflow_runs_on _ _ _ _ _ _ _ _ 2 0 _ (by decide) (by decide) (by decide)
  · unfold gifFrameLoop
    exact gifFrames_overflow_runs_on _ _ _ _ _ _ _ _ _ 0 _ (by decide) (by decide) (by decide)

/-! ## determinism -/

theorem Same.refl (a : ImageRGBA) : a.Same a := ⟨rfl, rfl, fun _ _ => rfl⟩

theorem Same.trans {a b c : ImageRGBA} (h1 : a.Same b) (h2 : b.Same c) : a.Same c :=
  ⟨h1.1.trans h2.1, h1.2.1.trans h2.2.1, fun x y => (h1.2.2 x y).trans (h2.2.2 x y)⟩

theorem Set_same {a b : ImageRGBA} (h : a.Same b) (x y : ℤ) (c : ColorRGBA) :
    (a.Set x y c).Same (b.Set x y c) := by
  refine ⟨by rw [Set_W, Set_W, h.1], by rw [Set_H, Set_H, h.2.1], fun u v => ?_⟩
  rw [Set_At_prop, Set_At_prop, h.1, h.2.1, h.2.2]

theorem forLoop_rel {σ τ : Type} (R : σ → τ → Prop) (fa : ℤ → σ → σ) (fb : ℤ → τ → τ)
    (h : ∀ i a b, R a b → R (fa i a) (fb i b)) :
    ∀ (n : ℕ) (lo : ℤ) (a : σ) (b : τ), R a b → R (forLoop fa n lo a) (forLoop fb n lo b) := by
  intro n
  induction n with
  | zero => intro lo a b hab; exact hab
  | succ n ih => intro lo a b hab; exact ih (lo + 1) _ _ (h lo a b hab)

theorem row_same {a b : ImageRGBA} (h : a.Same b) (y : ℤ) : a.row y = b.row y :=
  row_congr a b y h.1 (fun u => h.2.2 u y)

theorem applyScanLines_same {a b : ImageRGBA} (h : a.Same b) (f : ℚ) :
    (applyScanLines a f).Same (applyScanLines b f) := by
  obtain ⟨aW, aH, aAt⟩ := applyScanLines_At a f
  obtain ⟨bW, bH, bAt⟩ := applyScanLines_At b f
  refine ⟨by rw [aW, bW, h.1], by rw [aH, bH, h.2.1], fun x y => ?_⟩
  rw [aAt, bAt, h.1, h.2.1, h.2.2]

theorem applyPixelSort_same {a b : ImageRGBA} (h : a.Same b) :
    (applyPixelSort a).Same (applyPixelSort b) := by
  obtain ⟨aW, aH, aAt⟩ := applyPixelSort_At a
  obtain ⟨bW, bH, bAt⟩ := applyPixelSort_At b
  refine ⟨by rw [aW, bW, h.1], by rw [aH, bH, h.2.1], fun x y => ?_⟩
  rw [aAt, bAt, h.1, h.2.1, h.2.2, row_same h]

theorem colorOffsetPixel_same {a b : ImageRGBA} (h : a.Same b)
    (channel offsetX offsetY x y : ℤ) :
    (colorOffsetPixel channel offsetX offsetY x y a).Same
      (colorOffsetPixel channel offsetX offsetY x y b) := by
  unfold colorOffsetPixel
  simp only [RGBAAt_eq_At, h.1, h.2.1, h.2.2]
  split_ifs
  · exact Set_same h _ _ _
  · exact Set_same h _ _ _
  · exact Set_same h _ _ _
  · exact h

theorem applyColorOffset_same {a b : ImageRGBA} (h : a.Same b) (f : ℚ) (r : Rand) :
    SameRun (applyColorOffset a f r) (applyColorOffset b f r) := by
  unfold applyColorOffset
  cases colorOffsetDraws f r with
  | none => exact trivial
  | some p =>
    obtain ⟨⟨ox, oy, ch⟩, r3⟩ := p
    refine ⟨?_, rfl⟩
    unfold forRange
    rw [h.2.1]
    apply forLoop_rel ImageRGBA.Same _ _ _ _ _ _ _ h
    intro y a1 b1 h1
    simp only [h1.1]
    apply forLoop_rel ImageRGBA.Same _ _ _ _ _ _ _ h1
    intro x a2 b2 h2
    exact colorOffsetPixel_same h2 _ _ _ _ _

theorem extractChunk_congr {a b : ImageRGBA} (h : a.Same b)
    (startY stopY startX stopX : ℤ) :
    extractChunk a startY stopY startX stopX = extractChunk b startY stopY startX stopX := by
  unfold extractChunk
  simp only [h.2.2]

theorem placeChunk_same {a b : ImageRGBA} (h : a.Same b) (chunk : ImageRGBA)
    (startY stopY startX stopX : ℤ) :
    (placeChunk a chunk startY stopY startX stopX).Same
      (placeChunk b chunk startY stopY startX stopX) := by
  obtain ⟨aW, aH, aAt⟩ := placeChunk_spec a chunk startY stopY startX stopX
  obtain ⟨bW, bH, bAt⟩ := placeChunk_spec b chunk startY stopY startX stopX
  refine ⟨by rw [aW, bW, h.1], by rw [aH, bH, h.2.1], fun x y => ?_⟩
  rw [aAt, bAt, h.1, h.2.1, h.2.2]

theorem glitchLeft_same {a b : ImageRGBA} (h : a.Same b) (o : ℤ) (r : Rand) :
    SameRun (glitchLeft a o r) (glitchLeft b o r) := by
  unfold glitchLeft
  rw [h.1, h.2.1]
  cases Intn b.H r with
  | none => exact trivial
  | some p1 =>
    obtain ⟨startY, r1⟩ := p1
    simp only
    cases Intn (Int.tdiv b.H 4) r1 with
    | none => exact trivial
    | some p2 =>
      obtain ⟨c, r2⟩ := p2
      simp only
      rw [extractChunk_congr h, extractChunk_congr h]
      exact ⟨placeChunk_same (placeChunk_same h _ _ _ _ _) _ _ _ _ _, rfl⟩

theorem glitchRight_same {a b : ImageRGBA} (h : a.Same b) (o : ℤ) (r : Rand) :
    SameRun (glitchRight a o r) (glitchRight b o r) := by
  unfold glitchRight
  rw [h.1, h.2.1]
  cases Intn b.H r with
  | none => exact trivial
  | some p1 =>
    obtain ⟨startY, r1⟩ := p1
    simp only
    cases Intn (Int.tdiv b.H 4) r1 with
    | none => exact trivial
    | some p2 =>
      obtain ⟨c, r2⟩ := p2
      simp only
      rw [extractChunk_congr h, extractChunk_congr h]
      exact ⟨placeChunk_same (placeChunk_same h _ _ _ _ _) _ _ _ _ _, rfl⟩

theorem randomGlitchStep_same (m : ℤ) (s t : ImageRGBA × Rand)
    (h : SameRun (some s) (some t)) :
    SameRun (randomGlitchStep m s) (randomGlitchStep m t) := by
  obtain ⟨a, r⟩ := s
  obtain ⟨b, r0⟩ := t
  obtain ⟨hab, hr⟩ : a.Same b ∧ r = r0 := h
  subst hr
  unfold randomGlitchStep
  simp only
  cases Intn (2 * m) r with
  | none => exact trivial
  | some p =>
    obtain ⟨d, r1⟩ := p
    simp only
    split_ifs
    · exact ⟨hab, rfl⟩
    · exact glitchLeft_same hab _ _
    · exact glitchRight_same hab _ _

theorem forLoopM_same (fa fb : ℤ → ImageRGBA × Rand → Option (ImageRGBA × Rand))
    (h : ∀ i s t, SameRun (some s) (some t) → SameRun (fa i s) (fb i t)) :
    ∀ (n : ℕ) (lo : ℤ) (s t : ImageRGBA × Rand), SameRun (some s) (some t) →
      SameRun (forLoopM fa n lo s) (forLoopM fb n lo t) := by
  intro n
  induction n with
  | zero => intro lo s t hst; exact hst
  | succ n ih =>
    intro lo s t hst
    have hs := h lo s t hst
    simp only [forLoopM]
    cases ha : fa lo s with
    | none =>
      cases hb : fb lo t with
      | none => exact trivial
      | some q => rw [ha, hb] at hs; exact absurd hs (by simp [SameRun])
    | some p =>
      cases hb : fb lo t with
      | none => rw [ha, hb] at hs; exact absurd hs (by simp [SameRun])
      | some q =>
        rw [ha, hb] at hs
        exact ih (lo + 1) p q hs

theorem applyRandomGlitch_same {a b : ImageRGBA} (h : a.Same b) (f : ℚ) (r : Rand) :
    SameRun (applyRandomGlitch a f r) (applyRandomGlitch b f r) := by
  unfold applyRandomGlitch forRangeM
  rw [h.1]
  exact forLoopM_same _ _ (fun _ s t hst => randomGlitchStep_same _ s t hst) _ _ _ _
    ⟨h, rfl⟩

theorem glitchCycle_same (f : ℚ) (sl ps co : Bool) (s t : ImageRGBA × Rand)
    (h : SameRun (some s) (some t)) :
    SameRun (glitchCycle f sl ps co s) (glitchCycle f sl ps co t) := by
  obtain ⟨a, r⟩ := s
  obtain ⟨b, r0⟩ := t
  obtain ⟨hab, hr⟩ : a.Same b ∧ r = r0 := h
  subst hr
  have h1 : (if sl = true then applyScanLines a f else a).Same
      (if sl = true then applyScanLines b f else b) := by
    split_ifs
    · exact applyScanLines_same hab f
    · exact hab
  have h2 : (if ps = true then applyPixelSort (if sl = true then applyScanLines a f else a)
        else if sl = true then applyScanLines a f else a).Same
      (if ps = true then applyPixelSort (if sl = true then applyScanLines b f else b)
        else if sl = true then applyScanLines b f else b) := by
    split_ifs
    · exact applyPixelSort_same (applyScanLines_same hab f)
    · exact applyPixelSort_same hab
    · exact applyScanLines_same hab f
    · exact hab
  unfold glitchCycle
  simp only
  cases co with
  | false =>
    simp only [Bool.false_eq_true, if_false]
    exact applyRandomGlitch_same h2 f r
  | true =>
    simp only [if_true]
    have h3 := applyColorOffset_same h2 f r
    cases hx : applyColorOffset (if ps = true then applyPixelSort
        (if sl = true then applyScanLines a f else a)
        else if sl = true then applyScanLines a f else a) f r with
    | none =>
      cases hy : applyColorOffset (if ps = true then applyPixelSort
          (if sl = true then applyScanLines b f else b)
          else if sl = true then applyScanLines b f else b) f r with
      | none => exact trivial
      | some q => rw [hx, hy] at h3; exact absurd h3 (by simp [SameRun])
    | some p =>
      cases hy : applyColorOffset (if ps = true then applyPixelSort
          (if sl = true then applyScanLines b f else b)
          else if sl = true then applyScanLines b f else b) f r with
      | none => rw [hx, hy] at h3; exact absurd h3 (by simp [SameRun])
      | some q =>
        rw [hx, hy] at h3
        obtain ⟨a3, r3⟩ := p
        obtain ⟨b3, r4⟩ := q
        obtain ⟨h4, h5⟩ : a3.Same b3 ∧ r3 = r4 := h3
        subst h5
        exact applyRandomGlitch_same h4 f r3

theorem isBlackImage_same {a b : ImageRGBA} (h : a.Same b) :
    isBlackImage a = isBlackImage b := by
  have key : a.AllPixels ColorRGBA.IsZero ↔ b.AllPixels ColorRGBA.IsZero := by
    unfold ImageRGBA.AllPixels
    simp only [h.1, h.2.1, h.2.2]
  cases ha : isBlackImage a with
  | true =>
    exact ((isBlackImage_iff_allPixels b).2 (key.1 ((isBlackImage_iff_allPixels a).1 ha))).symm
  | false =>
    cases hb : isBlackImage b with
    | false => rfl
    | true =>
      rw [(isBlackImage_iff_allPixels a).2 (key.2 ((isBlackImage_iff_allPixels b).1 hb))] at ha
      exact absurd ha (by decide)

theorem glitchCycles_same (seed : ℤ → Rand) (ig1 ig2 : ImageGlitcher) (f : ℚ) (cycle : ℤ)
    (sl ps co : Bool) (hi : ig1.Image.Same ig2.Image) (hs : ig1.Seed = ig2.Seed) :
    SameRun (glitchCycles seed ig1 f cycle sl ps co) (glitchCycles seed ig2 f cycle sl ps co) := by
  unfold glitchCycles forRangeM
  rw [hs]
  exact forLoopM_same _ _ (fun _ s t hst => glitchCycle_same f sl ps co s t hst) _ _ _ _
    ⟨hi, rfl⟩

/-- Once the source yields the same stream after `rand.Seed`, two calls of
`GlitchImage` on rasters that are equal pixel for pixel, with the same seed,
intensity, cycle count and flags, both panic, or both return the black-image
error, or both return rasters that are equal pixel for pixel. -/
theorem GlitchImage_deterministic (seed : ℤ → Rand) (ig1 ig2 : ImageGlitcher) (f : ℚ)
    (cycle step : ℤ) (sl ps co : Bool) (hi : ig1.Image.Same ig2.Image)
    (hs : ig1.Seed = ig2.Seed) :
    SameResult (GlitchImage seed ig1 f cycle step sl ps co)
        (GlitchImage seed ig2 f cycle step sl ps co)
    ∧ (∀ seed1 : ℤ → Rand, seed1 ig1.Seed = seed ig1.Seed →
        GlitchImage seed1 ig1 f cycle step sl ps co
          = GlitchImage seed ig1 f cycle step sl ps co) := by
  constructor
  · have h := glitchCycles_same seed ig1 ig2 f cycle sl ps co hi hs
    unfold GlitchImage
    cases hx : glitchCycles seed ig1 f cycle sl ps co with
    | none =>
      cases hy : glitchCycles seed ig2 f cycle sl ps co with
      | none => exact trivial
      | some q => rw [hx, hy] at h; exact absurd h (by simp [SameRun])
    | some p =>
      cases hy : glitchCycles seed ig2 f cycle sl ps co with
      | none => rw [hx, hy] at h; exact absurd h (by simp [SameRun])
      | some q =>
        rw [hx, hy] at h
        obtain ⟨a, r⟩ := p
        obtain ⟨b, r0⟩ := q
        obtain ⟨hab, _⟩ : a.Same b ∧ r = r0 := h
        simp only
        rw [isBlackImage_same hab]
        cases isBlackImage b with
        | true => exact hab
        | false => exact ⟨hab, hab⟩
  · intro seed1 h1
    unfold GlitchImage glitchCycles
    rw [h1]

/-- When `rand.Seed` restarts the source, the state the process left it in
does not enter the result. -/
theorem GlitchImage_seedRestarts (gen : ℤ → Rand) (prior1 prior2 : Rand) (ig : ImageGlitcher)
    (f : ℚ) (cycle step : ℤ) (sl ps co : Bool) :
    GlitchImage (seedRestarts gen prior1) ig f cycle step sl ps co
      = GlitchImage (seedRestarts gen prior2) ig f cycle step sl ps co := rfl

/-- C14 (failing input). Two runs on the sample raster with the same seed 42,
intensity 2.0, one cycle and every optional effect off, in two processes built
with Go 1.24 or later, where `rand.Seed` has no effect, whose sources start in
different states (the draws 0, 1, 2, ... in one, the draw 1 throughout in the
other): both return a raster, and the rasters differ in row 1, which one run
rotates by two columns and the other leaves as it was. -/
theorem GlitchImage_same_seed_differs :
    (GlitchImage (seedNoOp sampleRand) (glitcherOf sampleImage 42) 2 1 1
        false false false).map (fun p => (p.2.isImage, p.1.Image.row 1))
      = some (true, [⟨120, 10, 7, 102⟩, ⟨80, 10, 7, 103⟩, ⟨40, 10, 7, 104⟩,
          ⟨200, 10, 7, 100⟩, ⟨160, 10, 7, 101⟩])
    ∧ (GlitchImage (seedNoOp ⟨fun _ => 1⟩) (glitcherOf sampleImage 42) 2 1 1
        false false false).map (fun p => (p.2.isImage, p.1.Image.row 1))
      = some (true, [⟨200, 10, 7, 100⟩, ⟨160, 10, 7, 101⟩, ⟨120, 10, 7, 102⟩,
          ⟨80, 10, 7, 103⟩, ⟨40, 10, 7, 104⟩]) := by
  decide!

/-! ## an all-zero raster stays all zero -/

theorem getD_zero_of_all_zero (l : List ColorRGBA) (i : ℕ)
    (h : ∀ c ∈ l, c = ColorRGBA.zero) : l.getD i ColorRGBA.zero = ColorRGBA.zero := by
  by_cases hi : i < l.length
  · rw [List.getD_eq_getElem _ _ hi]
    exact h _ (List.getElem_mem _)
  · rw [List.getD_eq_default _ _ (by omega)]

theorem applyPixelSort_zero (img : ImageRGBA)
    (h : ∀ u v : ℤ, img.At u v = ColorRGBA.zero) :
    ∀ u v : ℤ, (applyPixelSort img).At u v = ColorRGBA.zero := by
  obtain ⟨_, _, hAt⟩ := applyPixelSort_At img
  intro u v
  rw [hAt]
  split_ifs
  · apply getD_zero_of_all_zero
    intro c hc
    have hc1 := (sortSlice_perm brightnessLess (img.row v)).mem_iff.1 hc
    obtain ⟨x, _, hx⟩ := (mem_row_iff img v c).1 hc1
    rw [← hx]; exact h _ _
  · exact h u v

theorem colorOffsetPixel_zero (img : ImageRGBA) (channel offsetX offsetY x y : ℤ)
    (h : ∀ u v : ℤ, img.At u v = ColorRGBA.zero) :
    ∀ u v : ℤ, (colorOffsetPixel channel offsetX offsetY x y img).At u v = ColorRGBA.zero := by
  intro u v
  unfold colorOffsetPixel
  simp only [RGBAAt_eq_At, h, ColorRGBA.RGBA, ColorRGBA.zero]
  split_ifs <;> first
    | (rw [Set_At_prop]; split_ifs <;> first | rfl | exact h u v)
    | exact h u v

theorem applyColorOffset_zero (img out : ImageRGBA) (f : ℚ) (r r1 : Rand)
    (h : ∀ u v : ℤ, img.At u v = ColorRGBA.zero)
    (hr : applyColorOffset img f r = some (out, r1)) :
    ∀ u v : ℤ, out.At u v = ColorRGBA.zero := by
  unfold applyColorOffset at hr
  cases hd : colorOffsetDraws f r with
  | none => rw [hd] at hr; exact absurd hr (by simp)
  | some p =>
    obtain ⟨⟨ox, oy, ch⟩, r3⟩ := p
    rw [hd] at hr
    simp only [Option.some.injEq, Prod.mk.injEq] at hr
    rw [← hr.1]
    unfold forRange
    apply forLoop_ind _ _
      (fun (_ : ℕ) (t : ImageRGBA) => ∀ u v : ℤ, t.At u v = ColorRGBA.zero) _ _ h
    intro k t _ ht
    apply forLoop_ind _ _
      (fun (_ : ℕ) (t : ImageRGBA) => ∀ u v : ℤ, t.At u v = ColorRGBA.zero) _ _ ht
    intro j t1 _ ht1
    exact colorOffsetPixel_zero t1 _ _ _ _ _ ht1

theorem placeChunk_zero (img chunk : ImageRGBA) (startY stopY startX stopX : ℤ)
    (h : ∀ u v : ℤ, img.At u v = ColorRGBA.zero)
    (hc : ∀ u v : ℤ, chunk.At u v = ColorRGBA.zero) :
    ∀ u v : ℤ, (placeChunk img chunk startY stopY startX stopX).At u v = ColorRGBA.zero := by
  obtain ⟨_, _, hAt⟩ := placeChunk_spec img chunk startY stopY startX stopX
  intro u v
  rw [hAt]
  split_ifs
  · exact hc _ _
  · exact h _ _

theorem extractChunk_zero (img : ImageRGBA) (startY stopY startX stopX : ℤ)
    (h : ∀ u v : ℤ, img.At u v = ColorRGBA.zero) :
    ∀ u v : ℤ, (extractChunk img startY stopY startX stopX).At u v = ColorRGBA.zero := by
  intro u v
  rw [extractChunk_At]
  split_ifs
  · exact h _ _
  · rfl

theorem glitchLeft_zero (img out : ImageRGBA) (o : ℤ) (r r1 : Rand)
    (h : ∀ u v : ℤ, img.At u v = ColorRGBA.zero)
    (hr : glitchLeft img o r = some (out, r1)) :
    ∀ u v : ℤ, out.At u v = ColorRGBA.zero := by
  unfold glitchLeft at hr
  cases h1 : Intn img.H r with
  | none => rw [h1] at hr; exact absurd hr (by simp)
  | some p1 =>
    obtain ⟨startY, ra⟩ := p1
    rw [h1] at hr
    simp only at hr
    cases h2 : Intn (Int.tdiv img.H 4) ra with
    | none => rw [h2] at hr; exact absurd hr (by simp)
    | some p2 =>
      obtain ⟨c, rb⟩ := p2
      rw [h2] at hr
      simp only [Option.some.injEq, Prod.mk.injEq] at hr
      rw [← hr.1]
      exact placeChunk_zero _ _ _ _ _ _
        (placeChunk_zero _ _ _ _ _ _ h (extractChunk_zero _ _ _ _ _ h))
        (extractChunk_zero _ _ _ _ _ h)

theorem glitchRight_zero (img out : ImageRGBA) (o : ℤ) (r r1 : Rand)
    (h : ∀ u v : ℤ, img.At u v = ColorRGBA.zero)
    (hr : glitchRight img o r = some (out, r1)) :
    ∀ u v : ℤ, out.At u v = ColorRGBA.zero := by
  unfold glitchRight at hr
  cases h1 : Intn img.H r with
  | none => rw [h1] at hr; exact absurd hr (by simp)
  | some p1 =>
    obtain ⟨startY, ra⟩ := p1
    rw [h1] at hr
    simp only at hr
    cases h2 : Intn (Int.tdiv img.H 4) ra with
    | none => rw [h2] at hr; exact absurd hr (by simp)
    | some p2 =>
      obtain ⟨c, rb⟩ := p2
      rw [h2] at hr
      simp only [Option.some.injEq, Prod.mk.injEq] at hr
      rw [← hr.1]
      exact placeChunk_zero _ _ _ _ _ _
        (placeChunk_zero _ _ _ _ _ _ h (extractChunk_zero _ _ _ _ _ h))
        (extractChunk_zero _ _ _ _ _ h)

theorem randomGlitchStep_zero (m : ℤ) (s t : ImageRGBA × Rand)
    (h : ∀ u v : ℤ, s.1.At u v = ColorRGBA.zero)
    (hr : randomGlitchStep m s = some t) :
    ∀ u v : ℤ, t.1.At u v = ColorRGBA.zero := by
  unfold randomGlitchStep at hr
  cases h1 : Intn (2 * m) s.2 with
  | none => rw [h1] at hr; exact absurd hr (by simp)
  | some p =>
    obtain ⟨d, ra⟩ := p
    rw [h1] at hr
    simp only at hr
    obtain ⟨out, rb⟩ := t
    split_ifs at hr
    · simp only [Option.some.injEq, Prod.mk.injEq] at hr
      rw [← hr.1]; exact h
    · exact glitchLeft_zero _ _ _ _ _ h hr
    · exact glitchRight_zero _ _ _ _ _ h hr

theorem applyRandomGlitch_zero (img out : ImageRGBA) (f : ℚ) (r r1 : Rand)
    (h : ∀ u v : ℤ, img.At u v = ColorRGBA.zero)
    (hr : applyRandomGlitch img f r = some (out, r1)) :
    ∀ u v : ℤ, out.At u v = ColorRGBA.zero := by
  unfold applyRandomGlitch forRangeM at hr
  exact forLoopM_ind (fun _ s => randomGlitchStep (maxOffsetOf f img.W) s) _
    (fun (_ : ℕ) (t : ImageRGBA × Rand) => ∀ u v : ℤ, t.1.At u v = ColorRGBA.zero) 0 (img, r)
    (out, r1) h (fun k t u _ hP hu => randomGlitchStep_zero _ t u hP hu) hr

theorem glitchCycle_zero (f : ℚ) (ps co : Bool) (s t : ImageRGBA × Rand)
    (h : ∀ u v : ℤ, s.1.At u v = ColorRGBA.zero)
    (hr : glitchCycle f false ps co s = some t) :
    ∀ u v : ℤ, t.1.At u v = ColorRGBA.zero := by
  have h2 : ∀ u v : ℤ, (if ps = true then applyPixelSort s.1 else s.1).At u v
      = ColorRGBA.zero := by
    split_ifs
    · exact applyPixelSort_zero _ h
    · exact h
  obtain ⟨out, rb⟩ := t
  unfold glitchCycle at hr
  simp only [Bool.false_eq_true, if_false] at hr
  cases co with
  | false =>
    simp only [Bool.false_eq_true, if_false] at hr
    exact applyRandomGlitch_zero _ _ _ _ _ h2 hr
  | true =>
    simp only [if_true] at hr
    cases hx : applyColorOffset (if ps = true then applyPixelSort s.1 else s.1) f s.2 with
    | none => rw [hx] at hr; exact absurd hr (by simp)
    | some p =>
      obtain ⟨a3, r3⟩ := p
      rw [hx] at hr
      exact applyRandomGlitch_zero _ _ _ _ _ (applyColorOffset_zero _ _ _ _ _ h2 hx) hr

/-- On an all-zero raster with scan-lines off, a call of `GlitchImage` that
completes returns the black-image error, for every intensity, cycle count and
seed: pixel-sort, color-offset and the random shift leave it all zero. -/
theorem GlitchImage_all_zero_completed (seed : ℤ → Rand) (ig ig1 : ImageGlitcher) (f : ℚ)
    (cycle step : ℤ) (ps co : Bool) (out : Outcome)
    (hz : ∀ u v : ℤ, ig.Image.At u v = ColorRGBA.zero)
    (h : GlitchImage seed ig f cycle step false ps co = some (ig1, out)) :
    out = Outcome.blackImageError := by
  unfold GlitchImage at h
  cases hc : glitchCycles seed ig f cycle false ps co with
  | none => rw [hc] at h; exact absurd h (by simp)
  | some p =>
    obtain ⟨img, r⟩ := p
    rw [hc] at h
    simp only at h
    have hfin : ∀ u v : ℤ, img.At u v = ColorRGBA.zero := by
      unfold glitchCycles forRangeM at hc
      exact forLoopM_ind (fun _ s => glitchCycle f false ps co s) _
        (fun (_ : ℕ) (t : ImageRGBA × Rand) => ∀ u v : ℤ, t.1.At u v = ColorRGBA.zero) 0
        (ig.Image, seed ig.Seed) (img, r) hz
        (fun k t u _ hP hu => glitchCycle_zero f ps co t u hP hu) hc
    have hb : isBlackImage img = true := by
      rw [isBlackImage_iff_allPixels]
      intro x y _ _ _ _
      rw [hfin]
      exact ⟨rfl, rfl, rfl, rfl⟩
    rw [hb] at h
    simp only [if_true, Option.some.injEq, Prod.mk.injEq] at h
    exact h.2.symm

/-! ## color offset: the source coordinate -/

/-- Where the shifted coordinate plus the width is not negative, the source
coordinate of `applyColorOffset` is the mathematical remainder and lies inside
the raster. -/
theorem sourceCoordinate_of_nonneg (x o W : ℤ) (hW : 0 < W) (h : 0 ≤ x + o + W) :
    Int.tmod (x + o + W) W = (x + o) % W ∧ 0 ≤ Int.tmod (x + o + W) W ∧
      Int.tmod (x + o + W) W < W := by
  rw [Int.tmod_eq_emod h (le_of_lt hW), Int.add_emod_self]
  exact ⟨rfl, Int.emod_nonneg _ (by omega), Int.emod_lt_of_pos _ hW⟩

end Glitcher
